import Mathlib

/-! go-bot: the task registry, the serial queue worker and the shared display

A shallow embedding of `tgbot.go`.

Conventions of the embedding

* Go `int` and `int64` values are Lean `Int`s.  The per-user counters and the
  pending counts only ever move by one per call, so the 64-bit wrap-around is
  out of reach of any run and is not modelled.
* A Go `string` is the list of its bytes (`GoString`); string constants of the
  source are written with `utf8`.
* A Go `map` is an association list holding at most one entry per key
  (`mapGet`, `mapSet`, `mapDelete`, length for `len`).  The nested maps of the
  registry are reference values in Go: deleting from the inner map is
  written back to the outer map here.
* `*Task` and `*QueuedTask` are addresses into a `Heap` of objects.  The tables
  of the registry, the channel and the worker hold addresses, so a write through
  one alias is seen through every other alias, as in Go.  The program never
  stores a nil `*Task` or `*QueuedTask`; reading through an address that was
  never allocated yields a default object.
* The handlers run one after the other on the main goroutine; the queue worker
  is a second goroutine.  A step of the program is one handler call, one call
  of a registry method, or one step of the worker between two of its
  synchronisation points.
* Calls that leave the program (signals, sleeping, the Telegram API, starting
  the runner) are recorded as `Effect`s.
* The clock is read where the source reads it; its values are integers, in
  milliseconds, and a step is given the values of its reads.
-/

namespace GoBot

/-! ## Strings -/

/-- A Go string: its bytes. -/
abbrev GoString := List Nat

/-- UTF-8 encoding of one code point. -/
def utf8Char (c : Nat) : List Nat :=
  if c < 0x80 then [c]
  else if c < 0x800 then [0xC0 + c / 64, 0x80 + c % 64]
  else if c < 0x10000 then [0xE0 + c / 4096, 0x80 + (c / 64) % 64, 0x80 + c % 64]
  else [0xF0 + c / 262144, 0x80 + (c / 4096) % 64, 0x80 + (c / 64) % 64, 0x80 + c % 64]

/-- The bytes of a string constant of the source. -/
def utf8 (s : String) : GoString :=
  (s.data.map (fun c => utf8Char c.toNat)).flatten

/-- Decimal rendering of an integer, the verb `%d` of `fmt.Sprintf`. -/
def itoa (n : Int) : GoString :=
  if n < 0 then 45 :: (Nat.toDigits 10 n.natAbs).map Char.toNat
  else (Nat.toDigits 10 n.natAbs).map Char.toNat

/-- Function `strings.HasPrefix` with the arguments in Go order. -/
def startsWith (s pre : GoString) : Bool := pre.isPrefixOf s

/-- Function `strings.Contains`. -/
def contains : GoString → GoString → Bool
  | [], sub => sub.isEmpty
  | b :: rest, sub => startsWith (b :: rest) sub || contains rest sub

/-- Function `strings.Index`: the byte offset of the first occurrence, `none`
for the result `-1`. -/
def indexOf : GoString → GoString → Option Nat
  | [], sub => if sub.isEmpty then some 0 else none
  | b :: rest, sub =>
    if startsWith (b :: rest) sub then some 0
    else (indexOf rest sub).map (fun i => i + 1)

/-- Worker of `replaceAll`: the first argument counts the bytes of the current
match that are still to be skipped. -/
def replaceAllAux (old new : GoString) : Nat → GoString → GoString
  | _, [] => []
  | skip + 1, _ :: rest => replaceAllAux old new skip rest
  | 0, b :: rest =>
    if startsWith (b :: rest) old then new ++ replaceAllAux old new (old.length - 1) rest
    else b :: replaceAllAux old new 0 rest

/-- Function `strings.ReplaceAll` for a non-empty `old`: the matches are taken
from left to right and do not overlap. -/
def replaceAll (s old new : GoString) : GoString := replaceAllAux old new 0 s

/-- The white-space characters of `unicode.IsSpace`, as code points: the six
ASCII spaces, U+0085, U+00A0, U+1680, U+2000 to U+200A, U+2028, U+2029, U+202F,
U+205F and U+3000. -/
def spaceRunes : List Nat :=
  [0x09, 0x0A, 0x0B, 0x0C, 0x0D, 0x20, 0x85, 0xA0, 0x1680, 0x2000, 0x2001, 0x2002, 0x2003,
   0x2004, 0x2005, 0x2006, 0x2007, 0x2008, 0x2009, 0x200A, 0x2028, 0x2029, 0x202F, 0x205F,
   0x3000]

/-- The characters of the cutset `" -–—:："` of lines 1294 and 1321, as code
points. -/
def cutsetRunes : List Nat := " -–—:：".data.map Char.toNat

/-- Width in bytes of the character of `runes` that starts `s`, and 0 when `s`
starts with none of them. -/
def runeWidth (runes : List Nat) (s : GoString) : Nat :=
  match (runes.map utf8Char).find? (fun c => c.isPrefixOf s) with
  | some c => c.length
  | none => 0

/-- Width in bytes of the character of `runes` that ends the string whose
reversal is `r`, and 0 when it ends with none of them. -/
def runeWidthRev (runes : List Nat) (r : GoString) : Nat :=
  match (runes.map utf8Char).find? (fun c => c.reverse.isPrefixOf r) with
  | some c => c.length
  | none => 0

/-- Drop leading characters as long as `width` reports one; the first argument
bounds the number of rounds. -/
def dropWhileWidth (width : GoString → Nat) : Nat → GoString → GoString
  | 0, s => s
  | n + 1, s => if width s = 0 then s else dropWhileWidth width n (s.drop (width s))

/-- Function `strings.TrimSpace`: white-space characters are dropped at the
start, then at the end. -/
def trimSpace (s : GoString) : GoString :=
  (dropWhileWidth (runeWidthRev spaceRunes) s.length
    (dropWhileWidth (runeWidth spaceRunes) s.length s).reverse).reverse

/-- The call `strings.TrimLeft(s, " -–—:：")`. -/
def trimLeftCutset (s : GoString) : GoString :=
  dropWhileWidth (runeWidth cutsetRunes) s.length s

/-- Worker of `splitLines`: `cur` holds the bytes of the current segment in
reverse. -/
def splitLinesAux : GoString → GoString → List GoString
  | cur, [] => [cur.reverse]
  | cur, b :: rest =>
    if b = 10 then cur.reverse :: splitLinesAux [] rest else splitLinesAux (b :: cur) rest

/-- The call `strings.Split(s, "\n")`. -/
def splitLines (s : GoString) : List GoString := splitLinesAux [] s

/-- The effect of `strings.ToLower` on the ASCII letters.  The rendering of a
line only asks whether the lowered text contains `"t.me"` (lines 1333 and 1346),
and no character outside ASCII lowers to one of these four characters, so only
this part of `strings.ToLower` is kept. -/
def toLower (s : GoString) : GoString :=
  s.map (fun b => if 65 ≤ b ∧ b ≤ 90 then b + 32 else b)

/-- Function `strings.Join`. -/
def joinWith (sep : GoString) : List GoString → GoString
  | [] => []
  | [x] => x
  | x :: y :: rest => x ++ sep ++ joinWith sep (y :: rest)

/-! ## Go maps -/

/-- Map read `m[k]` in its two-valued form: `none` when the key is absent. -/
def mapGet {κ ν : Type} [DecidableEq κ] : List (κ × ν) → κ → Option ν
  | [], _ => none
  | (k1, v) :: rest, k => if k1 = k then some v else mapGet rest k

/-- Map write `m[k] = v`. -/
def mapSet {κ ν : Type} [DecidableEq κ] : List (κ × ν) → κ → ν → List (κ × ν)
  | [], k, v => [(k, v)]
  | (k1, v1) :: rest, k, v =>
    if k1 = k then (k, v) :: rest else (k1, v1) :: mapSet rest k v

/-- Builtin `delete(m, k)`. -/
def mapDelete {κ ν : Type} [DecidableEq κ] : List (κ × ν) → κ → List (κ × ν)
  | [], _ => []
  | (k1, v1) :: rest, k =>
    if k1 = k then mapDelete rest k else (k1, v1) :: mapDelete rest k

/-- Two-level read `m[a][b]`. -/
def mapGet2 {ν : Type} (m : List (Int × List (Int × ν))) (a b : Int) : Option ν :=
  match mapGet m a with
  | some inner => mapGet inner b
  | none => none

/-- The idiom `delete(inner, b); if len(inner) == 0 { delete(m, a) }` applied to
an inner map `inner` found under key `a`. -/
def mapDeleteIn {ν : Type} (m : List (Int × List (Int × ν))) (a : Int)
    (inner : List (Int × ν)) (b : Int) : List (Int × List (Int × ν)) :=
  if (mapDelete inner b).length = 0 then mapDelete m a
  else mapSet m a (mapDelete inner b)

/-- The idiom `if m[a] == nil { m[a] = make(...) }; m[a][b] = v`. -/
def mapSet2 {ν : Type} (m : List (Int × List (Int × ν))) (a b : Int) (v : ν) :
    List (Int × List (Int × ν)) :=
  match mapGet m a with
  | some inner => mapSet m a (mapSet inner b v)
  | none => mapSet m a (mapSet [] b v)

/-- Number of entries over all inner maps. -/
def mapCount2 {ν : Type} (m : List (Int × List (Int × ν))) : Nat :=
  (m.map (fun e => e.2.length)).sum

/-! ## Data model (`tgbot.go`, lines 45-83) -/

/-- The two fields of `*tgbotapi.Message` that the program reads. -/
structure Message where
  ChatID : Int
  MessageID : Int
deriving DecidableEq, Repr, Inhabited

/-- An `*tgbotapi.InlineKeyboardMarkup`: rows of buttons (label, callback data). -/
structure InlineKeyboardMarkup where
  rows : List (List (GoString × GoString))
deriving DecidableEq, Repr, Inhabited

/-- An `*exec.Cmd`: `Process` is `nil` until the command was started, then
carries the pid. -/
structure Cmd where
  Process : Option Int
deriving DecidableEq, Repr, Inhabited

/-- Type `Task`: a running task.  `Cancel` records whether the cancel function
is non-nil. -/
structure Task where
  ID : Int
  UserID : Int
  Cmd : Option Cmd
  Cancel : Bool
  Message : Option Message
  PGID : Int
deriving DecidableEq, Repr, Inhabited

/-- Type `QueuedTask`: a task in the queue. -/
structure QueuedTask where
  Link : GoString
  Message : GoBot.Message
  UserID : Int
  StatusMsg : Option GoBot.Message
  TaskID : Int
  Cancelled : Bool
  Index : Int
  Shared : Bool
deriving DecidableEq, Repr, Inhabited

/-- Address of a `Task` object. -/
abbrev TaskPtr := Nat

/-- Address of a `QueuedTask` object. -/
abbrev QueuedPtr := Nat

/-- The objects behind the pointers of the program. -/
structure Heap where
  taskObjs : List Task
  queuedObjs : List QueuedTask
deriving DecidableEq, Repr, Inhabited

/-- Read through a `*Task`. -/
def Heap.task (h : Heap) (p : TaskPtr) : Task := h.taskObjs.getD p default

/-- Read through a `*QueuedTask`. -/
def Heap.queued (h : Heap) (p : QueuedPtr) : QueuedTask := h.queuedObjs.getD p default

/-- Write through a `*Task`. -/
def Heap.setTask (h : Heap) (p : TaskPtr) (t : Task) : Heap :=
  { h with taskObjs := h.taskObjs.set p t }

/-- Write through a `*QueuedTask`. -/
def Heap.setQueued (h : Heap) (p : QueuedPtr) (q : QueuedTask) : Heap :=
  { h with queuedObjs := h.queuedObjs.set p q }

/-- Allocation `&Task{...}`: the new object and its address. -/
def Heap.newTask (h : Heap) (t : Task) : Heap × TaskPtr :=
  ({ h with taskObjs := h.taskObjs ++ [t] }, h.taskObjs.length)

/-- Allocation `&QueuedTask{...}`: the new object and its address. -/
def Heap.newQueued (h : Heap) (q : QueuedTask) : Heap × QueuedPtr :=
  ({ h with queuedObjs := h.queuedObjs ++ [q] }, h.queuedObjs.length)

/-- Signals sent by the program. -/
inductive Signal where
  | SIGTERM
  | SIGKILL
deriving DecidableEq, Repr

/-- Calls that leave the program. -/
inductive Effect where
  /-- Call of `task.Cancel()`. -/
  | cancelCtx (task : TaskPtr)
  /-- Call of `syscall.Kill(pid, sig)`; a negative pid addresses a process group. -/
  | kill (pid : Int) (sig : Signal)
  /-- Call of `time.Sleep`, in milliseconds. -/
  | sleep (ms : Nat)
  /-- Call of `p.Kill()`, made when `killProcessGroup` returned an error. -/
  | processKillOnError (pid : Int)
  /-- Call of `cmd.Start()` for a queued item. -/
  | start (item : QueuedPtr)
  /-- Call of `cmd.Wait()`. -/
  | wait (item : QueuedPtr)
  /-- Edit of a message: chat, message, text and reply markup. -/
  | edit (chat : Int) (message : Int) (text : GoString) (kb : Option InlineKeyboardMarkup)
  /-- Answer to a callback query: text and alert flag. -/
  | answer (text : GoString) (alert : Bool)
  /-- New message: chat, text, the message replied to and reply markup. -/
  | send (chat : Int) (text : GoString) (replyTo : Int) (kb : Option InlineKeyboardMarkup)
deriving DecidableEq, Repr

/-- Type `TaskManager` (without its lock). -/
structure TaskManager where
  tasks : List (Int × List (Int × TaskPtr))
  counters : List (Int × Int)
  queue : List QueuedPtr
  queuedTasks : List (Int × List (Int × QueuedPtr))
  currentTask : Option TaskPtr
  queueProcessing : Bool
  summaryLines : List (Int × List (Int × List GoString))
  summaryKeyboards : List (Int × List (Int × InlineKeyboardMarkup))
  summaryPendingCounts : List (Int × List (Int × Int))
deriving DecidableEq, Repr, Inhabited

/-- Capacity of the `queue` channel, `make(chan *QueuedTask, 100)`. -/
def queueCap : Nat := 100

/-! ## The registry (`tgbot.go`, lines 85-353) -/

/-- Function `NewTaskManager`. -/
def NewTaskManager : TaskManager :=
  { tasks := [], counters := [], queue := [], queuedTasks := [], currentTask := none,
    queueProcessing := false, summaryLines := [], summaryKeyboards := [],
    summaryPendingCounts := [] }

/-- The statement `tm.counters[userID]++` followed by the read of
`tm.counters[userID]` (lines 107-108, 594-595, 666-667). -/
def nextCounter (tm : TaskManager) (userID : Int) : TaskManager × Int :=
  let c := (mapGet tm.counters userID).getD 0 + 1
  ({ tm with counters := mapSet tm.counters userID c }, c)

/-- The ID loop of `handleMessage` for a message with several links
(lines 591-597): `n` times `counters[user.ID]++`, collecting the values. -/
def allocTaskIDs (tm : TaskManager) (userID : Int) : Nat → TaskManager × List Int
  | 0 => (tm, [])
  | n + 1 =>
    let r := nextCounter tm userID
    let rest := allocTaskIDs r.1 userID n
    (rest.1, r.2 :: rest.2)

/-- Method `AddTask`. -/
def AddTask (h : Heap) (tm : TaskManager) (userID : Int) (task : TaskPtr) :
    Heap × TaskManager :=
  let r := nextCounter tm userID
  let h1 := h.setTask task { h.task task with ID := r.2 }
  (h1, { r.1 with tasks := mapSet2 r.1.tasks userID r.2 task })

/-- Method `RemoveTask`. -/
def RemoveTask (tm : TaskManager) (userID taskID : Int) : TaskManager :=
  match mapGet tm.tasks userID with
  | some tasks => { tm with tasks := mapDeleteIn tm.tasks userID tasks taskID }
  | none => tm

/-- Method `GetTask`. -/
def GetTask (tm : TaskManager) (userID taskID : Int) : Option TaskPtr :=
  mapGet2 tm.tasks userID taskID

/-- Method `CountUserTasks`. -/
def CountUserTasks (tm : TaskManager) (userID : Int) : Int :=
  match mapGet tm.tasks userID with
  | some tasks => tasks.length
  | none => 0

/-- Method `GetQueueSize`. -/
def GetQueueSize (tm : TaskManager) : Int := tm.queue.length

/-- Method `GetCurrentTask`. -/
def GetCurrentTask (tm : TaskManager) : Option TaskPtr := tm.currentTask

/-- Method `SetCurrentTask`. -/
def SetCurrentTask (tm : TaskManager) (task : Option TaskPtr) : TaskManager :=
  { tm with currentTask := task }

/-- The locked section of `EnqueueTask` (lines 166-171). -/
def EnqueueTask_record (h : Heap) (tm : TaskManager) (task : QueuedPtr) : TaskManager :=
  { tm with queuedTasks :=
      mapSet2 tm.queuedTasks (h.queued task).UserID (h.queued task).TaskID task }

/-- The channel send `tm.queue <- task`: it proceeds only while the buffer has
room; `none` stands for a sender that stays blocked. -/
def chanSend (tm : TaskManager) (task : QueuedPtr) : Option TaskManager :=
  if tm.queue.length < queueCap then some { tm with queue := tm.queue ++ [task] }
  else none

/-- Method `EnqueueTask`. -/
def EnqueueTask (h : Heap) (tm : TaskManager) (task : QueuedPtr) : Option TaskManager :=
  chanSend (EnqueueTask_record h tm task) task

/-- Method `RemoveQueuedTask`. -/
def RemoveQueuedTask (tm : TaskManager) (userID taskID : Int) : TaskManager :=
  match mapGet tm.queuedTasks userID with
  | some tasks => { tm with queuedTasks := mapDeleteIn tm.queuedTasks userID tasks taskID }
  | none => tm

/-- Method `InitSummary`. -/
def InitSummary (tm : TaskManager) (chatID messageID : Int) (lines : List GoString)
    (keyboard : Option InlineKeyboardMarkup) : TaskManager :=
  { tm with
    summaryLines := mapSet2 tm.summaryLines chatID messageID lines
    summaryKeyboards :=
      match keyboard with
      | some kb => mapSet2 tm.summaryKeyboards chatID messageID kb
      | none => tm.summaryKeyboards
    summaryPendingCounts :=
      mapSet2 tm.summaryPendingCounts chatID messageID (lines.length : Int) }

/-- Method `DecrementSummaryPending`. -/
def DecrementSummaryPending (tm : TaskManager) (chatID messageID : Int) :
    TaskManager × Int :=
  match mapGet tm.summaryPendingCounts chatID with
  | none => (tm, 0)
  | some counts =>
    match mapGet counts messageID with
    | none => (tm, 0)
    | some c =>
      let remaining := c - 1
      let counts1 := mapSet counts messageID remaining
      if remaining ≤ 0 then
        ({ tm with
           summaryPendingCounts :=
             mapDeleteIn tm.summaryPendingCounts chatID counts1 messageID
           summaryKeyboards :=
             match mapGet tm.summaryKeyboards chatID with
             | some km => mapDeleteIn tm.summaryKeyboards chatID km messageID
             | none => tm.summaryKeyboards }, 0)
      else
        ({ tm with summaryPendingCounts := mapSet tm.summaryPendingCounts chatID counts1 },
         remaining)

/-- Method `GetSummaryLines`; `none` is the result `(nil, false)`. -/
def GetSummaryLines (tm : TaskManager) (chatID messageID : Int) : Option (List GoString) :=
  mapGet2 tm.summaryLines chatID messageID

/-- Method `UpdateSummaryLine`: the registry afterwards, the returned lines
(`none` for `nil`) and the returned keyboard. -/
def UpdateSummaryLine (tm : TaskManager) (chatID messageID index : Int) (text : GoString) :
    TaskManager × Option (List GoString) × Option InlineKeyboardMarkup :=
  match mapGet tm.summaryLines chatID with
  | none => (tm, none, none)
  | some unit =>
    match mapGet unit messageID with
    | none => (tm, none, none)
    | some lines =>
      let lines1 :=
        if 0 ≤ index ∧ index < (lines.length : Int) then lines.set index.toNat text
        else lines
      ({ tm with summaryLines := mapSet tm.summaryLines chatID (mapSet unit messageID lines1) },
       some lines1, mapGet2 tm.summaryKeyboards chatID messageID)

/-- Method `GetQueuedTask`. -/
def GetQueuedTask (tm : TaskManager) (userID taskID : Int) : Option QueuedPtr :=
  mapGet2 tm.queuedTasks userID taskID

/-- Outcome of `CancelTask`. -/
structure CancelTaskResult where
  tm : TaskManager
  found : Bool
  effects : List Effect
deriving DecidableEq, Repr

/-- The teardown inside `CancelTask` (lines 326-344) for the task object `t`. -/
def cancelEffects (p : TaskPtr) (t : Task) : List Effect :=
  (if t.Cancel then [Effect.cancelCtx p] else []) ++
  (match t.Cmd with
   | some cmd =>
     match cmd.Process with
     | some pid =>
       if t.PGID ≠ 0 then
         [Effect.kill (-t.PGID) Signal.SIGTERM, Effect.sleep 500,
          Effect.kill (-t.PGID) Signal.SIGKILL]
       else
         [Effect.kill (-pid) Signal.SIGKILL, Effect.processKillOnError pid]
     | none => []
   | none => [])

/-- Method `CancelTask`. -/
def CancelTask (h : Heap) (tm : TaskManager) (userID taskID : Int) : CancelTaskResult :=
  match mapGet tm.tasks userID with
  | some tasks =>
    match mapGet tasks taskID with
    | some task =>
      { tm := { tm with tasks := mapDeleteIn tm.tasks userID tasks taskID }
        found := true
        effects := cancelEffects task (h.task task) }
    | none => { tm := tm, found := false, effects := [] }
  | none => { tm := tm, found := false, effects := [] }

/-- Outcome of `CancelQueuedTask`. -/
structure CancelQueuedResult where
  heap : Heap
  tm : TaskManager
  found : Bool
  effects : List Effect
deriving DecidableEq, Repr

/-- The locked section of `CancelQueuedTask` (lines 293-308): mark the entry
cancelled and drop it from the lookup table. -/
def CancelQueuedTask_mark (h : Heap) (tm : TaskManager) (userID taskID : Int) :
    Heap × TaskManager × Bool :=
  match mapGet tm.queuedTasks userID with
  | some tasks =>
    match mapGet tasks taskID with
    | some task =>
      (h.setQueued task { h.queued task with Cancelled := true },
       { tm with queuedTasks := mapDeleteIn tm.queuedTasks userID tasks taskID },
       true)
    | none => (h, tm, false)
  | none => (h, tm, false)

/-- Method `CancelQueuedTask`. -/
def CancelQueuedTask (h : Heap) (tm : TaskManager) (userID taskID : Int) :
    CancelQueuedResult :=
  let r := CancelQueuedTask_mark h tm userID taskID
  if r.2.2 then
    let c := CancelTask r.1 r.2.1 userID taskID
    { heap := r.1, tm := c.tm, found := true, effects := c.effects }
  else
    { heap := r.1, tm := r.2.1, found := false, effects := [] }

/-! ## Rendering of one line (`tgbot.go`, lines 1276-1365) -/

/-- The test of lines 1333 and 1346: the segment looks like a link. -/
def looksLikeLink (l : GoString) : Bool :=
  contains l (utf8 "http") || contains (toLower l) (utf8 "t.me")

/-- The test that both scans of `formatLine` apply to a trimmed segment. -/
def isCandidate (l : GoString) : Bool := decide (l ≠ []) && !looksLikeLink l

/-- Lines 1314-1323 of `formatLine`: when the status contains `"任务 #<id>"`,
keep what follows its first occurrence, trimmed and without leading separators. -/
def stripTaskTag (taskID : Int) (status : GoString) : GoString :=
  match indexOf status (utf8 "任务 #" ++ itoa taskID) with
  | some idx =>
    trimSpace (trimLeftCutset (trimSpace
      (status.drop (idx + (utf8 "任务 #" ++ itoa taskID).length))))
  | none => status

/-- Lines 1325-1355 of `formatLine`: the progress text chosen from `s`. -/
def selectProgress (s : GoString) : GoString :=
  match ((splitLines s).reverse.map trimSpace).find? isCandidate with
  | some l => l
  | none =>
    match ((splitLines s).map trimSpace).find? isCandidate with
    | some l => l
    | none => (splitLines s).headD []

/-- Lines 1356-1358 of `formatLine`: `len` and the slice `progress[:200]` count
bytes. -/
def truncateProgress (progress : GoString) : GoString :=
  if progress.length > 200 then progress.take 200 ++ utf8 "..." else progress

/-- Method `formatLine`. -/
def formatLine (q : QueuedTask) (status : GoString) (includeIndex : Bool) : GoString :=
  let progress := truncateProgress (selectProgress (stripTaskTag q.TaskID status))
  let base := utf8 "[#" ++ itoa q.TaskID ++ utf8 "] " ++ q.Link ++ utf8 " — " ++ progress
  if includeIndex then itoa (q.Index + 1) ++ utf8 ". " ++ base else base

/-- Method `formatSummaryLine`. -/
def formatSummaryLine (q : QueuedTask) (status : GoString) : GoString :=
  formatLine q status true

/-- Method `formatSummaryDoneLine`. -/
def formatSummaryDoneLine (q : QueuedTask) (final : GoString) : GoString :=
  let s := trimSpace (replaceAll final [10] [32])
  let s1 :=
    match indexOf s (utf8 "任务 #" ++ itoa q.TaskID) with
    | some idx => trimSpace (s.drop (idx + (utf8 "任务 #" ++ itoa q.TaskID).length))
    | none => s
  let s2 := trimSpace (trimLeftCutset s1)
  formatLine q (if s2 = [] then utf8 "已完成" else s2) true

/-- Method `formatTaskDoneLine`. -/
def formatTaskDoneLine (q : QueuedTask) (final : GoString) : GoString :=
  formatLine q (trimSpace (replaceAll final [10] [32])) false

/-! ## The terminal status of `processTDLForward` (lines 1017-1033) -/

/-- Lines 963-964: the text kept from a line that carries the status tag. -/
def cleanStatusLine (line : GoString) : GoString :=
  trimSpace (replaceAll line (utf8 "[STATUS]") [])

/-- Lines 1017-1033: `waitErr` says that `cmd.Wait()` returned a non-nil
error, `deadlineExceeded` that `ctx.Err()` is `context.DeadlineExceeded`;
`statusSeen` and `currentStatus` are the locals left by the line loop. -/
def finalStatus (taskID : Int) (waitErr deadlineExceeded statusSeen : Bool)
    (currentStatus : GoString) : GoString :=
  if waitErr then
    if deadlineExceeded then utf8 "❌ 任务 #" ++ itoa taskID ++ utf8 " 执行超时"
    else utf8 "⚠️ 任务 #" ++ itoa taskID ++ utf8 " 执行失败"
  else
    if statusSeen ∧ trimSpace currentStatus ≠ [] then
      trimSpace (replaceAll currentStatus (utf8 "[STATUS]") [])
    else utf8 "✅ 任务 #" ++ itoa taskID ++ utf8 " 处理完成"

/-! ## The program state -/

/-- Locals of one call of `processTDLForward`. -/
structure Exec where
  item : QueuedPtr
  userID : Int
  chatID : Int
  taskID : Int
  link : GoString
  sentMsg : Option Message
  task : TaskPtr
  lastUpdate : Int
  currentStatus : GoString
  qrDetected : Bool
  statusSeen : Bool
deriving DecidableEq, Repr

/-- Where a queue worker (the goroutine of `startQueueProcessor`) stands. -/
inductive Worker where
  /-- Waiting in `range b.taskManager.queue` (line 773). -/
  | idle
  /-- An item was received; its `Cancelled` flag is not read yet. -/
  | dequeued (item : QueuedPtr)
  /-- The flag was read as false (line 782). -/
  | accepted (item : QueuedPtr)
  /-- The "processing" status was shown; `processTDLForward` is about to be called. -/
  | entering (item : QueuedPtr)
  /-- In `processTDLForward`, the task is in the active-task table (line 845). -/
  | registered (ex : Exec)
  /-- In `processTDLForward`, the current task is set (line 848). -/
  | prepared (ex : Exec)
  /-- In `processTDLForward`, inside the line loop (lines 923-993). -/
  | running (ex : Exec)
  /-- The body of `processTDLForward` is left; its deferred calls are pending. -/
  | exiting (ex : Exec)
  /-- The call of `processTDLForward` returned; line 816 is pending. -/
  | returned (item : QueuedPtr)
deriving DecidableEq, Repr

/-- The whole program: heap, registry, the queue workers that were started and
the calls that left the program so far, oldest first. -/
structure Bot where
  heap : Heap
  taskManager : TaskManager
  workers : List Worker
  log : List Effect
deriving DecidableEq, Repr

/-- The program after `NewBot`: nothing allocated, no worker started. -/
def NewBot : Bot :=
  { heap := { taskObjs := [], queuedObjs := [] }, taskManager := NewTaskManager,
    workers := [], log := [] }

/-- Record calls that leave the program. -/
def Bot.emit (b : Bot) (es : List Effect) : Bot := { b with log := b.log ++ es }

/-- The keyboard with the button that ends one task (lines 858-862). -/
def cancelKeyboard (userID taskID : Int) : InlineKeyboardMarkup :=
  { rows := [[(utf8 "🛑 终止任务", utf8 "cancel_" ++ itoa userID ++ utf8 "_" ++ itoa taskID)]] }

/-- The keyboard with the button that ends a whole summary (lines 632-634). -/
def summaryKeyboard (userID : Int) : InlineKeyboardMarkup :=
  { rows := [[(utf8 "🛑 终止全部任务", utf8 "cancel_summary_" ++ itoa userID)]] }

/-- Method `updateTaskMessage`. -/
def Bot.updateTaskMessage (b : Bot) (chatID messageID : Int) (text : GoString)
    (keyboard : Option InlineKeyboardMarkup) : Bot :=
  b.emit [Effect.edit chatID messageID text keyboard]

/-- Method `updateSummaryLine` of `Bot`. -/
def Bot.updateSummaryLine (b : Bot) (chatID messageID index : Int) (text : GoString) : Bot :=
  match (UpdateSummaryLine b.taskManager chatID messageID index text).2.1 with
  | none =>
    { b with taskManager := (UpdateSummaryLine b.taskManager chatID messageID index text).1 }.emit
      [Effect.edit chatID messageID text none]
  | some lines =>
    { b with taskManager := (UpdateSummaryLine b.taskManager chatID messageID index text).1 }.emit
      [Effect.edit chatID messageID (joinWith (utf8 "\n\n") lines)
        (UpdateSummaryLine b.taskManager chatID messageID index text).2.2]

/-- Method `clearSummaryKeyboard`. -/
def Bot.clearSummaryKeyboard (b : Bot) (chatID messageID : Int) : Bot :=
  match GetSummaryLines b.taskManager chatID messageID with
  | none => b
  | some lines =>
    if lines.length = 0 then b
    else b.emit [Effect.edit chatID messageID (joinWith (utf8 "\n\n") lines) none]

/-- The recurring statement
`if remaining := DecrementSummaryPending(c, m); remaining <= 0 { clearSummaryKeyboard(c, m) }`. -/
def Bot.decrementSummary (b : Bot) (chatID messageID : Int) : Bot :=
  if (DecrementSummaryPending b.taskManager chatID messageID).2 ≤ 0 then
    Bot.clearSummaryKeyboard
      { b with taskManager := (DecrementSummaryPending b.taskManager chatID messageID).1 }
      chatID messageID
  else { b with taskManager := (DecrementSummaryPending b.taskManager chatID messageID).1 }

/-! ## The queue worker and `processTDLForward` (lines 760-1046) -/

/-- What `cmd.StdoutPipe()` and `cmd.Start()` do for one task. -/
inductive SpawnOutcome where
  /-- The call `cmd.StdoutPipe()` returned an error. -/
  | pipeError
  /-- The call `cmd.Start()` returned an error. -/
  | startError
  /-- The process runs with this pid; `pgid` is what `syscall.Getpgid` returned,
  `none` for an error. -/
  | started (pid : Int) (pgid : Option Int)
deriving DecidableEq, Repr

/-- The atomic steps of a queue worker. -/
inductive WorkerEvent where
  /-- Receive the next item from the channel (line 773). -/
  | recv
  /-- Read the `Cancelled` flag and, when set, discard the item (lines 778-787). -/
  | check
  /-- Show the "processing" status (lines 790-810). -/
  | announce
  /-- Enter `processTDLForward` and put the task into the table (lines 826-845). -/
  | register
  /-- Call `SetCurrentTask(task)` (line 848). -/
  | setCurrent
  /-- Build and start the command (lines 865-910); `now` is the clock read at
  line 907. -/
  | spawn (outcome : SpawnOutcome) (now : Int)
  /-- One iteration of the line loop (lines 923-993) for the output line `text`.
  `now` is the clock read by `time.Since(lastUpdate)` at line 969 and `later`
  the clock read by `time.Now()` at line 975, after the display was updated. -/
  | line (text : GoString) (now later : Int)
  /-- The output stream closes: lines 996-1045.  `waitErr` says that `cmd.Wait()`
  returned an error, `deadlineExceeded` that `ctx.Err()` is
  `context.DeadlineExceeded`, `pgid` is the result of `syscall.Getpgid`. -/
  | eof (waitErr deadlineExceeded : Bool) (pgid : Option Int)
  /-- The deferred calls of `processTDLForward` (lines 850-853 and 866). -/
  | leave
  /-- Call `RemoveQueuedTask` after `processTDLForward` returned (line 816). -/
  | unlist
deriving DecidableEq, Repr

/-- One second, in the unit of the clock values (milliseconds). -/
def second : Int := 1000

/-- The notice of lines 936-941. -/
def qrMessage (taskID : Int) : GoString :=
  utf8 "🔐 任务 #" ++ itoa taskID ++
    utf8 " - 需要登录\n\n📺 请到服务器控制台查看二维码并使用 Telegram 扫描登录\n\n⏰ 登录后任务将自动继续"

/-- The notice of lines 952-958. -/
def qrLinkMessage (taskID : Int) (qrLink : GoString) : GoString :=
  utf8 "🔐 任务 #" ++ itoa taskID ++
    utf8 " - 需要登录\n\n📱 请点击以下链接在 Telegram 中完成登录:\n" ++ qrLink ++
    utf8 "\n\n⏰ 登录后任务将自动继续"

/-- The display of a start failure (lines 880-884 and 891-895). -/
def Bot.showStartFailure (b : Bot) (ex : Exec) : Option Bot :=
  match ex.sentMsg with
  | none => none
  | some m =>
    if (b.heap.queued ex.item).Shared then
      some (b.updateSummaryLine ex.chatID m.MessageID (b.heap.queued ex.item).Index
        (formatSummaryLine (b.heap.queued ex.item)
          (utf8 "❌ 任务 #" ++ itoa ex.taskID ++ utf8 " 启动失败")))
    else
      some (b.updateTaskMessage ex.chatID m.MessageID
        (utf8 "❌ 任务 #" ++ itoa ex.taskID ++ utf8 " 启动失败") none)

/-- The throttled display of a status line (lines 969-976). -/
def Bot.showStatus (b : Bot) (ex : Exec) : Option Bot :=
  match ex.sentMsg with
  | none => none
  | some m =>
    if (b.heap.queued ex.item).Shared then
      some (b.updateSummaryLine ex.chatID m.MessageID (b.heap.queued ex.item).Index
        (formatLine (b.heap.queued ex.item) ex.currentStatus true))
    else
      some (b.updateTaskMessage ex.chatID m.MessageID
        (formatLine (b.heap.queued ex.item) ex.currentStatus false)
        (some (cancelKeyboard ex.userID ex.taskID)))

/-- The report of a cancellation noticed in the line loop (lines 981-990). -/
def Bot.showTerminated (b : Bot) (ex : Exec) : Option Bot :=
  match ex.sentMsg with
  | none => none
  | some m =>
    if (b.heap.queued ex.item).Shared then
      some (Bot.decrementSummary
        (b.updateSummaryLine ex.chatID m.MessageID (b.heap.queued ex.item).Index
          (formatSummaryLine (b.heap.queued ex.item)
            (utf8 "❌ 任务 #" ++ itoa ex.taskID ++ utf8 " 已被用户终止")))
        ex.chatID m.MessageID)
    else
      some (b.updateTaskMessage ex.chatID m.MessageID
        (utf8 "❌ 任务 #" ++ itoa ex.taskID ++ utf8 " 已被用户终止") none)

/-- The final display (lines 1035-1045). -/
def Bot.showFinal (b : Bot) (ex : Exec) (final : GoString) : Option Bot :=
  match ex.sentMsg with
  | none => none
  | some m =>
    if (b.heap.queued ex.item).Shared then
      some (Bot.decrementSummary
        (b.updateSummaryLine ex.chatID m.MessageID (b.heap.queued ex.item).Index
          (formatSummaryDoneLine (b.heap.queued ex.item) final))
        ex.chatID m.MessageID)
    else
      some (b.updateTaskMessage ex.chatID m.MessageID
        (formatTaskDoneLine (b.heap.queued ex.item) final) none)

/-- The check of lines 979-992 at the end of a loop iteration. -/
def Bot.checkCancelled (b : Bot) (ex : Exec) : Option (Bot × Worker) :=
  match GetTask b.taskManager ex.userID ex.taskID with
  | some _ => some (b, Worker.running ex)
  | none => (b.showTerminated ex).map (fun b1 => (b1, Worker.exiting ex))

/-- One iteration of the line loop (lines 923-993). -/
def Bot.processLine (b : Bot) (ex : Exec) (text : GoString) (now later : Int) :
    Option (Bot × Worker) :=
  if trimSpace text = [] then some (b, Worker.running ex)
  else if !ex.qrDetected &&
      (contains (trimSpace text) (utf8 "Scan QR code") || contains (trimSpace text) (utf8 "█")) then
    match ex.sentMsg with
    | none => none
    | some m =>
      some (b.updateTaskMessage ex.chatID m.MessageID (qrMessage ex.taskID)
              (some (cancelKeyboard ex.userID ex.taskID)),
            Worker.running { ex with qrDetected := true })
  else if contains (trimSpace text) (utf8 "[QRCODE]") then
    match ex.sentMsg with
    | none => none
    | some m =>
      some (b.updateTaskMessage ex.chatID m.MessageID
              (qrLinkMessage ex.taskID
                (trimSpace (replaceAll (trimSpace text) (utf8 "[QRCODE]") [])))
              (some (cancelKeyboard ex.userID ex.taskID)),
            Worker.running ex)
  else if contains (trimSpace text) (utf8 "[STATUS]") then
    if now - ex.lastUpdate ≥ second then
      match Bot.showStatus b
          { ex with currentStatus := cleanStatusLine (trimSpace text), statusSeen := true } with
      | none => none
      | some b1 =>
        Bot.checkCancelled b1
          { ex with currentStatus := cleanStatusLine (trimSpace text), statusSeen := true,
                    lastUpdate := later }
    else
      Bot.checkCancelled b
        { ex with currentStatus := cleanStatusLine (trimSpace text), statusSeen := true }
  else Bot.checkCancelled b ex

/-- Lines 999-1006: the PGID after `cmd.Wait()`; `pgid` is the result of
`syscall.Getpgid`, `none` for an error. -/
def resolvePGID (t : Task) (pgid : Option Int) : Int :=
  if t.PGID = 0 then
    match t.Cmd with
    | some cmd =>
      match cmd.Process with
      | some _ => pgid.getD 0
      | none => 0
    | none => 0
  else t.PGID

/-- The process-group cleanup after `cmd.Wait()` (lines 998-1013): the heap
with the resolved PGID and the signals sent. -/
def cleanupGroup (h : Heap) (task : TaskPtr) (pgid : Option Int) : Heap × List Effect :=
  (h.setTask task { h.task task with PGID := resolvePGID (h.task task) pgid },
   if resolvePGID (h.task task) pgid ≠ 0 then
     [Effect.kill (-(resolvePGID (h.task task) pgid)) Signal.SIGTERM, Effect.sleep 800,
      Effect.kill (-(resolvePGID (h.task task) pgid)) Signal.SIGKILL]
   else [])

/-- One atomic step of a queue worker; `none` when the step is not the next one
of the worker, when the channel is empty, or when the step dereferences a nil
`StatusMsg`. -/
def workerStep (b : Bot) : Worker → WorkerEvent → Option (Bot × Worker)
  | Worker.idle, WorkerEvent.recv =>
    match b.taskManager.queue with
    | [] => none
    | p :: rest =>
      some ({ b with taskManager := { b.taskManager with queue := rest } }, Worker.dequeued p)
  | Worker.dequeued p, WorkerEvent.check =>
    if (b.heap.queued p).Cancelled then
      some ({ b with taskManager :=
                RemoveQueuedTask b.taskManager (b.heap.queued p).UserID (b.heap.queued p).TaskID },
            Worker.idle)
    else some (b, Worker.accepted p)
  | Worker.accepted p, WorkerEvent.announce =>
    match (b.heap.queued p).StatusMsg with
    | none => some (b, Worker.entering p)
    | some m =>
      if (b.heap.queued p).Shared then
        some (b.updateSummaryLine m.ChatID m.MessageID (b.heap.queued p).Index
                (formatLine (b.heap.queued p) (utf8 "⏳ 已接收请求，处理中...") true),
              Worker.entering p)
      else
        some (b.emit [Effect.edit m.ChatID m.MessageID
                (formatLine (b.heap.queued p) (utf8 "⏳ 已接收请求，处理中...") false)
                (some (cancelKeyboard (b.heap.queued p).UserID (b.heap.queued p).TaskID))],
              Worker.entering p)
  | Worker.entering p, WorkerEvent.register =>
    let q := b.heap.queued p
    let r := b.heap.newTask
      { ID := q.TaskID, UserID := q.UserID, Cmd := none, Cancel := false,
        Message := q.StatusMsg, PGID := 0 }
    some ({ b with
              heap := r.1
              taskManager :=
                { b.taskManager with
                  tasks := mapSet2 b.taskManager.tasks q.UserID q.TaskID r.2 } },
          Worker.registered
            { item := p, userID := q.UserID, chatID := q.Message.ChatID, taskID := q.TaskID,
              link := q.Link, sentMsg := q.StatusMsg, task := r.2, lastUpdate := 0,
              currentStatus := [], qrDetected := false, statusSeen := false })
  | Worker.registered ex, WorkerEvent.setCurrent =>
    some ({ b with taskManager := SetCurrentTask b.taskManager (some ex.task) },
          Worker.prepared ex)
  | Worker.prepared ex, WorkerEvent.spawn outcome now =>
    let b1 : Bot :=
      { b with heap := b.heap.setTask ex.task
                 { b.heap.task ex.task with Cancel := true, Cmd := some { Process := none } } }
    match outcome with
    | SpawnOutcome.pipeError => (b1.showStartFailure ex).map (fun b2 => (b2, Worker.exiting ex))
    | SpawnOutcome.startError => (b1.showStartFailure ex).map (fun b2 => (b2, Worker.exiting ex))
    | SpawnOutcome.started pid pgid =>
      some (Bot.emit
              { b1 with heap := b1.heap.setTask ex.task
                          { b1.heap.task ex.task with
                            Cmd := some { Process := some pid }
                            PGID := pgid.getD (b1.heap.task ex.task).PGID } }
              [Effect.start ex.item],
            Worker.running
              { ex with
                lastUpdate := now
                currentStatus :=
                  utf8 "⏳ 任务 #" ++ itoa ex.taskID ++ utf8 " - 已接收请求，处理中..."
                qrDetected := false
                statusSeen := false })
  | Worker.running ex, WorkerEvent.line text now later => b.processLine ex text now later
  | Worker.running ex, WorkerEvent.eof waitErr deadlineExceeded pgid =>
    let c := cleanupGroup b.heap ex.task pgid
    (Bot.showFinal (Bot.emit { b with heap := c.1 } (Effect.wait ex.item :: c.2)) ex
        (finalStatus ex.taskID waitErr deadlineExceeded ex.statusSeen ex.currentStatus)).map
      (fun b2 => (b2, Worker.exiting ex))
  | Worker.exiting ex, WorkerEvent.leave =>
    some (Bot.emit
            { b with taskManager :=
                SetCurrentTask (RemoveTask b.taskManager ex.userID ex.taskID) none }
            [Effect.cancelCtx ex.task],
          Worker.returned ex.item)
  | Worker.returned p, WorkerEvent.unlist =>
    some ({ b with taskManager :=
              RemoveQueuedTask b.taskManager (b.heap.queued p).UserID (b.heap.queued p).TaskID },
          Worker.idle)
  | _, _ => none

/-- Method `startQueueProcessor`: a second call finds `queueProcessing` set and
returns; the first call sets it and starts the consumer goroutine. -/
def Bot.startQueueProcessor (b : Bot) : Bot :=
  if b.taskManager.queueProcessing then b
  else
    { b with
      taskManager := { b.taskManager with queueProcessing := true }
      workers := b.workers ++ [Worker.idle] }

/-! ## The handlers (lines 548-758 and 1048-1221) -/

/-- The raw line of lines 604-611 for the item at queue position `queuePos`. -/
def rawQueueLine (taskID : Int) (link : GoString) (queuePos : Int) : GoString :=
  utf8 "⏳ 任务 #" ++ itoa taskID ++ utf8 " - 已加入队列\n" ++ link ++
    (if queuePos > 1 then utf8 "\n📋 当前排队位置: 第 " ++ itoa queuePos ++ utf8 " 位"
     else utf8 "\n⚡ 即将开始处理")

/-- The loops of lines 603-629 from row `i` on: allocate one `QueuedTask` per
link and format its row.  Returns the heap, the new items and their rows. -/
def newSummaryItems (message : Message) (userID baseQueue : Int) :
    Heap → Nat → List GoString → List Int → Heap × List QueuedPtr × List GoString
  | h, i, link :: links, taskID :: taskIDs =>
    let q : QueuedTask :=
      { Link := link, Message := message, UserID := userID, StatusMsg := none,
        TaskID := taskID, Cancelled := false, Index := (i : Int), Shared := true }
    let r := newSummaryItems message userID baseQueue (h.newQueued q).1 (i + 1) links taskIDs
    (r.1, (h.newQueued q).2 :: r.2.1,
     formatSummaryLine q (rawQueueLine taskID link (baseQueue + (i : Int) + 1)) :: r.2.2)
  | h, _, _, _ => (h, [], [])

/-- The loop of lines 649-652: point every item to the sent message and enqueue
it; `none` when a channel send blocks. -/
def enqueueAll (sentMsg : Message) : Heap → TaskManager → List QueuedPtr →
    Option (Heap × TaskManager)
  | h, tm, [] => some (h, tm)
  | h, tm, p :: rest =>
    match EnqueueTask (h.setQueued p { h.queued p with StatusMsg := some sentMsg })
        tm p with
    | none => none
    | some tm1 =>
      enqueueAll sentMsg (h.setQueued p { h.queued p with StatusMsg := some sentMsg }) tm1 rest

/-- Method `handleMessage` for a text with more than one t.me match (lines
572-655).  `links` is the list left by the deduplication of lines 573-588;
`sent` is the message returned by `b.api.Send`, `none` when it returned an
error.  The result is `none` when a channel send blocks. -/
def Bot.handleMessageLinks (b : Bot) (message : Message) (userID : Int)
    (links : List GoString) (sent : Option Message) : Option Bot :=
  let ids := allocTaskIDs b.taskManager userID links.length
  let items := newSummaryItems message userID (GetQueueSize ids.1) b.heap 0 links ids.2
  let b1 : Bot :=
    Bot.emit { b with heap := items.1, taskManager := ids.1 }
      [Effect.send message.ChatID (joinWith (utf8 "\n\n") items.2.2) message.MessageID
        (some (summaryKeyboard userID))]
  match sent with
  | none => some b1
  | some sentMsg =>
    (enqueueAll sentMsg b1.heap
        (InitSummary b1.taskManager message.ChatID sentMsg.MessageID items.2.2
          (some (summaryKeyboard userID)))
        items.2.1).map
      (fun r => { b1 with heap := r.1, taskManager := r.2 })

/-- Method `handleMessage` for a text with exactly one t.me match (lines
657-711); `link` is the match after line 660-662. -/
def Bot.handleMessageLink (b : Bot) (message : Message) (userID : Int)
    (link : GoString) (sent : Option Message) : Option Bot :=
  let id := nextCounter b.taskManager userID
  let queuePosition : Int := GetQueueSize id.1 + 1
  let q : QueuedTask :=
    { Link := link, Message := message, UserID := userID, StatusMsg := none,
      TaskID := id.2, Cancelled := false, Index := 0, Shared := false }
  let statusText : GoString :=
    if queuePosition > 1 then utf8 "📋 当前排队位置: 第 " ++ itoa queuePosition ++ utf8 " 位"
    else utf8 "⚡ 即将开始处理"
  let b1 : Bot :=
    Bot.emit { b with heap := (b.heap.newQueued q).1, taskManager := id.1 }
      [Effect.send message.ChatID (formatLine q statusText false) message.MessageID
        (some (cancelKeyboard userID id.2))]
  match sent with
  | none => some b1
  | some sentMsg =>
    (enqueueAll sentMsg b1.heap b1.taskManager [(b.heap.newQueued q).2]).map
      (fun r => { b1 with heap := r.1, taskManager := r.2 })

/-- The payload of a button press after the parsing of lines 1051-1074 and
1130-1138. -/
inductive CallbackData where
  /-- Payload `cancel_summary_<userID>`. -/
  | cancelSummary (target : Int)
  /-- Payload `cancel_<userID>_<taskID>`. -/
  | cancelTask (target taskID : Int)
deriving DecidableEq, Repr

/-- The loop of lines 1091-1100 over the entries of `queuedTasks[target]`, in the
order of the list; an entry that was deleted meanwhile is not visited. -/
def Bot.cancelSummaryQueued (target : Int) (message : Message) :
    Bot → List (Int × QueuedPtr) → Bot
  | b, [] => b
  | b, (k, p) :: rest =>
    if mapGet2 b.taskManager.queuedTasks target k = some p then
      match (b.heap.queued p).StatusMsg with
      | none => Bot.cancelSummaryQueued target message b rest
      | some sm =>
        if sm.MessageID = message.MessageID then
          let r := CancelQueuedTask b.heap b.taskManager target (b.heap.queued p).TaskID
          let b1 := Bot.emit { b with heap := r.heap, taskManager := r.tm } r.effects
          let b2 := b1.updateSummaryLine sm.ChatID sm.MessageID (b.heap.queued p).Index
            (formatSummaryLine (b.heap.queued p)
              (utf8 "❌ 任务 #" ++ itoa (b.heap.queued p).TaskID ++ utf8 " 已从汇总取消"))
          Bot.cancelSummaryQueued target message
            (b2.decrementSummary sm.ChatID sm.MessageID) rest
        else Bot.cancelSummaryQueued target message b rest
    else Bot.cancelSummaryQueued target message b rest

/-- The loop of lines 1108-1120 over the entries of `tasks[target]`, in the order
of the list; an entry that was deleted meanwhile is not visited. -/
def Bot.cancelSummaryRunning (target : Int) (message : Message) :
    Bot → List (Int × TaskPtr) → Bot
  | b, [] => b
  | b, (tid, t) :: rest =>
    if mapGet2 b.taskManager.tasks target tid = some t then
      match (b.heap.task t).Message with
      | none => Bot.cancelSummaryRunning target message b rest
      | some tm =>
        if tm.MessageID = message.MessageID then
          let r := CancelTask b.heap b.taskManager target tid
          let b1 := Bot.emit { b with taskManager := r.tm } r.effects
          match GetQueuedTask b1.taskManager target tid with
          | some qp =>
            Bot.cancelSummaryRunning target message
              (Bot.decrementSummary
                (b1.updateSummaryLine message.ChatID message.MessageID (b1.heap.queued qp).Index
                  (formatSummaryLine (b1.heap.queued qp)
                    (utf8 "❌ 任务 #" ++ itoa tid ++ utf8 " 已被用户终止")))
                message.ChatID message.MessageID)
              rest
          | none => Bot.cancelSummaryRunning target message b1 rest
        else Bot.cancelSummaryRunning target message b rest
    else Bot.cancelSummaryRunning target message b rest

/-- Lines 1177-1220 of `handleCallbackQuery`: end the running task. -/
def Bot.cancelRunning (b : Bot) (target taskID : Int) (message : Option Message) : Bot :=
  let r := CancelTask b.heap b.taskManager target taskID
  if r.found then
    let b1 := Bot.emit { b with taskManager := r.tm } r.effects
    let plain := utf8 "❌ 任务 #" ++ itoa taskID ++ utf8 " 已被用户终止"
    let b2 :=
      match message with
      | none => b1
      | some m =>
        match mapGet2 b1.taskManager.summaryLines m.ChatID m.MessageID with
        | none => b1.emit [Effect.edit m.ChatID m.MessageID plain none]
        | some _ =>
          match GetQueuedTask b1.taskManager target taskID with
          | none => b1.emit [Effect.edit m.ChatID m.MessageID plain none]
          | some qp =>
            if (b1.heap.queued qp).Shared then
              b1.updateSummaryLine m.ChatID m.MessageID (b1.heap.queued qp).Index
                (formatSummaryDoneLine (b1.heap.queued qp) plain)
            else b1.emit [Effect.edit m.ChatID m.MessageID plain none]
    b2.emit [Effect.answer [] false]
  else b.emit [Effect.answer (utf8 "⚠️ 任务已完成或不存在") true]

/-- Method `handleCallbackQuery` for a payload that starts with `cancel_`;
`fromID` is `query.From.ID` and `message` is `query.Message`.  The result is
`none` where the source dereferences a nil `query.Message` (line 1164). -/
def Bot.handleCallbackQuery (b : Bot) (fromID : Int) (data : CallbackData)
    (message : Option Message) : Option Bot :=
  match data with
  | CallbackData.cancelSummary target =>
    if fromID ≠ target then
      some (b.emit [Effect.answer (utf8 "❌ 您无权终止此任务汇总") true])
    else
      match message with
      | none => some (b.emit [Effect.answer [] false])
      | some m =>
        let b1 := Bot.cancelSummaryQueued target m b
          ((mapGet b.taskManager.queuedTasks target).getD [])
        let b2 := Bot.cancelSummaryRunning target m b1
          ((mapGet b1.taskManager.tasks target).getD [])
        some (b2.emit [Effect.answer [] false])
  | CallbackData.cancelTask target taskID =>
    if fromID ≠ target then
      some (b.emit [Effect.answer (utf8 "❌ 您无权终止此任务") true])
    else
      match GetQueuedTask b.taskManager target taskID with
      | none => some (b.cancelRunning target taskID message)
      | some qp =>
        let r := CancelQueuedTask b.heap b.taskManager target taskID
        let b1 := Bot.emit { b with heap := r.heap, taskManager := r.tm } r.effects
        if r.found then
          match (b.heap.queued qp).StatusMsg with
          | none => some (b1.emit [Effect.answer [] false])
          | some sm =>
            if (b.heap.queued qp).Shared then
              some (Bot.emit
                (Bot.decrementSummary
                  (b1.updateSummaryLine sm.ChatID sm.MessageID (b.heap.queued qp).Index
                    (formatSummaryLine (b.heap.queued qp)
                      (utf8 "❌ 任务 #" ++ itoa taskID ++ utf8 " 已从队列中取消")))
                  sm.ChatID sm.MessageID)
                [Effect.answer [] false])
            else
              match message with
              | none => none
              | some m =>
                some (b1.emit
                  [Effect.edit m.ChatID sm.MessageID
                     (utf8 "❌ 任务 #" ++ itoa taskID ++ utf8 " 已从队列中取消") none,
                   Effect.answer [] false])
        else some (b1.cancelRunning target taskID message)

/-! ## Steps of the program -/

/-- What can happen next: a handler runs on the main goroutine, one of the
registry methods that the handlers are made of is called, or a queue worker
takes one step. -/
inductive Event where
  /-- Method `startQueueProcessor` is called. -/
  | startQueueProcessor
  /-- Method `handleMessage` for a text with several t.me links. -/
  | messageLinks (message : Message) (userID : Int) (links : List GoString)
      (sent : Option Message)
  /-- Method `handleMessage` for a text with one t.me link. -/
  | messageLink (message : Message) (userID : Int) (link : GoString) (sent : Option Message)
  /-- Method `handleCallbackQuery`. -/
  | callback (fromID : Int) (data : CallbackData) (message : Option Message)
  /-- A new `QueuedTask` is allocated and recorded by the locked section of
  `EnqueueTask`. -/
  | enqueueRecord (q : QueuedTask)
  /-- The channel send of `EnqueueTask` for an item. -/
  | enqueueSend (item : QueuedPtr)
  /-- A new `QueuedTask` is allocated and passed to `EnqueueTask`. -/
  | enqueue (q : QueuedTask)
  /-- The locked section of `CancelQueuedTask`. -/
  | markCancelled (userID taskID : Int)
  /-- Method `CancelQueuedTask`. -/
  | cancelQueued (userID taskID : Int)
  /-- Method `CancelTask`. -/
  | cancelTask (userID taskID : Int)
  /-- The queue worker number `i` takes a step. -/
  | worker (i : Nat) (ev : WorkerEvent)
deriving DecidableEq, Repr

/-- One step of the program; `none` when the event cannot happen in this state
(a blocked channel operation, a worker step that is not the next one, a nil
dereference). -/
def step (b : Bot) : Event → Option Bot
  | Event.startQueueProcessor => some b.startQueueProcessor
  | Event.messageLinks message userID links sent =>
    b.handleMessageLinks message userID links sent
  | Event.messageLink message userID link sent => b.handleMessageLink message userID link sent
  | Event.callback fromID data message => b.handleCallbackQuery fromID data message
  | Event.enqueueRecord q =>
    some { b with
           heap := (b.heap.newQueued q).1
           taskManager :=
             EnqueueTask_record (b.heap.newQueued q).1 b.taskManager (b.heap.newQueued q).2 }
  | Event.enqueueSend item =>
    (chanSend b.taskManager item).map (fun tm => { b with taskManager := tm })
  | Event.enqueue q =>
    (EnqueueTask (b.heap.newQueued q).1 b.taskManager (b.heap.newQueued q).2).map
      (fun tm => { b with heap := (b.heap.newQueued q).1, taskManager := tm })
  | Event.markCancelled userID taskID =>
    some { b with
           heap := (CancelQueuedTask_mark b.heap b.taskManager userID taskID).1
           taskManager := (CancelQueuedTask_mark b.heap b.taskManager userID taskID).2.1 }
  | Event.cancelQueued userID taskID =>
    some (Bot.emit
      { b with
        heap := (CancelQueuedTask b.heap b.taskManager userID taskID).heap
        taskManager := (CancelQueuedTask b.heap b.taskManager userID taskID).tm }
      (CancelQueuedTask b.heap b.taskManager userID taskID).effects)
  | Event.cancelTask userID taskID =>
    some (Bot.emit { b with taskManager := (CancelTask b.heap b.taskManager userID taskID).tm }
      (CancelTask b.heap b.taskManager userID taskID).effects)
  | Event.worker i ev =>
    match b.workers[i]? with
    | none => none
    | some w =>
      (workerStep b w ev).map (fun r => { r.1 with workers := r.1.workers.set i r.2 })

/-- Run a sequence of events; `none` when one of them cannot happen. -/
def run : Bot → List Event → Option Bot
  | b, [] => some b
  | b, ev :: rest =>
    match step b ev with
    | none => none
    | some b1 => run b1 rest

/-! ## Vocabulary of the invariants -/

/-- The effect is a call of `cmd.Start()`. -/
def Effect.isStart : Effect → Bool
  | Effect.start _ => true
  | _ => false

/-- The fields of the registry that are not display caches. -/
def TaskManager.core (tm : TaskManager) :
    List (Int × List (Int × TaskPtr)) × List (Int × Int) × List QueuedPtr ×
      List (Int × List (Int × QueuedPtr)) × Option TaskPtr × Bool :=
  (tm.tasks, tm.counters, tm.queue, tm.queuedTasks, tm.currentTask, tm.queueProcessing)

/-- The fields of the registry that say what is executing. -/
def TaskManager.running (tm : TaskManager) :
    List (Int × List (Int × TaskPtr)) × Option TaskPtr × Bool :=
  (tm.tasks, tm.currentTask, tm.queueProcessing)

/-- The state `b2` differs from `b` at most in the display caches and in display
calls added to the log. -/
def DisplayOnly (b b2 : Bot) : Prop :=
  b2.heap = b.heap ∧ b2.workers = b.workers ∧ b2.taskManager.core = b.taskManager.core ∧
  ∃ es : List Effect, b2.log = b.log ++ es ∧ ∀ e ∈ es, e.isStart = false

/-- The state `b2` differs from `b` at most in the display caches, in the task
objects of the heap and in calls other than `cmd.Start()` added to the log. -/
def Calm (b b2 : Bot) : Prop :=
  b2.workers = b.workers ∧ b2.taskManager.core = b.taskManager.core ∧
  b2.heap.queuedObjs = b.heap.queuedObjs ∧
  ∃ es : List Effect, b2.log = b.log ++ es ∧ ∀ e ∈ es, e.isStart = false

/-- Two values of the locals of `processTDLForward` belong to the same call. -/
def SameTask (ex ex2 : Exec) : Prop :=
  ex2.item = ex.item ∧ ex2.userID = ex.userID ∧ ex2.taskID = ex.taskID ∧ ex2.task = ex.task

/-- The active-task table holds no entry or exactly one. -/
def SmallTable (t : List (Int × List (Int × TaskPtr))) : Prop :=
  t = [] ∨ ∃ (u i : Int) (x : TaskPtr), t = [(u, [(i, x)])]

/-- The heap of queued items only grows, and a `Cancelled` flag that is set
stays set. -/
def HeapMono (h h2 : Heap) : Prop :=
  h.queuedObjs.length ≤ h2.queuedObjs.length ∧
  ∀ p : QueuedPtr, p < h.queuedObjs.length → (h.queued p).Cancelled = true →
    (h2.queued p).Cancelled = true

/-- What every step of the main goroutine guarantees: the workers, the
`queueProcessing` flag and the current task are left alone, an active-task
table with at most one entry keeps it or loses it, the heap of queued items is
monotone, and no process is started. -/
structure Quiet (b b2 : Bot) : Prop where
  workers : b2.workers = b.workers
  processing : b2.taskManager.queueProcessing = b.taskManager.queueProcessing
  current : b2.taskManager.currentTask = b.taskManager.currentTask
  tasks : SmallTable b.taskManager.tasks →
    (b2.taskManager.tasks = b.taskManager.tasks ∨ b2.taskManager.tasks = [])
  heap : HeapMono b.heap b2.heap
  log : ∃ es : List Effect, b2.log = b.log ++ es ∧ ∀ e ∈ es, e.isStart = false

/-- The item a worker is executing, from the moment its `Cancelled` flag was
read as false until `RemoveQueuedTask` at line 816. -/
def Worker.item? : Worker → Option QueuedPtr
  | Worker.idle => none
  | Worker.dequeued _ => none
  | Worker.accepted p => some p
  | Worker.entering p => some p
  | Worker.registered ex => some ex.item
  | Worker.prepared ex => some ex.item
  | Worker.running ex => some ex.item
  | Worker.exiting ex => some ex.item
  | Worker.returned p => some p

/-- The locals of the call of `processTDLForward` a worker is in, from the
registration of the task to the deferred `RemoveTask`. -/
def Worker.exec? : Worker → Option Exec
  | Worker.registered ex => some ex
  | Worker.prepared ex => some ex
  | Worker.running ex => some ex
  | Worker.exiting ex => some ex
  | _ => none

/-- The locals of the call of `processTDLForward` a worker is in, from
`SetCurrentTask(task)` to the deferred `SetCurrentTask(nil)`. -/
def Worker.current? : Worker → Option Exec
  | Worker.prepared ex => some ex
  | Worker.running ex => some ex
  | Worker.exiting ex => some ex
  | _ => none

/-- Serial execution: at most one worker exists, none before `queueProcessing`
is set; the active-task table is empty or holds exactly the task of the call of
`processTDLForward` in flight; the current task is unset or is the task of that
call. -/
def SerialInv (b : Bot) : Prop :=
  b.workers.length ≤ 1 ∧
  (b.taskManager.queueProcessing = false → b.workers = []) ∧
  (b.taskManager.tasks = [] ∨
    ∃ ex : Exec, (∃ w ∈ b.workers, w.exec? = some ex) ∧
      b.taskManager.tasks = [(ex.userID, [(ex.taskID, ex.task)])]) ∧
  (b.taskManager.currentTask = none ∨
    ∃ ex : Exec, (∃ w ∈ b.workers, w.current? = some ex) ∧
      b.taskManager.currentTask = some ex.task)

/-- What a worker step does to the active-task table and to the current task:
nothing outside `processTDLForward`; the registration; `SetCurrentTask(task)`;
nothing between that and the deferred calls; the deferred calls. -/
def WorkerMove (b : Bot) (w : Worker) (b2 : Bot) (w2 : Worker) : Prop :=
  (w.exec? = none ∧ w2.exec? = none ∧ b2.taskManager.tasks = b.taskManager.tasks ∧
    b2.taskManager.currentTask = b.taskManager.currentTask) ∨
  (w.exec? = none ∧ ∃ ex : Exec, w2 = Worker.registered ex ∧
    b2.taskManager.tasks = mapSet2 b.taskManager.tasks ex.userID ex.taskID ex.task ∧
    b2.taskManager.currentTask = b.taskManager.currentTask) ∨
  (∃ ex : Exec, w = Worker.registered ex ∧ w2 = Worker.prepared ex ∧
    b2.taskManager.tasks = b.taskManager.tasks ∧
    b2.taskManager.currentTask = some ex.task) ∨
  (∃ ex ex2 : Exec, w.current? = some ex ∧ w2.current? = some ex2 ∧ SameTask ex ex2 ∧
    b2.taskManager.tasks = b.taskManager.tasks ∧
    b2.taskManager.currentTask = b.taskManager.currentTask) ∨
  (∃ ex : Exec, w.current? = some ex ∧ w2.exec? = none ∧
    b2.taskManager.tasks = (RemoveTask b.taskManager ex.userID ex.taskID).tasks ∧
    b2.taskManager.currentTask = none)

/-- What every worker step guarantees: the list of workers and the
`queueProcessing` flag are left alone, the heap of queued items is monotone, a
process is started only for the item the worker executes, a worker starts to
execute an item only by reading its `Cancelled` flag as false, and the
active-task table and the current task move as `WorkerMove` says. -/
def WorkerSpec (b : Bot) (w : Worker) (b2 : Bot) (w2 : Worker) : Prop :=
  b2.workers = b.workers ∧
  b2.taskManager.queueProcessing = b.taskManager.queueProcessing ∧
  HeapMono b.heap b2.heap ∧
  (∃ es : List Effect, b2.log = b.log ++ es ∧
    ∀ e ∈ es, ∀ p : QueuedPtr, e = Effect.start p → w.item? = some p) ∧
  (∀ p : QueuedPtr, w2.item? = some p →
    w.item? = some p ∨ (w = Worker.dequeued p ∧ (b.heap.queued p).Cancelled = false)) ∧
  WorkerMove b w b2 w2

/-- The item `p` is out of the race: its `Cancelled` flag is set and no worker
has read the flag as false. -/
def Discarded (p : QueuedPtr) (b : Bot) : Prop :=
  p < b.heap.queuedObjs.length ∧ (b.heap.queued p).Cancelled = true ∧
  ∀ w ∈ b.workers, w.item? ≠ some p

/-! ## Runs used to state the properties -/

/-- One allocation of task IDs: by `handleMessage` for a message with `n`
links (lines 591-597), by `handleMessage` for a message with one link
(lines 665-668), or by `AddTask` called with a new task object. -/
inductive Alloc where
  | links (userID : Int) (n : Nat)
  | link (userID : Int)
  | addTask (userID : Int) (task : Task)
deriving DecidableEq, Repr

/-- The user an allocation is made for. -/
def Alloc.userID : Alloc → Int
  | Alloc.links u _ => u
  | Alloc.link u => u
  | Alloc.addTask u _ => u

/-- The number of IDs an allocation asks for. -/
def Alloc.count : Alloc → Nat
  | Alloc.links _ n => n
  | Alloc.link _ => 1
  | Alloc.addTask _ _ => 1

/-- Perform one allocation: the state afterwards and the IDs handed out, in
order.  The ID of a task given to `AddTask` is read from the task object after
the call, where line 108 wrote it. -/
def allocStep (h : Heap) (tm : TaskManager) : Alloc → (Heap × TaskManager) × List Int
  | Alloc.links u n => ((h, (allocTaskIDs tm u n).1), (allocTaskIDs tm u n).2)
  | Alloc.link u => ((h, (nextCounter tm u).1), [(nextCounter tm u).2])
  | Alloc.addTask u t =>
    (AddTask (h.newTask t).1 tm u (h.newTask t).2,
     [((AddTask (h.newTask t).1 tm u (h.newTask t).2).1.task (h.newTask t).2).ID])

/-- The number of IDs that the allocations of a sequence ask for user `U`. -/
def requestedFor (U : Int) : List Alloc → Nat
  | [] => 0
  | ev :: rest => (if ev.userID = U then ev.count else 0) + requestedFor U rest

/-- The IDs handed to user `U` along a sequence of allocations, in allocation order. -/
def idsAllocatedTo (U : Int) (h : Heap) (tm : TaskManager) : List Alloc → List Int
  | [] => []
  | ev :: rest =>
    (if ev.userID = U then (allocStep h tm ev).2 else []) ++
      idsAllocatedTo U (allocStep h tm ev).1.1 (allocStep h tm ev).1.2 rest

/-- The registry after `k` successive calls of `DecrementSummaryPending` for one unit. -/
def decrementTimes (tm : TaskManager) (chatID messageID : Int) : Nat → TaskManager
  | 0 => tm
  | k + 1 => (DecrementSummaryPending (decrementTimes tm chatID messageID k) chatID messageID).1

/-- The values that a sequence of calls of `DecrementSummaryPending`, each for
the unit it names, returns to the calls for the unit `(chatID, messageID)`. -/
def returnsFor (tm : TaskManager) (chatID messageID : Int) : List (Int × Int) → List Int
  | [] => []
  | call :: rest =>
    let r := DecrementSummaryPending tm call.1 call.2
    if call = (chatID, messageID) then r.2 :: returnsFor r.1 chatID messageID rest
    else returnsFor r.1 chatID messageID rest

/-- The value that the next call of `DecrementSummaryPending` for the unit
returns in the state `tm` (lines 216-236). -/
def nextReturn (tm : TaskManager) (chatID messageID : Int) : Int :=
  match mapGet2 tm.summaryPendingCounts chatID messageID with
  | some n => if n - 1 ≤ 0 then 0 else n - 1
  | none => 0

/-- The registration at the start of `processTDLForward` (lines 826-845) for the
queued item `p`: a new `Task` object is stored under the item's user and ID. -/
def registerTask (h : Heap) (tm : TaskManager) (p : QueuedPtr) : Heap × TaskManager :=
  let q := h.queued p
  let r := h.newTask
    { ID := q.TaskID, UserID := q.UserID, Cmd := none, Cancel := false,
      Message := q.StatusMsg, PGID := 0 }
  (r.1, { tm with tasks := mapSet2 tm.tasks q.UserID q.TaskID r.2 })

/-- A call that writes the active-task table or the queued-lookup table. -/
inductive RegistryCall
  /-- The call `AddTask(userID, task)`. -/
  | addTask (userID : Int) (task : TaskPtr)
  /-- The registration of the executor for the queued item `p`. -/
  | register (p : QueuedPtr)
  /-- The call `RemoveTask(userID, taskID)`. -/
  | removeTask (userID taskID : Int)
  /-- The call `CancelTask(userID, taskID)`. -/
  | cancelTask (userID taskID : Int)
  /-- The call `EnqueueTask(task)`. -/
  | enqueue (task : QueuedPtr)
  /-- The call `RemoveQueuedTask(userID, taskID)`. -/
  | removeQueued (userID taskID : Int)
  /-- The call `CancelQueuedTask(userID, taskID)`. -/
  | cancelQueued (userID taskID : Int)
deriving DecidableEq, Repr

/-- The heap and the registry after one call.  A call of `EnqueueTask` that finds
the channel full has run its locked section and waits at the send. -/
def registryStep (s : Heap × TaskManager) : RegistryCall → Heap × TaskManager
  | RegistryCall.addTask userID task => AddTask s.1 s.2 userID task
  | RegistryCall.register p => registerTask s.1 s.2 p
  | RegistryCall.removeTask userID taskID => (s.1, RemoveTask s.2 userID taskID)
  | RegistryCall.cancelTask userID taskID => (s.1, (CancelTask s.1 s.2 userID taskID).tm)
  | RegistryCall.enqueue task =>
    match EnqueueTask s.1 s.2 task with
    | some tm => (s.1, tm)
    | none => (s.1, EnqueueTask_record s.1 s.2 task)
  | RegistryCall.removeQueued userID taskID => (s.1, RemoveQueuedTask s.2 userID taskID)
  | RegistryCall.cancelQueued userID taskID =>
    ((CancelQueuedTask s.1 s.2 userID taskID).heap, (CancelQueuedTask s.1 s.2 userID taskID).tm)

/-- The heap and the registry after a sequence of calls. -/
def registryRun (s : Heap × TaskManager) (calls : List RegistryCall) : Heap × TaskManager :=
  calls.foldl registryStep s

/-- No key of a two-level table maps to an empty inner table. -/
def NoEmptySub {ν : Type} (m : List (Int × List (Int × ν))) : Prop :=
  ∀ e ∈ m, e.2 ≠ []

/-- The worker is inside the line loop of `processTDLForward` (lines 923-993). -/
def Worker.inLineLoop : Worker → Bool
  | Worker.running _ => true
  | _ => false

/-- The classes of an output line in the line loop of `processTDLForward`. -/
inductive LineClass where
  /-- Empty after trimming (line 925). -/
  | blank
  /-- The first line that shows the login prompt (line 932). -/
  | loginPrompt
  /-- A line with the tag `[QRCODE]` (line 947). -/
  | loginLink
  /-- A line with the tag `[STATUS]` (line 962). -/
  | status
  /-- Any other line. -/
  | other
deriving DecidableEq, Repr

/-- The branch that one iteration of the line loop takes for the line `text`:
the tests of lines 925, 932, 947 and 962 in this order; `qrDetected` is the
local of that name. -/
def classifyLine (qrDetected : Bool) (text : GoString) : LineClass :=
  if trimSpace text = [] then LineClass.blank
  else if !qrDetected &&
      (contains (trimSpace text) (utf8 "Scan QR code") || contains (trimSpace text) (utf8 "█")) then
    LineClass.loginPrompt
  else if contains (trimSpace text) (utf8 "[QRCODE]") then LineClass.loginLink
  else if contains (trimSpace text) (utf8 "[STATUS]") then LineClass.status
  else LineClass.other

/-- The lines of a sequence that the loop classifies as status lines, in the
order of arrival; a login prompt sets `qrDetected` for the lines after it. -/
def statusLines (qrDetected : Bool) : List GoString → List GoString
  | [] => []
  | text :: rest =>
    match classifyLine qrDetected text with
    | LineClass.loginPrompt => statusLines true rest
    | LineClass.status => text :: statusLines qrDetected rest
    | _ => statusLines qrDetected rest

/-- The line loop (lines 923-993) over the lines `lines`, each with the two clock
values of its iteration: an iteration that returns ends the loop, and the worker
is still in the loop when every line was read. -/
def Bot.processLines : Bot → Exec → List (GoString × Int × Int) → Option (Bot × Worker)
  | b, ex, [] => some (b, Worker.running ex)
  | b, ex, line :: rest =>
    match b.processLine ex line.1 line.2.1 line.2.2 with
    | some (b1, Worker.running ex1) => Bot.processLines b1 ex1 rest
    | r => r

/-! ## Example runs -/

/-- A standalone item of user 7 with task ID 1. -/
def exampleItem : QueuedTask :=
  { Link := utf8 "https://t.me/a/1", Message := { ChatID := 100, MessageID := 1 }, UserID := 7,
    StatusMsg := some { ChatID := 100, MessageID := 50 }, TaskID := 1, Cancelled := false,
    Index := 0, Shared := false }

/-- The program after the queue worker was started and `exampleItem` was
submitted. -/
def exampleQueued : Bot :=
  { heap := { taskObjs := [], queuedObjs := [exampleItem] }
    taskManager :=
      { NewTaskManager with
        queue := [0], queuedTasks := [(7, [(1, 0)])], queueProcessing := true }
    workers := [Worker.idle]
    log := [] }

/-- The run in which `exampleItem` is cancelled while it waits in the channel
and is then received by the worker. -/
def exampleCancelledRun : List Event :=
  [Event.cancelQueued 7 1, Event.worker 0 WorkerEvent.recv]

/-- The state at the end of `exampleCancelledRun`. -/
def exampleCancelled : Bot := (run exampleQueued exampleCancelledRun).getD NewBot

/-- The run in which `exampleItem` is submitted, received and started. -/
def exampleStartedRun : List Event :=
  [Event.startQueueProcessor, Event.startQueueProcessor, Event.enqueue exampleItem,
   Event.worker 0 WorkerEvent.recv, Event.worker 0 WorkerEvent.check,
   Event.worker 0 WorkerEvent.announce, Event.worker 0 WorkerEvent.register,
   Event.worker 0 WorkerEvent.setCurrent,
   Event.worker 0 (WorkerEvent.spawn (SpawnOutcome.started 4242 (some 4242)) 0)]

/-- The state at the end of `exampleStartedRun`. -/
def exampleStarted : Bot := (run NewBot exampleStartedRun).getD NewBot

/-- The run in which the press of the cancel button for `exampleItem` arrives
after the worker read its `Cancelled` flag and before the task is registered:
`CancelQueuedTask` drops the lookup entry and finds no running task, then the
worker registers and starts the task. -/
def exampleRaceRun : List Event :=
  [Event.startQueueProcessor, Event.enqueue exampleItem,
   Event.worker 0 WorkerEvent.recv, Event.worker 0 WorkerEvent.check,
   Event.cancelQueued 7 1,
   Event.worker 0 WorkerEvent.announce, Event.worker 0 WorkerEvent.register,
   Event.worker 0 WorkerEvent.setCurrent,
   Event.worker 0 (WorkerEvent.spawn (SpawnOutcome.started 4242 (some 4242)) 0)]

/-- The state at the end of `exampleRaceRun`. -/
def exampleRace : Bot := (run NewBot exampleRaceRun).getD NewBot

/-- The run that retires the controls of a summary too early.  User 7 submits
two links in one message (sent as message 50 of chat 100); the worker starts
task 1; the runner prints the login prompt, so the executor puts the button
`cancel_7_1` on the message; the user presses it; the output of the killed
runner ends. -/
def earlyRetireRun : List Event :=
  [Event.startQueueProcessor,
   Event.messageLinks { ChatID := 100, MessageID := 1 } 7
     [utf8 "https://t.me/a/1", utf8 "https://t.me/a/2"] (some { ChatID := 100, MessageID := 50 }),
   Event.worker 0 WorkerEvent.recv, Event.worker 0 WorkerEvent.check,
   Event.worker 0 WorkerEvent.announce, Event.worker 0 WorkerEvent.register,
   Event.worker 0 WorkerEvent.setCurrent,
   Event.worker 0 (WorkerEvent.spawn (SpawnOutcome.started 4242 (some 4242)) 0),
   Event.worker 0 (WorkerEvent.line (utf8 "Scan QR code") 10 10),
   Event.callback 7 (CallbackData.cancelTask 7 1) (some { ChatID := 100, MessageID := 50 }),
   Event.worker 0 (WorkerEvent.eof true false none)]

/-- The run in which user 7 presses the cancel button of the running
`exampleItem`, so that `handleCallbackQuery` cancels it with `CancelTask`, and
three lines that the runner wrote before it was killed are then read: the login
prompt, a login link and a status line. -/
def cancelThenLinesRun : List Event :=
  exampleStartedRun ++
    [Event.callback 7 (CallbackData.cancelTask 7 1) (some { ChatID := 100, MessageID := 50 }),
     Event.worker 0 (WorkerEvent.line (utf8 "Scan QR code") 10 10),
     Event.worker 0 (WorkerEvent.line (utf8 "[QRCODE] tg://login?token=x") 20 20),
     Event.worker 0 (WorkerEvent.line (utf8 "[STATUS] 50%") 30 30)]

/-- The run in which user 7 presses the cancel button of the running
`exampleItem`, so that `handleCallbackQuery` cancels it with `CancelTask`, and
the output of the killed runner ends without a further line: `cmd.Wait()`
returns an error and `ctx.Err()` is `context.Canceled`. -/
def cancelThenEofRun : List Event :=
  exampleStartedRun ++
    [Event.callback 7 (CallbackData.cancelTask 7 1) (some { ChatID := 100, MessageID := 50 }),
     Event.worker 0 (WorkerEvent.eof true false none)]

/-- A status of one line made of 100 Chinese characters, 300 bytes. -/
def hundredHan : GoString := (List.replicate 100 (utf8 "中")).flatten

/-- The locals of `processTDLForward` at the end of `exampleStartedRun`: the
runner of `exampleItem` was started at clock value 0. -/
def exampleStartedExec : Exec :=
  { item := 0, userID := 7, chatID := 100, taskID := 1, link := utf8 "https://t.me/a/1",
    sentMsg := some { ChatID := 100, MessageID := 50 }, task := 0, lastUpdate := 0,
    currentStatus := utf8 "⏳ 任务 #1 - 已接收请求，处理中...", qrDetected := false,
    statusSeen := false }

/-- The run in which the runner of `exampleItem` prints `[STATUS] 50% done` one
second after its start and `[STATUS] 90% done` one second later. -/
def twoStatusLinesRun : List Event :=
  exampleStartedRun ++
    [Event.worker 0 (WorkerEvent.line (utf8 "[STATUS] 50% done") 1000 1000),
     Event.worker 0 (WorkerEvent.line (utf8 "[STATUS] 90% done") 2000 2000)]

/-- The run in which the runner of `exampleItem` prints `[STATUS] 50% done` one
second after its start and `[STATUS] 90% done` one second after that line, and
the push of the first line takes one millisecond. -/
def throttledStatusRun : List Event :=
  exampleStartedRun ++
    [Event.worker 0 (WorkerEvent.line (utf8 "[STATUS] 50% done") 1000 1001),
     Event.worker 0 (WorkerEvent.line (utf8 "[STATUS] 90% done") 2000 2001)]

/-! # Theorems -/

/-! ## Lemmas on Go maps -/

theorem mapGet_mapSet_self {κ ν : Type} [DecidableEq κ] (m : List (κ × ν)) (k : κ) (v : ν) :
    mapGet (mapSet m k v) k = some v := by
  induction m with
  | nil => simp [mapSet, mapGet]
  | cons e rest ih =>
    obtain ⟨k1, v1⟩ := e
    by_cases hk : k1 = k
    · simp [mapSet, mapGet, hk]
    · simp [mapSet, mapGet, hk, ih]

theorem mapGet_mapSet_ne {κ ν : Type} [DecidableEq κ] (m : List (κ × ν)) (k k2 : κ) (v : ν)
    (hne : k2 ≠ k) : mapGet (mapSet m k v) k2 = mapGet m k2 := by
  induction m with
  | nil => simp [mapSet, mapGet, Ne.symm hne]
  | cons e rest ih =>
    obtain ⟨k1, v1⟩ := e
    by_cases hk : k1 = k
    · subst hk
      simp [mapSet, mapGet, Ne.symm hne]
    · by_cases hk2 : k1 = k2
      · subst hk2
        simp [mapSet, mapGet, hk]
      · simp [mapSet, mapGet, hk, hk2, ih]

theorem mapGet_mapDelete_self {κ ν : Type} [DecidableEq κ] (m : List (κ × ν)) (k : κ) :
    mapGet (mapDelete m k) k = none := by
  induction m with
  | nil => simp [mapDelete, mapGet]
  | cons e rest ih =>
    obtain ⟨k1, v1⟩ := e
    by_cases hk : k1 = k
    · simp [mapDelete, hk, ih]
    · simp [mapDelete, mapGet, hk, ih]

theorem mapGet_mapDelete_ne {κ ν : Type} [DecidableEq κ] (m : List (κ × ν)) (k k2 : κ)
    (hne : k2 ≠ k) : mapGet (mapDelete m k) k2 = mapGet m k2 := by
  induction m with
  | nil => simp [mapDelete, mapGet]
  | cons e rest ih =>
    obtain ⟨k1, v1⟩ := e
    by_cases hk : k1 = k
    · subst hk
      simp [mapDelete, mapGet, Ne.symm hne, ih]
    · by_cases hk2 : k1 = k2
      · subst hk2
        simp [mapDelete, mapGet, hk]
      · simp [mapDelete, mapGet, hk, hk2, ih]

theorem mapDelete_of_mapGet_none {κ ν : Type} [DecidableEq κ] (m : List (κ × ν)) (k : κ)
    (hnone : mapGet m k = none) : mapDelete m k = m := by
  induction m with
  | nil => simp [mapDelete]
  | cons e rest ih =>
    obtain ⟨k1, v1⟩ := e
    by_cases hk : k1 = k
    · simp [mapGet, hk] at hnone
    · simp only [mapGet, hk, if_false] at hnone
      simp [mapDelete, hk, ih hnone]

theorem mapGet_none_of_mapDelete_nil {κ ν : Type} [DecidableEq κ] (m : List (κ × ν)) (k k2 : κ)
    (hnil : (mapDelete m k).length = 0) (hne : k2 ≠ k) : mapGet m k2 = none := by
  rw [← mapGet_mapDelete_ne m k k2 hne]
  rw [List.length_eq_zero] at hnil
  rw [hnil]
  rfl

theorem mapGet2_mapSet2_self {ν : Type} (m : List (Int × List (Int × ν))) (a b : Int) (v : ν) :
    mapGet2 (mapSet2 m a b v) a b = some v := by
  unfold mapSet2 mapGet2
  cases hm : mapGet m a <;> simp [mapGet_mapSet_self]

theorem mapGet2_mapSet2_ne {ν : Type} (m : List (Int × List (Int × ν))) (a b a2 b2 : Int)
    (v : ν) (hne : a2 ≠ a ∨ b2 ≠ b) : mapGet2 (mapSet2 m a b v) a2 b2 = mapGet2 m a2 b2 := by
  unfold mapSet2 mapGet2
  by_cases ha : a2 = a
  · subst ha
    have hb : b2 ≠ b := by
      rcases hne with h | h
      · exact absurd rfl h
      · exact h
    cases hm : mapGet m a2 with
    | none => simp [mapGet_mapSet_self, mapSet, mapGet, Ne.symm hb]
    | some inner => simp [mapGet_mapSet_self, mapGet_mapSet_ne _ _ _ _ hb]
  · cases hm : mapGet m a <;> simp [mapGet_mapSet_ne _ _ _ _ ha]

theorem mapGet2_mapDeleteIn_self {ν : Type} (m : List (Int × List (Int × ν))) (a b : Int)
    (inner : List (Int × ν)) : mapGet2 (mapDeleteIn m a inner b) a b = none := by
  unfold mapDeleteIn mapGet2
  by_cases hlen : (mapDelete inner b).length = 0
  · simp [hlen, mapGet_mapDelete_self]
  · simp [hlen, mapGet_mapSet_self, mapGet_mapDelete_self]

theorem mapGet2_mapDeleteIn_ne {ν : Type} (m : List (Int × List (Int × ν))) (a b a2 b2 : Int)
    (inner : List (Int × ν)) (hin : mapGet m a = some inner) (hne : a2 ≠ a ∨ b2 ≠ b) :
    mapGet2 (mapDeleteIn m a inner b) a2 b2 = mapGet2 m a2 b2 := by
  unfold mapDeleteIn mapGet2
  by_cases ha : a2 = a
  · subst ha
    have hb : b2 ≠ b := by
      rcases hne with h | h
      · exact absurd rfl h
      · exact h
    by_cases hlen : (mapDelete inner b).length = 0
    · simp [hlen, mapGet_mapDelete_self, hin, mapGet_none_of_mapDelete_nil inner b b2 hlen hb]
    · simp [hlen, mapGet_mapSet_self, hin, mapGet_mapDelete_ne _ _ _ hb]
  · by_cases hlen : (mapDelete inner b).length = 0
    · simp [hlen, mapGet_mapDelete_ne _ _ _ ha]
    · simp [hlen, mapGet_mapSet_ne _ _ _ _ ha]


/-! ## Task IDs -/

theorem counter_nextCounter_self (tm : TaskManager) (u : Int) :
    (mapGet (nextCounter tm u).1.counters u).getD 0 = (mapGet tm.counters u).getD 0 + 1 := by
  simp [nextCounter, mapGet_mapSet_self]

theorem counter_nextCounter_ne (tm : TaskManager) (u U : Int) (hne : U ≠ u) :
    (mapGet (nextCounter tm u).1.counters U).getD 0 = (mapGet tm.counters U).getD 0 := by
  simp [nextCounter, mapGet_mapSet_ne _ _ _ _ hne]

theorem allocTaskIDs_spec (n : Nat) (tm : TaskManager) (u : Int) :
    (allocTaskIDs tm u n).2.length = n ∧
    (∀ k : Nat, k < n →
      (allocTaskIDs tm u n).2[k]? = some ((mapGet tm.counters u).getD 0 + (k : Int) + 1)) ∧
    (mapGet (allocTaskIDs tm u n).1.counters u).getD 0 = (mapGet tm.counters u).getD 0 + n ∧
    (∀ U : Int, U ≠ u →
      (mapGet (allocTaskIDs tm u n).1.counters U).getD 0 = (mapGet tm.counters U).getD 0) := by
  induction n generalizing tm with
  | zero => simp [allocTaskIDs]
  | succ n ih =>
    obtain ⟨hlen, hget, hctr, hother⟩ := ih (nextCounter tm u).1
    refine ⟨by simp [allocTaskIDs, hlen], ?_, ?_, ?_⟩
    · intro k hk
      cases k with
      | zero => simp [allocTaskIDs, nextCounter]
      | succ j =>
        have hj : j < n := by omega
        have := hget j hj
        simp only [allocTaskIDs, List.getElem?_cons_succ, this, counter_nextCounter_self]
        congr 1
        push_cast
        ring
    · simp only [allocTaskIDs, hctr, counter_nextCounter_self]
      push_cast
      ring
    · intro U hU
      simp only [allocTaskIDs, hother U hU, counter_nextCounter_ne tm u U hU]

theorem AddTask_writes_id (h : Heap) (tm : TaskManager) (u : Int) (t : Task) :
    ((AddTask (h.newTask t).1 tm u (h.newTask t).2).1.task (h.newTask t).2).ID
      = (nextCounter tm u).2 := by
  simp [AddTask, Heap.newTask, Heap.setTask, Heap.task, List.getD_eq_getElem?_getD]

theorem allocStep_spec (h : Heap) (tm : TaskManager) (ev : Alloc) :
    (allocStep h tm ev).2.length = ev.count ∧
    (∀ k : Nat, k < (allocStep h tm ev).2.length →
      (allocStep h tm ev).2[k]? = some ((mapGet tm.counters ev.userID).getD 0 + (k : Int) + 1)) ∧
    (mapGet (allocStep h tm ev).1.2.counters ev.userID).getD 0 =
      (mapGet tm.counters ev.userID).getD 0 + (allocStep h tm ev).2.length ∧
    (∀ U : Int, U ≠ ev.userID →
      (mapGet (allocStep h tm ev).1.2.counters U).getD 0 = (mapGet tm.counters U).getD 0) := by
  cases ev with
  | links u n =>
    obtain ⟨hlen, hget, hctr, hother⟩ := allocTaskIDs_spec n tm u
    refine ⟨hlen, ?_, ?_, ?_⟩
    · intro k hk
      simp only [allocStep, hlen] at hk
      exact hget k hk
    · simp only [allocStep, Alloc.userID, hctr, hlen]
    · intro U hU
      exact hother U hU
  | link u =>
    refine ⟨rfl, ?_, ?_, ?_⟩
    · intro k hk
      simp only [allocStep, List.length_singleton] at hk
      have hk0 : k = 0 := by omega
      subst hk0
      simp [allocStep, Alloc.userID, nextCounter]
    · simp [allocStep, Alloc.userID, counter_nextCounter_self]
    · intro U hU
      exact counter_nextCounter_ne tm u U hU
  | addTask u t =>
    refine ⟨rfl, ?_, ?_, ?_⟩
    · intro k hk
      simp only [allocStep, List.length_singleton] at hk
      have hk0 : k = 0 := by omega
      subst hk0
      simp only [allocStep, AddTask_writes_id, Alloc.userID]
      simp [nextCounter]
    · simp [allocStep, Alloc.userID, AddTask, counter_nextCounter_self]
    · intro U hU
      simp only [allocStep, AddTask]
      exact counter_nextCounter_ne tm u U hU

theorem idsAllocatedTo_length (U : Int) (evs : List Alloc) :
    ∀ (h : Heap) (tm : TaskManager), (idsAllocatedTo U h tm evs).length = requestedFor U evs := by
  induction evs with
  | nil => intro h tm; rfl
  | cons ev rest ih =>
    intro h tm
    by_cases hu : ev.userID = U
    · simp only [idsAllocatedTo, requestedFor, hu, if_true, List.length_append, ih,
        (allocStep_spec h tm ev).1]
    · simp only [idsAllocatedTo, requestedFor, hu, if_false, List.nil_append, ih, zero_add]

theorem idsAllocatedTo_from (U : Int) (evs : List Alloc) (h : Heap) (tm : TaskManager)
    (k : Nat) (hk : k < (idsAllocatedTo U h tm evs).length) :
    (idsAllocatedTo U h tm evs)[k]? = some ((mapGet tm.counters U).getD 0 + (k : Int) + 1) := by
  induction evs generalizing h tm k with
  | nil => simp [idsAllocatedTo] at hk
  | cons ev rest ih =>
    obtain ⟨_, hget, hctr, hother⟩ := allocStep_spec h tm ev
    by_cases hu : ev.userID = U
    · subst hu
      simp only [idsAllocatedTo, if_true] at hk ⊢
      by_cases hlt : k < (allocStep h tm ev).2.length
      · rw [List.getElem?_append_left hlt]
        exact hget k hlt
      · have hge : (allocStep h tm ev).2.length ≤ k := by omega
        rw [List.getElem?_append_right hge]
        rw [List.length_append] at hk
        rw [ih _ _ _ (by omega), hctr]
        congr 1
        have : ((k - (allocStep h tm ev).2.length : Nat) : Int) =
            (k : Int) - ((allocStep h tm ev).2.length : Int) := by omega
        rw [this]
        ring
    · simp only [idsAllocatedTo, hu, if_false, List.nil_append] at hk ⊢
      rw [ih _ _ _ hk, hother U (Ne.symm hu)]

/-- Claim C1: starting from `NewTaskManager`, along every interleaving of ID
allocations (by `handleMessage` for several links or one link, and by
`AddTask`) made for user `U` and for other users, the IDs handed to `U` are
exactly 1, 2, ..., N in allocation order, where N is the number of IDs that the
allocations for `U` ask for: none is missing, none repeats, and the `k`-th is
`k`, whatever was allocated to other users in between. -/
theorem task_ids_are_one_to_n (h : Heap) (evs : List Alloc) (U : Int) :
    idsAllocatedTo U h NewTaskManager evs =
      (List.range (requestedFor U evs)).map (fun (k : Nat) => (k : Int) + 1) := by
  have hlen := idsAllocatedTo_length U evs h NewTaskManager
  apply List.ext_getElem?
  intro k
  by_cases hk : k < (idsAllocatedTo U h NewTaskManager evs).length
  · rw [idsAllocatedTo_from U evs h NewTaskManager k hk, List.getElem?_map,
      List.getElem?_range (by omega)]
    simp only [NewTaskManager, mapGet, Option.getD_none, Option.map_some', zero_add]
  · have hge : (idsAllocatedTo U h NewTaskManager evs).length ≤ k := by omega
    rw [List.getElem?_eq_none hge, List.getElem?_eq_none]
    rw [List.length_map, List.length_range]
    omega

/-- An interleaving for users 7 and 8: user 7 asks for three IDs with one
message, user 8 for one, user 7 for one through `AddTask` and one with a
single link. -/
theorem task_ids_example :
    idsAllocatedTo 7 default NewTaskManager
        [Alloc.links 7 3, Alloc.link 8, Alloc.addTask 7 default, Alloc.links 8 2, Alloc.link 7]
      = [1, 2, 3, 4, 5] ∧
    idsAllocatedTo 8 default NewTaskManager
        [Alloc.links 7 3, Alloc.link 8, Alloc.addTask 7 default, Alloc.links 8 2, Alloc.link 7]
      = [1, 2, 3] := by
  refine ⟨?_, ?_⟩ <;> decide

/-! ## The pending count of a display unit -/

theorem decrement_above_one (tm : TaskManager) (c m n : Int)
    (hn : mapGet2 tm.summaryPendingCounts c m = some n) (h1 : 1 < n) :
    (DecrementSummaryPending tm c m).2 = n - 1 ∧
    mapGet2 (DecrementSummaryPending tm c m).1.summaryPendingCounts c m = some (n - 1) ∧
    (DecrementSummaryPending tm c m).1.summaryKeyboards = tm.summaryKeyboards ∧
    (DecrementSummaryPending tm c m).1.summaryLines = tm.summaryLines := by
  unfold mapGet2 at hn
  cases hc : mapGet tm.summaryPendingCounts c with
  | none => simp [hc] at hn
  | some counts =>
    simp only [hc] at hn
    have hnot : ¬ (n - 1 ≤ 0) := by omega
    simp [DecrementSummaryPending, hc, hn, hnot, mapGet2, mapGet_mapSet_self]

theorem decrement_last (tm : TaskManager) (c m n : Int)
    (hn : mapGet2 tm.summaryPendingCounts c m = some n) (h1 : n ≤ 1) :
    (DecrementSummaryPending tm c m).2 = 0 ∧
    mapGet2 (DecrementSummaryPending tm c m).1.summaryPendingCounts c m = none ∧
    mapGet2 (DecrementSummaryPending tm c m).1.summaryKeyboards c m = none ∧
    (DecrementSummaryPending tm c m).1.summaryLines = tm.summaryLines := by
  unfold mapGet2 at hn
  cases hc : mapGet tm.summaryPendingCounts c with
  | none => simp [hc] at hn
  | some counts =>
    simp only [hc] at hn
    have hle : n - 1 ≤ 0 := by omega
    cases hk : mapGet tm.summaryKeyboards c with
    | none =>
      simp [DecrementSummaryPending, hc, hn, hle, hk, mapGet2_mapDeleteIn_self]
      simp [mapGet2, hk]
    | some km =>
      simp [DecrementSummaryPending, hc, hn, hle, hk, mapGet2_mapDeleteIn_self]

theorem decrement_absent (tm : TaskManager) (c m : Int)
    (hn : mapGet2 tm.summaryPendingCounts c m = none) :
    DecrementSummaryPending tm c m = (tm, 0) := by
  unfold mapGet2 at hn
  cases hc : mapGet tm.summaryPendingCounts c with
  | none => simp [DecrementSummaryPending, hc]
  | some counts =>
    simp only [hc] at hn
    simp [DecrementSummaryPending, hc, hn]

theorem pending_after_init (tm : TaskManager) (c m : Int) (lines : List GoString)
    (kb : Option InlineKeyboardMarkup) :
    mapGet2 (InitSummary tm c m lines kb).summaryPendingCounts c m
      = some (lines.length : Int) := by
  simp [InitSummary, mapGet2_mapSet2_self]

theorem pending_after_decrements (tm : TaskManager) (c m : Int) (N : Nat)
    (hN : mapGet2 tm.summaryPendingCounts c m = some (N : Int)) (j : Nat) (hj : j < N) :
    mapGet2 (decrementTimes tm c m j).summaryPendingCounts c m = some ((N : Int) - j) := by
  induction j with
  | zero => simpa [decrementTimes] using hN
  | succ j ih =>
    have hprev := ih (by omega)
    have hgt : (1 : Int) < (N : Int) - j := by omega
    have hstep := (decrement_above_one _ c m _ hprev hgt).2.1
    simp only [decrementTimes, hstep]
    congr 1
    push_cast
    ring

/-- Claim C2: for every unit `(chatID, messageID)` and every list of `N >= 1`
lines, after `InitSummary` the `k`-th call of `DecrementSummaryPending` returns
`N - k` for every `1 <= k <= N`; after the `N`-th call `summaryKeyboards` has no
entry for the unit and `UpdateSummaryLine` returns a nil keyboard. -/
theorem pending_count_counts_down (tm : TaskManager) (chatID messageID : Int)
    (lines : List GoString) (keyboard : Option InlineKeyboardMarkup)
    (hN : 1 ≤ lines.length) :
    (∀ k : Nat, 1 ≤ k → k ≤ lines.length →
      (DecrementSummaryPending
        (decrementTimes (InitSummary tm chatID messageID lines keyboard) chatID messageID (k - 1))
        chatID messageID).2 = (lines.length : Int) - k) ∧
    mapGet2 (decrementTimes (InitSummary tm chatID messageID lines keyboard)
      chatID messageID lines.length).summaryKeyboards chatID messageID = none ∧
    (∀ (index : Int) (text : GoString),
      (UpdateSummaryLine
        (decrementTimes (InitSummary tm chatID messageID lines keyboard)
          chatID messageID lines.length) chatID messageID index text).2.2 = none) := by
  have hinit := pending_after_init tm chatID messageID lines keyboard
  have hcount : ∀ k : Nat, 1 ≤ k → k ≤ lines.length →
      mapGet2 (decrementTimes (InitSummary tm chatID messageID lines keyboard)
        chatID messageID (k - 1)).summaryPendingCounts chatID messageID
        = some ((lines.length : Int) - ((k - 1 : Nat) : Int)) := by
    intro k hk1 hk2
    exact pending_after_decrements _ chatID messageID lines.length hinit (k - 1) (by omega)
  have hkb : mapGet2 (decrementTimes (InitSummary tm chatID messageID lines keyboard)
      chatID messageID lines.length).summaryKeyboards chatID messageID = none := by
    obtain ⟨n, hn⟩ : ∃ n, lines.length = n + 1 := ⟨lines.length - 1, by omega⟩
    have hc := hcount (n + 1) (by omega) (by omega)
    rw [hn]
    simp only [decrementTimes]
    simp only [Nat.add_sub_cancel] at hc
    exact (decrement_last _ chatID messageID _ hc (by omega)).2.2.1
  refine ⟨?_, hkb, ?_⟩
  · intro k hk1 hk2
    have hc := hcount k hk1 hk2
    by_cases hlast : k = lines.length
    · rw [(decrement_last _ chatID messageID _ hc (by omega)).1]
      omega
    · rw [(decrement_above_one _ chatID messageID _ hc (by omega)).1]
      omega
  · intro index text
    unfold UpdateSummaryLine
    split
    · rfl
    · split
      · rfl
      · exact hkb

/-- Witness for C2 with two lines and a keyboard: the second call returns 0. -/
theorem pending_count_counts_down_witness :
    1 ≤ [utf8 "a", utf8 "b"].length ∧
    (DecrementSummaryPending
      (decrementTimes (InitSummary NewTaskManager 5 9 [utf8 "a", utf8 "b"] (some ⟨[]⟩)) 5 9 (2 - 1))
      5 9).2 = (([utf8 "a", utf8 "b"].length : Nat) : Int) - (2 : Nat) :=
  ⟨by decide,
   (pending_count_counts_down NewTaskManager 5 9 [utf8 "a", utf8 "b"] (some ⟨[]⟩)
      (by decide)).1 2 (by decide) (by decide)⟩

/-! ## Updating one line -/

/-- Claim C8: for every unit with cached lines `L`, every index and every text,
`UpdateSummaryLine` returns and caches a list of the same length as `L` in which
every row other than `index` equals the row of `L`; the cached lines of every
other unit are unchanged. -/
theorem updateSummaryLine_frame (tm : TaskManager) (chatID messageID index : Int)
    (text : GoString) (L : List GoString)
    (hL : GetSummaryLines tm chatID messageID = some L) :
    ∃ L2 : List GoString,
      (UpdateSummaryLine tm chatID messageID index text).2.1 = some L2 ∧
      GetSummaryLines (UpdateSummaryLine tm chatID messageID index text).1 chatID messageID
        = some L2 ∧
      L2.length = L.length ∧
      (∀ j : Nat, (j : Int) ≠ index → L2[j]? = L[j]?) ∧
      (∀ c2 m2 : Int, (c2 ≠ chatID ∨ m2 ≠ messageID) →
        GetSummaryLines (UpdateSummaryLine tm chatID messageID index text).1 c2 m2
          = GetSummaryLines tm c2 m2) := by
  unfold GetSummaryLines mapGet2 at hL
  cases hc : mapGet tm.summaryLines chatID with
  | none => simp [hc] at hL
  | some unit =>
    simp only [hc] at hL
    refine ⟨if 0 ≤ index ∧ index < (L.length : Int) then L.set index.toNat text else L,
      ?_, ?_, ?_, ?_, ?_⟩
    · simp [UpdateSummaryLine, hc, hL]
    · simp [UpdateSummaryLine, hc, hL, GetSummaryLines, mapGet2, mapGet_mapSet_self]
    · split <;> simp
    · intro j hj
      split
      · rename_i hidx
        rw [List.getElem?_set_ne]
        intro heq
        apply hj
        omega
      · rfl
    · intro c2 m2 hne
      simp only [UpdateSummaryLine, hc, hL, GetSummaryLines, mapGet2]
      by_cases hc2 : c2 = chatID
      · subst hc2
        have hm2 : m2 ≠ messageID := by
          rcases hne with h | h
          · exact absurd rfl h
          · exact h
        simp [mapGet_mapSet_self, hc, mapGet_mapSet_ne _ _ _ _ hm2]
      · simp [mapGet_mapSet_ne _ _ _ _ hc2]

/-- Witness for C8: rewriting row 1 of a unit with three rows. -/
theorem updateSummaryLine_frame_witness :
    ∃ L2 : List GoString,
      (UpdateSummaryLine (InitSummary NewTaskManager 5 9 [utf8 "a", utf8 "b", utf8 "c"] none)
        5 9 1 (utf8 "x")).2.1 = some L2 ∧
      GetSummaryLines
        (UpdateSummaryLine (InitSummary NewTaskManager 5 9 [utf8 "a", utf8 "b", utf8 "c"] none)
          5 9 1 (utf8 "x")).1 5 9 = some L2 ∧
      L2.length = [utf8 "a", utf8 "b", utf8 "c"].length ∧
      (∀ j : Nat, (j : Int) ≠ 1 → L2[j]? = [utf8 "a", utf8 "b", utf8 "c"][j]?) ∧
      (∀ c2 m2 : Int, (c2 ≠ 5 ∨ m2 ≠ 9) →
        GetSummaryLines
          (UpdateSummaryLine (InitSummary NewTaskManager 5 9 [utf8 "a", utf8 "b", utf8 "c"] none)
            5 9 1 (utf8 "x")).1 c2 m2
          = GetSummaryLines (InitSummary NewTaskManager 5 9 [utf8 "a", utf8 "b", utf8 "c"] none)
              c2 m2) :=
  updateSummaryLine_frame (InitSummary NewTaskManager 5 9 [utf8 "a", utf8 "b", utf8 "c"] none)
    5 9 1 (utf8 "x") [utf8 "a", utf8 "b", utf8 "c"] (by decide)

/-! ## Cancellation in the registry -/

theorem CancelTask_absent (h : Heap) (tm : TaskManager) (u i : Int)
    (hnone : GetTask tm u i = none) :
    CancelTask h tm u i = { tm := tm, found := false, effects := [] } := by
  unfold GetTask mapGet2 at hnone
  cases ht : mapGet tm.tasks u with
  | none => simp [CancelTask, ht]
  | some tasks =>
    simp only [ht] at hnone
    simp [CancelTask, ht, hnone]

theorem CancelTask_present (h : Heap) (tm : TaskManager) (u i : Int) (p : TaskPtr)
    (hp : GetTask tm u i = some p) :
    (CancelTask h tm u i).found = true ∧
    GetTask (CancelTask h tm u i).tm u i = none ∧
    (CancelTask h tm u i).effects = cancelEffects p (h.task p) := by
  unfold GetTask mapGet2 at hp
  cases ht : mapGet tm.tasks u with
  | none => simp [ht] at hp
  | some tasks =>
    simp only [ht] at hp
    simp [CancelTask, ht, hp, GetTask, mapGet2_mapDeleteIn_self]

theorem GetTask_after_CancelTask (h : Heap) (tm : TaskManager) (u i : Int) :
    GetTask (CancelTask h tm u i).tm u i = none := by
  cases hp : GetTask tm u i with
  | none => rw [CancelTask_absent h tm u i hp]; exact hp
  | some p => exact (CancelTask_present h tm u i p hp).2.1

theorem CancelQueuedTask_mark_absent (h : Heap) (tm : TaskManager) (u i : Int)
    (hnone : GetQueuedTask tm u i = none) :
    CancelQueuedTask_mark h tm u i = (h, tm, false) := by
  unfold GetQueuedTask mapGet2 at hnone
  cases hq : mapGet tm.queuedTasks u with
  | none => simp [CancelQueuedTask_mark, hq]
  | some tasks =>
    simp only [hq] at hnone
    simp [CancelQueuedTask_mark, hq, hnone]

theorem CancelQueuedTask_mark_present (h : Heap) (tm : TaskManager) (u i : Int) (p : QueuedPtr)
    (hp : GetQueuedTask tm u i = some p) :
    (CancelQueuedTask_mark h tm u i).1 = h.setQueued p { h.queued p with Cancelled := true } ∧
    GetQueuedTask (CancelQueuedTask_mark h tm u i).2.1 u i = none ∧
    (CancelQueuedTask_mark h tm u i).2.1.tasks = tm.tasks ∧
    (CancelQueuedTask_mark h tm u i).2.2 = true := by
  unfold GetQueuedTask mapGet2 at hp
  cases hq : mapGet tm.queuedTasks u with
  | none => simp [hq] at hp
  | some tasks =>
    simp only [hq] at hp
    simp [CancelQueuedTask_mark, hq, hp, GetQueuedTask, mapGet2_mapDeleteIn_self]

theorem CancelTask_queuedTasks (h : Heap) (tm : TaskManager) (u i : Int) :
    (CancelTask h tm u i).tm.queuedTasks = tm.queuedTasks := by
  unfold CancelTask
  split
  · split <;> rfl
  · rfl

theorem CancelQueuedTask_absent (h : Heap) (tm : TaskManager) (u i : Int)
    (hnone : GetQueuedTask tm u i = none) :
    CancelQueuedTask h tm u i = { heap := h, tm := tm, found := false, effects := [] } := by
  simp [CancelQueuedTask, CancelQueuedTask_mark_absent h tm u i hnone]

theorem queued_after_setQueued (h : Heap) (p : QueuedPtr) (q : QueuedTask)
    (hp : p < h.queuedObjs.length) : (h.setQueued p q).queued p = q := by
  simp [Heap.setQueued, Heap.queued, List.getD_eq_getElem?_getD, List.getElem?_set, hp]

/-- Claim C4: for every registry state and every `(user, id)` with an entry in
the active-task table, the first `CancelTask(user, id)` returns true and removes
the entry; a second `CancelTask(user, id)` returns false, performs no teardown
and leaves the registry exactly as it was after the first call. -/
theorem cancelTask_twice (h : Heap) (tm : TaskManager) (userID taskID : Int) (p : TaskPtr)
    (hp : GetTask tm userID taskID = some p) :
    (CancelTask h tm userID taskID).found = true ∧
    GetTask (CancelTask h tm userID taskID).tm userID taskID = none ∧
    (CancelTask h (CancelTask h tm userID taskID).tm userID taskID).found = false ∧
    (CancelTask h (CancelTask h tm userID taskID).tm userID taskID).tm
      = (CancelTask h tm userID taskID).tm ∧
    (CancelTask h (CancelTask h tm userID taskID).tm userID taskID).effects = [] := by
  obtain ⟨hfound, hgone, _⟩ := CancelTask_present h tm userID taskID p hp
  refine ⟨hfound, hgone, ?_, ?_, ?_⟩ <;>
    rw [CancelTask_absent h _ userID taskID hgone]

/-- Witness for C4: one running task of user 7, cancelled twice. -/
theorem cancelTask_twice_witness :
    GetTask { NewTaskManager with tasks := [(7, [(1, 0)])], currentTask := some 0 } 7 1 = some 0 ∧
    (CancelTask ⟨[default], []⟩
      (CancelTask ⟨[default], []⟩
        { NewTaskManager with tasks := [(7, [(1, 0)])], currentTask := some 0 } 7 1).tm 7 1).tm
      = (CancelTask ⟨[default], []⟩
          { NewTaskManager with tasks := [(7, [(1, 0)])], currentTask := some 0 } 7 1).tm :=
  ⟨by decide,
   (cancelTask_twice ⟨[default], []⟩
      { NewTaskManager with tasks := [(7, [(1, 0)])], currentTask := some 0 } 7 1 0
      (by decide)).2.2.2.1⟩

/-- Claim C6, as the claim states it, fails: at the end of `exampleRaceRun`
task `(7, 1)` is in the active-task table and the queued-lookup table has no
entry for `(7, 1)`; there `CancelQueuedTask(7, 1)` returns false, sends no
signal, and the task is still in the active-task table. -/
theorem cancelQueued_leaves_running_task :
    run NewBot exampleRaceRun = some exampleRace ∧
    GetTask exampleRace.taskManager 7 1 = some 0 ∧
    GetQueuedTask exampleRace.taskManager 7 1 = none ∧
    (CancelQueuedTask exampleRace.heap exampleRace.taskManager 7 1).found = false ∧
    (CancelQueuedTask exampleRace.heap exampleRace.taskManager 7 1).effects = [] ∧
    GetTask (CancelQueuedTask exampleRace.heap exampleRace.taskManager 7 1).tm 7 1 = some 0 := by
  refine ⟨?_, ?_, ?_, ?_, ?_, ?_⟩ <;> decide

/-- Claim C6, amended: `CancelQueuedTask(user, id)` attempts `CancelTask(user,
id)` exactly when a queued entry was found.  When the queued-lookup table holds
an entry for `(user, id)`, the call returns true and afterwards `(user, id)` is
not in the active-task table; when it holds none, the call returns false,
performs no teardown and leaves heap and registry (the active task included)
unchanged. -/
theorem cancelQueued_cancels_running_when_found (h : Heap) (tm : TaskManager)
    (userID taskID : Int) :
    ((GetQueuedTask tm userID taskID).isSome = true →
      (CancelQueuedTask h tm userID taskID).found = true ∧
      GetTask (CancelQueuedTask h tm userID taskID).tm userID taskID = none) ∧
    (GetQueuedTask tm userID taskID = none →
      CancelQueuedTask h tm userID taskID
        = { heap := h, tm := tm, found := false, effects := [] }) := by
  constructor
  · intro hsome
    obtain ⟨p, hp⟩ := Option.isSome_iff_exists.mp hsome
    obtain ⟨_, _, _, hfound⟩ := CancelQueuedTask_mark_present h tm userID taskID p hp
    simp only [CancelQueuedTask, hfound, if_true, true_and]
    exact GetTask_after_CancelTask _ _ userID taskID
  · intro hnone
    exact CancelQueuedTask_absent h tm userID taskID hnone

/-- Witness for the amended C6: a running task that is still in the lookup
table is removed; one that is not in the lookup table stays. -/
theorem cancelQueued_cancels_running_when_found_witness :
    ((CancelQueuedTask ⟨[default], [{ (default : QueuedTask) with UserID := 7, TaskID := 1 }]⟩
        { NewTaskManager with tasks := [(7, [(1, 0)])], queuedTasks := [(7, [(1, 0)])] }
        7 1).found = true ∧
      GetTask (CancelQueuedTask
        ⟨[default], [{ (default : QueuedTask) with UserID := 7, TaskID := 1 }]⟩
        { NewTaskManager with tasks := [(7, [(1, 0)])], queuedTasks := [(7, [(1, 0)])] }
        7 1).tm 7 1 = none) ∧
    CancelQueuedTask ⟨[default], []⟩ { NewTaskManager with tasks := [(7, [(1, 0)])] } 7 1
      = { heap := ⟨[default], []⟩, tm := { NewTaskManager with tasks := [(7, [(1, 0)])] },
          found := false, effects := [] } :=
  ⟨(cancelQueued_cancels_running_when_found
      ⟨[default], [{ (default : QueuedTask) with UserID := 7, TaskID := 1 }]⟩
      { NewTaskManager with tasks := [(7, [(1, 0)])], queuedTasks := [(7, [(1, 0)])] }
      7 1).1 (by decide),
   (cancelQueued_cancels_running_when_found ⟨[default], []⟩
      { NewTaskManager with tasks := [(7, [(1, 0)])] } 7 1).2 (by decide)⟩

/-- Claim C7: for every state and queued item `q` (an object of the heap),
after the locked section of `EnqueueTask(q)`, and after `EnqueueTask(q)` itself
whenever the channel has room, `GetQueuedTask(q.UserID, q.TaskID)` finds `q`.
`CancelQueuedTask(user, id)` returns true exactly when the queued-lookup table
holds an entry for `(user, id)`; then the `Cancelled` flag of that entry is set
and the entry is gone from the lookup table; when it returns false, heap and
registry are unchanged. -/
theorem enqueue_then_cancel_finds (h : Heap) (tm : TaskManager) (q : QueuedPtr)
    (userID taskID : Int) :
    GetQueuedTask (EnqueueTask_record h tm q) (h.queued q).UserID (h.queued q).TaskID = some q ∧
    (tm.queue.length < queueCap →
      ∃ tm2, EnqueueTask h tm q = some tm2 ∧ tm2.queue = tm.queue ++ [q] ∧
        GetQueuedTask tm2 (h.queued q).UserID (h.queued q).TaskID = some q) ∧
    ((CancelQueuedTask h tm userID taskID).found = true ↔
      (GetQueuedTask tm userID taskID).isSome = true) ∧
    (∀ p : QueuedPtr, GetQueuedTask tm userID taskID = some p → p < h.queuedObjs.length →
      ((CancelQueuedTask h tm userID taskID).heap.queued p).Cancelled = true ∧
      GetQueuedTask (CancelQueuedTask h tm userID taskID).tm userID taskID = none) ∧
    ((CancelQueuedTask h tm userID taskID).found = false →
      (CancelQueuedTask h tm userID taskID).heap = h ∧
      (CancelQueuedTask h tm userID taskID).tm = tm ∧
      (CancelQueuedTask h tm userID taskID).effects = []) := by
  have hrec : GetQueuedTask (EnqueueTask_record h tm q) (h.queued q).UserID (h.queued q).TaskID
      = some q := by
    simp [EnqueueTask_record, GetQueuedTask, mapGet2_mapSet2_self]
  have hiff : (CancelQueuedTask h tm userID taskID).found = true ↔
      (GetQueuedTask tm userID taskID).isSome = true := by
    cases hq : GetQueuedTask tm userID taskID with
    | none => simp [CancelQueuedTask_absent h tm userID taskID hq]
    | some p =>
      obtain ⟨_, _, _, hfound⟩ := CancelQueuedTask_mark_present h tm userID taskID p hq
      simp [CancelQueuedTask, hfound]
  refine ⟨hrec, ?_, hiff, ?_, ?_⟩
  · intro hroom
    refine ⟨{ EnqueueTask_record h tm q with queue := tm.queue ++ [q] }, ?_, rfl, ?_⟩
    · have hroom2 : (EnqueueTask_record h tm q).queue.length < queueCap := hroom
      simp only [EnqueueTask, chanSend, hroom2, if_true]
      rfl
    · exact hrec
  · intro p hp hvalid
    obtain ⟨hheap, hgone, _, hfound⟩ := CancelQueuedTask_mark_present h tm userID taskID p hp
    simp only [CancelQueuedTask, hfound, if_true]
    constructor
    · rw [hheap, queued_after_setQueued h p _ hvalid]
    · have hq := CancelTask_queuedTasks (CancelQueuedTask_mark h tm userID taskID).1
        (CancelQueuedTask_mark h tm userID taskID).2.1 userID taskID
      unfold GetQueuedTask at hgone ⊢
      rw [hq]
      exact hgone
  · intro hfalse
    cases hq : GetQueuedTask tm userID taskID with
    | none => simp [CancelQueuedTask_absent h tm userID taskID hq]
    | some p =>
      have := hiff.mpr (by simp [hq])
      rw [this] at hfalse
      exact absurd hfalse (by decide)

/-- Witness for C7: an item of user 7 is enqueued into the empty registry and
then cancelled; its flag is set and its lookup entry is gone. -/
theorem enqueue_then_cancel_finds_witness :
    (∃ tm2, EnqueueTask ⟨[], [{ (default : QueuedTask) with UserID := 7, TaskID := 1 }]⟩
        NewTaskManager 0 = some tm2 ∧ tm2.queue = NewTaskManager.queue ++ [0] ∧
        GetQueuedTask tm2 7 1 = some 0) ∧
    (((CancelQueuedTask ⟨[], [{ (default : QueuedTask) with UserID := 7, TaskID := 1 }]⟩
        { NewTaskManager with queuedTasks := [(7, [(1, 0)])], queue := [0] } 7 1).heap.queued
          0).Cancelled = true ∧
      GetQueuedTask (CancelQueuedTask
        ⟨[], [{ (default : QueuedTask) with UserID := 7, TaskID := 1 }]⟩
        { NewTaskManager with queuedTasks := [(7, [(1, 0)])], queue := [0] } 7 1).tm 7 1 = none) ∧
    ((CancelQueuedTask ⟨[], []⟩ NewTaskManager 7 1).heap = ⟨[], []⟩ ∧
      (CancelQueuedTask ⟨[], []⟩ NewTaskManager 7 1).tm = NewTaskManager ∧
      (CancelQueuedTask ⟨[], []⟩ NewTaskManager 7 1).effects = []) :=
  ⟨(enqueue_then_cancel_finds ⟨[], [{ (default : QueuedTask) with UserID := 7, TaskID := 1 }]⟩
      NewTaskManager 0 7 1).2.1 (by decide),
   (enqueue_then_cancel_finds ⟨[], [{ (default : QueuedTask) with UserID := 7, TaskID := 1 }]⟩
      { NewTaskManager with queuedTasks := [(7, [(1, 0)])], queue := [0] } 0 7 1).2.2.2.1 0
      (by decide) (by decide),
   (enqueue_then_cancel_finds ⟨[], []⟩ NewTaskManager 0 7 1).2.2.2.2 (by decide)⟩

/-! ## The terminal status -/

theorem replaceAllAux_of_not_contains (old new : GoString) (s : GoString)
    (hno : contains s old = false) : replaceAllAux old new 0 s = s := by
  induction s with
  | nil => rfl
  | cons b rest ih =>
    simp only [contains, Bool.or_eq_false_iff] at hno
    simp [replaceAllAux, hno.1, ih hno.2]

/-- Claim C10, as the claim states it, fails on three inputs for task 7.  With
a clean exit and the deadline exceeded the result is the generic completion
message, not the timeout message.  With a clean exit after the status line
`"[STATUS]"` the result is the generic completion message, not the (empty)
observed status.  With a clean exit after the status line
`"[STA[STATUS]TUS] 90% done"` the observed status is `"[STATUS] 90% done"` and
the result is `"90% done"`, not the observed status verbatim. -/
theorem finalStatus_not_as_claimed :
    finalStatus 7 false true false [] = utf8 "✅ 任务 #7 处理完成" ∧
    finalStatus 7 false true false [] ≠ utf8 "❌ 任务 #7 执行超时" ∧
    cleanStatusLine (utf8 "[STATUS]") = [] ∧
    finalStatus 7 false false true (cleanStatusLine (utf8 "[STATUS]"))
      = utf8 "✅ 任务 #7 处理完成" ∧
    cleanStatusLine (utf8 "[STA[STATUS]TUS] 90% done") = utf8 "[STATUS] 90% done" ∧
    finalStatus 7 false false true (cleanStatusLine (utf8 "[STA[STATUS]TUS] 90% done"))
      = utf8 "90% done" := by
  decide

theorem utf8Char_ne_nil (c : Nat) : utf8Char c ≠ [] := by
  unfold utf8Char
  split
  · simp
  · split
    · simp
    · split <;> simp

theorem dropWhileWidth_of_zero (w : GoString → Nat) (n : Nat) (x : GoString) (h : w x = 0) :
    dropWhileWidth w n x = x := by
  cases n with
  | zero => rfl
  | succ n => simp [dropWhileWidth, h]

theorem dropWhileWidth_fix (w : GoString → Nat) (hw : w [] = 0) (n : Nat) (x : GoString)
    (hlen : x.length ≤ n) : w (dropWhileWidth w n x) = 0 := by
  induction n generalizing x with
  | zero =>
    have hx : x = [] := List.length_eq_zero.mp (Nat.le_zero.mp hlen)
    subst hx
    exact hw
  | succ n ih =>
    by_cases h0 : w x = 0
    · simp [dropWhileWidth, h0]
    · simp only [dropWhileWidth, h0, if_false]
      apply ih
      rw [List.length_drop]
      omega

theorem dropWhileWidth_suffix (w : GoString → Nat) (n : Nat) (x : GoString) :
    ∃ pre : GoString, x = pre ++ dropWhileWidth w n x := by
  induction n generalizing x with
  | zero => exact ⟨[], rfl⟩
  | succ n ih =>
    by_cases h0 : w x = 0
    · exact ⟨[], by simp [dropWhileWidth, h0]⟩
    · obtain ⟨pre, hpre⟩ := ih (x.drop (w x))
      refine ⟨x.take (w x) ++ pre, ?_⟩
      simp only [dropWhileWidth, h0, if_false]
      rw [List.append_assoc, ← hpre, List.take_append_drop]

theorem runeWidth_nil (runes : List Nat) : runeWidth runes [] = 0 := by
  unfold runeWidth
  cases hf : (runes.map utf8Char).find? (fun c => c.isPrefixOf []) with
  | none => rfl
  | some c =>
    have hmem := List.mem_of_find?_eq_some hf
    have hpre := List.find?_some hf
    obtain ⟨r, _, rfl⟩ := List.mem_map.mp hmem
    have hnil : utf8Char r = [] := by
      cases hc : utf8Char r with
      | nil => rfl
      | cons a rest => simp [hc, List.isPrefixOf] at hpre
    exact absurd hnil (utf8Char_ne_nil r)

theorem runeWidthRev_nil (runes : List Nat) : runeWidthRev runes [] = 0 := by
  unfold runeWidthRev
  cases hf : (runes.map utf8Char).find? (fun c => c.reverse.isPrefixOf []) with
  | none => rfl
  | some c =>
    have hmem := List.mem_of_find?_eq_some hf
    have hpre := List.find?_some hf
    obtain ⟨r, _, rfl⟩ := List.mem_map.mp hmem
    have hnil : (utf8Char r).reverse = [] := by
      cases hc : (utf8Char r).reverse with
      | nil => rfl
      | cons a rest => simp [hc, List.isPrefixOf] at hpre
    exact absurd (List.reverse_eq_nil_iff.mp hnil) (utf8Char_ne_nil r)

theorem runeWidth_of_append_zero (runes : List Nat) (t u : GoString)
    (h : runeWidth runes (t ++ u) = 0) : runeWidth runes t = 0 := by
  unfold runeWidth at h ⊢
  cases hf : (runes.map utf8Char).find? (fun c => c.isPrefixOf t) with
  | none => rfl
  | some c =>
    exfalso
    have hmem := List.mem_of_find?_eq_some hf
    have hpre : c.isPrefixOf t = true := by
      have hsome := List.find?_some hf
      exact hsome
    have hpre2 : c.isPrefixOf (t ++ u) = true := by
      rw [List.isPrefixOf_iff_prefix] at hpre ⊢
      exact hpre.trans (List.prefix_append t u)
    cases hf2 : (runes.map utf8Char).find? (fun c => c.isPrefixOf (t ++ u)) with
    | none =>
      have := List.find?_eq_none.mp hf2 c hmem
      simp [hpre2] at this
    | some c2 =>
      rw [hf2] at h
      have hmem2 := List.mem_of_find?_eq_some hf2
      obtain ⟨r, _, rfl⟩ := List.mem_map.mp hmem2
      exact utf8Char_ne_nil r (List.length_eq_zero.mp h)

/-- The result of `strings.TrimSpace` has no white space left at its ends:
trimming it again changes nothing. -/
theorem trimSpace_idem (s : GoString) : trimSpace (trimSpace s) = trimSpace s := by
  obtain ⟨pre1, hpre1⟩ := dropWhileWidth_suffix (runeWidth spaceRunes) s.length s
  have hlen1 : (dropWhileWidth (runeWidth spaceRunes) s.length s).length ≤ s.length := by
    have := congrArg List.length hpre1
    rw [List.length_append] at this
    omega
  have hL : runeWidth spaceRunes (dropWhileWidth (runeWidth spaceRunes) s.length s) = 0 :=
    dropWhileWidth_fix _ (runeWidth_nil _) _ _ (le_refl _)
  obtain ⟨pre2, hpre2⟩ := dropWhileWidth_suffix (runeWidthRev spaceRunes) s.length
    (dropWhileWidth (runeWidth spaceRunes) s.length s).reverse
  have hR : runeWidthRev spaceRunes
      (dropWhileWidth (runeWidthRev spaceRunes) s.length
        (dropWhileWidth (runeWidth spaceRunes) s.length s).reverse) = 0 :=
    dropWhileWidth_fix _ (runeWidthRev_nil _) _ _ (by rw [List.length_reverse]; exact hlen1)
  have hsplit : dropWhileWidth (runeWidth spaceRunes) s.length s
      = trimSpace s ++ pre2.reverse := by
    have := congrArg List.reverse hpre2
    rw [List.reverse_reverse, List.reverse_append] at this
    exact this
  have hLt : runeWidth spaceRunes (trimSpace s) = 0 := by
    rw [hsplit] at hL
    exact runeWidth_of_append_zero _ _ _ hL
  have hrev : (trimSpace s).reverse
      = dropWhileWidth (runeWidthRev spaceRunes) s.length
          (dropWhileWidth (runeWidth spaceRunes) s.length s).reverse := by
    simp [trimSpace]
  show (dropWhileWidth (runeWidthRev spaceRunes) (trimSpace s).length
      (dropWhileWidth (runeWidth spaceRunes) (trimSpace s).length (trimSpace s)).reverse).reverse
      = trimSpace s
  rw [dropWhileWidth_of_zero _ _ _ hLt, dropWhileWidth_of_zero _ _ _ (by rw [hrev]; exact hR),
    List.reverse_reverse]

/-- Claim C10, amended: the terminal status is the timeout message when the
exit error is non-nil and the deadline was exceeded; the failure message when
the exit error is non-nil and the deadline was not exceeded; when the exit is
clean, a status line was observed and the last observed status is not blank, it
is that status with every `"[STATUS]"` removed and trimmed, which is the observed
status verbatim when it holds no `"[STATUS]"`; and it is the generic completion
message when the exit is clean and no status line was observed or the last
observed status is blank. -/
theorem finalStatus_cases (taskID : Int) (waitErr deadlineExceeded statusSeen : Bool)
    (currentStatus : GoString) :
    (waitErr = true → deadlineExceeded = true →
      finalStatus taskID waitErr deadlineExceeded statusSeen currentStatus
        = utf8 "❌ 任务 #" ++ itoa taskID ++ utf8 " 执行超时") ∧
    (waitErr = true → deadlineExceeded = false →
      finalStatus taskID waitErr deadlineExceeded statusSeen currentStatus
        = utf8 "⚠️ 任务 #" ++ itoa taskID ++ utf8 " 执行失败") ∧
    (waitErr = false → statusSeen = true → trimSpace currentStatus ≠ [] →
      finalStatus taskID waitErr deadlineExceeded statusSeen currentStatus
        = trimSpace (replaceAll currentStatus (utf8 "[STATUS]") [])) ∧
    (∀ line : GoString, currentStatus = cleanStatusLine line →
      waitErr = false → statusSeen = true → currentStatus ≠ [] →
      contains currentStatus (utf8 "[STATUS]") = false →
      finalStatus taskID waitErr deadlineExceeded statusSeen currentStatus = currentStatus) ∧
    (waitErr = false → (statusSeen = false ∨ trimSpace currentStatus = []) →
      finalStatus taskID waitErr deadlineExceeded statusSeen currentStatus
        = utf8 "✅ 任务 #" ++ itoa taskID ++ utf8 " 处理完成") := by
  refine ⟨?_, ?_, ?_, ?_, ?_⟩
  · intro hw hd
    simp [finalStatus, hw, hd]
  · intro hw hd
    simp [finalStatus, hw, hd]
  · intro hw hs hne
    simp [finalStatus, hw, hs, hne]
  · intro line hline hw hs hne hno
    have htrim : trimSpace currentStatus = currentStatus := by
      rw [hline]
      exact trimSpace_idem _
    have h3 : finalStatus taskID waitErr deadlineExceeded statusSeen currentStatus
        = trimSpace (replaceAll currentStatus (utf8 "[STATUS]") []) := by
      simp [finalStatus, hw, hs, htrim, hne]
    rw [h3, replaceAll, replaceAllAux_of_not_contains _ _ _ hno, htrim]
  · intro hw hor
    rcases hor with hs | hblank
    · simp [finalStatus, hw, hs]
    · simp [finalStatus, hw, hblank]

/-- Witness for the amended C10: task 7 with exit error and deadline exceeded,
with exit error alone, with a clean exit after the status line
`"[STATUS] 90% done"`, and with a clean exit without any status line. -/
theorem finalStatus_cases_witness :
    finalStatus 7 true true false [] = utf8 "❌ 任务 #" ++ itoa 7 ++ utf8 " 执行超时" ∧
    finalStatus 7 true false false [] = utf8 "⚠️ 任务 #" ++ itoa 7 ++ utf8 " 执行失败" ∧
    finalStatus 7 false false true (utf8 "90% done")
      = trimSpace (replaceAll (utf8 "90% done") (utf8 "[STATUS]") []) ∧
    finalStatus 7 false false true (utf8 "90% done") = utf8 "90% done" ∧
    finalStatus 7 false false false [] = utf8 "✅ 任务 #" ++ itoa 7 ++ utf8 " 处理完成" :=
  ⟨(finalStatus_cases 7 true true false []).1 rfl rfl,
   (finalStatus_cases 7 true false false []).2.1 rfl rfl,
   (finalStatus_cases 7 false false true (utf8 "90% done")).2.2.1 rfl rfl (by decide),
   (finalStatus_cases 7 false false true (utf8 "90% done")).2.2.2.1
     (utf8 "[STATUS] 90% done") (by decide) rfl rfl (by decide) (by decide),
   (finalStatus_cases 7 false false false []).2.2.2.2 rfl (Or.inl rfl)⟩

/-! ## Display steps change nothing but the display -/

theorem UpdateSummaryLine_core (tm : TaskManager) (c m i : Int) (t : GoString) :
    (UpdateSummaryLine tm c m i t).1.core = tm.core := by
  unfold UpdateSummaryLine
  split
  · rfl
  · split <;> rfl

theorem DecrementSummaryPending_core (tm : TaskManager) (c m : Int) :
    (DecrementSummaryPending tm c m).1.core = tm.core := by
  unfold DecrementSummaryPending
  split
  · rfl
  · split
    · rfl
    · dsimp only
      split <;> rfl

theorem InitSummary_core (tm : TaskManager) (c m : Int) (lines : List GoString)
    (kb : Option InlineKeyboardMarkup) : (InitSummary tm c m lines kb).core = tm.core := rfl

theorem displayOnly_refl (b : Bot) : DisplayOnly b b :=
  ⟨rfl, rfl, rfl, [], by simp, by simp⟩

theorem displayOnly_trans {b b2 b3 : Bot} (h12 : DisplayOnly b b2) (h23 : DisplayOnly b2 b3) :
    DisplayOnly b b3 := by
  obtain ⟨hh, hw, hc, es, hl, hes⟩ := h12
  obtain ⟨hh2, hw2, hc2, es2, hl2, hes2⟩ := h23
  refine ⟨hh2.trans hh, hw2.trans hw, hc2.trans hc, es ++ es2, ?_, ?_⟩
  · rw [hl2, hl, List.append_assoc]
  · intro e he
    rcases List.mem_append.mp he with h | h
    · exact hes e h
    · exact hes2 e h

theorem displayOnly_emit (b : Bot) (es : List Effect) (hes : ∀ e ∈ es, e.isStart = false) :
    DisplayOnly b (b.emit es) :=
  ⟨rfl, rfl, rfl, es, rfl, hes⟩

theorem displayOnly_registry (b : Bot) (tm : TaskManager) (hc : tm.core = b.taskManager.core) :
    DisplayOnly b { b with taskManager := tm } :=
  ⟨rfl, rfl, hc, [], by simp, by simp⟩

theorem displayOnly_updateTaskMessage (b : Bot) (c m : Int) (t : GoString)
    (kb : Option InlineKeyboardMarkup) : DisplayOnly b (b.updateTaskMessage c m t kb) :=
  displayOnly_emit b _ (by simp [Effect.isStart])

theorem displayOnly_updateSummaryLine (b : Bot) (c m i : Int) (t : GoString) :
    DisplayOnly b (b.updateSummaryLine c m i t) := by
  unfold Bot.updateSummaryLine
  split
  · exact displayOnly_trans (displayOnly_registry b _ (UpdateSummaryLine_core _ c m i t))
      (displayOnly_emit _ _ (by simp [Effect.isStart]))
  · exact displayOnly_trans (displayOnly_registry b _ (UpdateSummaryLine_core _ c m i t))
      (displayOnly_emit _ _ (by simp [Effect.isStart]))

theorem displayOnly_clearSummaryKeyboard (b : Bot) (c m : Int) :
    DisplayOnly b (b.clearSummaryKeyboard c m) := by
  unfold Bot.clearSummaryKeyboard
  split
  · exact displayOnly_refl b
  · split
    · exact displayOnly_refl b
    · exact displayOnly_emit _ _ (by simp [Effect.isStart])

theorem displayOnly_decrementSummary (b : Bot) (c m : Int) :
    DisplayOnly b (b.decrementSummary c m) := by
  unfold Bot.decrementSummary
  split
  · exact displayOnly_trans (displayOnly_registry b _ (DecrementSummaryPending_core _ c m))
      (displayOnly_clearSummaryKeyboard _ c m)
  · exact displayOnly_registry b _ (DecrementSummaryPending_core _ c m)

theorem displayOnly_showStartFailure {b b2 : Bot} {ex : Exec}
    (h : b.showStartFailure ex = some b2) : DisplayOnly b b2 := by
  unfold Bot.showStartFailure at h
  split at h
  · exact absurd h (by simp)
  · split at h
    · cases h
      exact displayOnly_updateSummaryLine _ _ _ _ _
    · cases h
      exact displayOnly_updateTaskMessage _ _ _ _ _

theorem displayOnly_showStatus {b b2 : Bot} {ex : Exec}
    (h : b.showStatus ex = some b2) : DisplayOnly b b2 := by
  unfold Bot.showStatus at h
  split at h
  · exact absurd h (by simp)
  · split at h
    · cases h
      exact displayOnly_updateSummaryLine _ _ _ _ _
    · cases h
      exact displayOnly_updateTaskMessage _ _ _ _ _

theorem displayOnly_showTerminated {b b2 : Bot} {ex : Exec}
    (h : b.showTerminated ex = some b2) : DisplayOnly b b2 := by
  unfold Bot.showTerminated at h
  split at h
  · exact absurd h (by simp)
  · split at h
    · cases h
      exact displayOnly_trans (displayOnly_updateSummaryLine _ _ _ _ _)
        (displayOnly_decrementSummary _ _ _)
    · cases h
      exact displayOnly_updateTaskMessage _ _ _ _ _

theorem displayOnly_showFinal {b b2 : Bot} {ex : Exec} {final : GoString}
    (h : b.showFinal ex final = some b2) : DisplayOnly b b2 := by
  unfold Bot.showFinal at h
  split at h
  · exact absurd h (by simp)
  · split at h
    · cases h
      exact displayOnly_trans (displayOnly_updateSummaryLine _ _ _ _ _)
        (displayOnly_decrementSummary _ _ _)
    · cases h
      exact displayOnly_updateTaskMessage _ _ _ _ _

theorem core_tasks {tm tm2 : TaskManager} (h : tm2.core = tm.core) : tm2.tasks = tm.tasks :=
  congrArg (fun c => c.1) h

theorem core_queue {tm tm2 : TaskManager} (h : tm2.core = tm.core) : tm2.queue = tm.queue :=
  congrArg (fun c => c.2.2.1) h

theorem core_queuedTasks {tm tm2 : TaskManager} (h : tm2.core = tm.core) :
    tm2.queuedTasks = tm.queuedTasks :=
  congrArg (fun c => c.2.2.2.1) h

theorem core_currentTask {tm tm2 : TaskManager} (h : tm2.core = tm.core) :
    tm2.currentTask = tm.currentTask :=
  congrArg (fun c => c.2.2.2.2.1) h

theorem core_queueProcessing {tm tm2 : TaskManager} (h : tm2.core = tm.core) :
    tm2.queueProcessing = tm.queueProcessing :=
  congrArg (fun c => c.2.2.2.2.2) h

/-! ## Steps of the main goroutine are quiet -/

theorem heapMono_refl (h : Heap) : HeapMono h h :=
  ⟨le_refl _, fun _ _ hc => hc⟩

theorem heapMono_trans {h h2 h3 : Heap} (h12 : HeapMono h h2) (h23 : HeapMono h2 h3) :
    HeapMono h h3 :=
  ⟨le_trans h12.1 h23.1, fun p hp hc => h23.2 p (lt_of_lt_of_le hp h12.1) (h12.2 p hp hc)⟩

theorem quiet_refl (b : Bot) : Quiet b b :=
  { workers := rfl, processing := rfl, current := rfl, tasks := fun _ => Or.inl rfl,
    heap := heapMono_refl _, log := ⟨[], by simp, by simp⟩ }

theorem smallTable_nil : SmallTable [] := Or.inl rfl

theorem quiet_trans {b b2 b3 : Bot} (h12 : Quiet b b2) (h23 : Quiet b2 b3) : Quiet b b3 := by
  refine
    { workers := h23.workers.trans h12.workers
      processing := h23.processing.trans h12.processing
      current := h23.current.trans h12.current
      tasks := ?_
      heap := heapMono_trans h12.heap h23.heap
      log := ?_ }
  · intro hs
    rcases h12.tasks hs with h | h
    · rcases h23.tasks (by rw [h]; exact hs) with h2 | h2
      · exact Or.inl (h2.trans h)
      · exact Or.inr h2
    · rcases h23.tasks (by rw [h]; exact smallTable_nil) with h2 | h2
      · exact Or.inr (h2.trans h)
      · exact Or.inr h2
  · obtain ⟨es, hl, hes⟩ := h12.log
    obtain ⟨es2, hl2, hes2⟩ := h23.log
    refine ⟨es ++ es2, ?_, ?_⟩
    · rw [hl2, hl, List.append_assoc]
    · intro e he
      rcases List.mem_append.mp he with h | h
      · exact hes e h
      · exact hes2 e h

theorem quiet_of_displayOnly {b b2 : Bot} (h : DisplayOnly b b2) : Quiet b b2 := by
  obtain ⟨hh, hw, hc, hl⟩ := h
  exact
    { workers := hw
      processing := core_queueProcessing hc
      current := core_currentTask hc
      tasks := fun _ => Or.inl (core_tasks hc)
      heap := by rw [hh]; exact heapMono_refl _
      log := hl }

theorem quiet_of_running {b b2 : Bot} (hw : b2.workers = b.workers)
    (hr : b2.taskManager.running = b.taskManager.running) (hh : HeapMono b.heap b2.heap)
    (hl : ∃ es : List Effect, b2.log = b.log ++ es ∧ ∀ e ∈ es, e.isStart = false) :
    Quiet b b2 :=
  { workers := hw
    processing := congrArg (fun c => c.2.2) hr
    current := congrArg (fun c => c.2.1) hr
    tasks := fun _ => Or.inl (congrArg (fun c => c.1) hr)
    heap := hh
    log := hl }

theorem queued_setQueued (h : Heap) (p p2 : QueuedPtr) (q : QueuedTask) :
    (h.setQueued p q).queued p2
      = if p = p2 ∧ p < h.queuedObjs.length then q else h.queued p2 := by
  simp only [Heap.setQueued, Heap.queued, List.getD_eq_getElem?_getD, List.getElem?_set]
  by_cases hp : p = p2
  · subst hp
    by_cases hlt : p < h.queuedObjs.length
    · simp [hlt]
    · simp [hlt, List.getElem?_eq_none (Nat.le_of_not_lt hlt)]
  · simp [hp]

theorem heapMono_setQueued (h : Heap) (p : QueuedPtr) (q : QueuedTask)
    (hc : (h.queued p).Cancelled = true → q.Cancelled = true) :
    HeapMono h (h.setQueued p q) := by
  refine ⟨by simp [Heap.setQueued], ?_⟩
  intro p2 _ hcan
  rw [queued_setQueued]
  split
  · rename_i hp
    rw [hp.1] at hc
    exact hc hcan
  · exact hcan

theorem queued_newQueued (h : Heap) (q : QueuedTask) (p : QueuedPtr)
    (hp : p < h.queuedObjs.length) : ((h.newQueued q).1).queued p = h.queued p := by
  simp [Heap.newQueued, Heap.queued, List.getD_eq_getElem?_getD, List.getElem?_append_left hp]

theorem heapMono_newQueued (h : Heap) (q : QueuedTask) : HeapMono h (h.newQueued q).1 := by
  refine ⟨by simp [Heap.newQueued], ?_⟩
  intro p hp hcan
  rw [queued_newQueued h q p hp]
  exact hcan

theorem heapMono_of_queuedObjs {h h2 : Heap} (heq : h2.queuedObjs = h.queuedObjs) :
    HeapMono h h2 := by
  refine ⟨by rw [heq], ?_⟩
  intro p _ hcan
  simpa [Heap.queued, heq] using hcan

theorem cancelEffects_no_start (p : TaskPtr) (t : Task) :
    ∀ e ∈ cancelEffects p t, e.isStart = false := by
  intro e he
  unfold cancelEffects at he
  rcases List.mem_append.mp he with h | h
  · split at h
    · simp at h
      subst h
      rfl
    · simp at h
  · split at h
    · split at h
      · split at h
        · simp at h
          rcases h with h | h | h <;> (subst h; rfl)
        · simp at h
          rcases h with h | h <;> (subst h; rfl)
      · simp at h
    · simp at h

theorem CancelTask_effects_no_start (h : Heap) (tm : TaskManager) (u i : Int) :
    ∀ e ∈ (CancelTask h tm u i).effects, e.isStart = false := by
  unfold CancelTask
  split
  · split
    · exact cancelEffects_no_start _ _
    · simp
  · simp

theorem CancelTask_fields (h : Heap) (tm : TaskManager) (u i : Int) :
    (CancelTask h tm u i).tm = { tm with tasks := (CancelTask h tm u i).tm.tasks } := by
  unfold CancelTask
  split
  · split <;> rfl
  · rfl

theorem CancelTask_shrinks (h : Heap) (tm : TaskManager) (u i : Int)
    (hs : SmallTable tm.tasks) :
    (CancelTask h tm u i).tm.tasks = tm.tasks ∨ (CancelTask h tm u i).tm.tasks = [] := by
  cases hp : GetTask tm u i with
  | none => rw [CancelTask_absent h tm u i hp]; exact Or.inl rfl
  | some p =>
    right
    rcases hs with hnil | ⟨u0, i0, x, hone⟩
    · simp [GetTask, mapGet2, hnil, mapGet] at hp
    · unfold GetTask mapGet2 at hp
      rw [hone] at hp
      by_cases hu : u0 = u
      · subst hu
        by_cases hi : i0 = i
        · subst hi
          simp [CancelTask, hone, mapGet, mapDeleteIn, mapDelete]
        · simp [mapGet, hi] at hp
      · simp [mapGet, hu] at hp

theorem quiet_cancelTask_apply (b : Bot) (u i : Int) :
    Quiet b (Bot.emit { b with taskManager := (CancelTask b.heap b.taskManager u i).tm }
      (CancelTask b.heap b.taskManager u i).effects) :=
  { workers := rfl
    processing := by
      show (CancelTask b.heap b.taskManager u i).tm.queueProcessing = _
      rw [CancelTask_fields]
    current := by
      show (CancelTask b.heap b.taskManager u i).tm.currentTask = _
      rw [CancelTask_fields]
    tasks := fun hs => CancelTask_shrinks b.heap b.taskManager u i hs
    heap := heapMono_refl _
    log := ⟨_, rfl, CancelTask_effects_no_start _ _ _ _⟩ }

theorem CancelQueuedTask_mark_running (h : Heap) (tm : TaskManager) (u i : Int) :
    (CancelQueuedTask_mark h tm u i).2.1.running = tm.running := by
  unfold CancelQueuedTask_mark
  split
  · split <;> rfl
  · rfl

theorem CancelQueuedTask_mark_heap (h : Heap) (tm : TaskManager) (u i : Int) :
    HeapMono h (CancelQueuedTask_mark h tm u i).1 := by
  unfold CancelQueuedTask_mark
  split
  · split
    · exact heapMono_setQueued _ _ _ (fun _ => rfl)
    · exact heapMono_refl _
  · exact heapMono_refl _

theorem quiet_mark_apply (b : Bot) (u i : Int) :
    Quiet b { b with
              heap := (CancelQueuedTask_mark b.heap b.taskManager u i).1
              taskManager := (CancelQueuedTask_mark b.heap b.taskManager u i).2.1 } :=
  quiet_of_running rfl (CancelQueuedTask_mark_running _ _ _ _)
    (CancelQueuedTask_mark_heap _ _ _ _) ⟨[], by simp, by simp⟩

theorem quiet_cancelQueued_apply (b : Bot) (u i : Int) :
    Quiet b (Bot.emit
      { b with
        heap := (CancelQueuedTask b.heap b.taskManager u i).heap
        taskManager := (CancelQueuedTask b.heap b.taskManager u i).tm }
      (CancelQueuedTask b.heap b.taskManager u i).effects) := by
  by_cases hf : (CancelQueuedTask_mark b.heap b.taskManager u i).2.2 = true
  · simp only [CancelQueuedTask, hf, if_true]
    exact quiet_trans (quiet_mark_apply b u i)
      (quiet_cancelTask_apply
        { b with
          heap := (CancelQueuedTask_mark b.heap b.taskManager u i).1
          taskManager := (CancelQueuedTask_mark b.heap b.taskManager u i).2.1 } u i)
  · simp only [CancelQueuedTask, hf, if_false]
    exact quiet_trans (quiet_mark_apply b u i)
      (quiet_of_displayOnly (displayOnly_emit _ _ (by simp)))

theorem quiet_cancelRunning (b : Bot) (target taskID : Int) (message : Option Message) :
    Quiet b (b.cancelRunning target taskID message) := by
  unfold Bot.cancelRunning
  dsimp only
  by_cases hf : (CancelTask b.heap b.taskManager target taskID).found = true
  · simp only [hf, if_true]
    refine quiet_trans (quiet_cancelTask_apply b target taskID) (quiet_of_displayOnly ?_)
    refine displayOnly_trans ?_ (displayOnly_emit _ _ (by simp [Effect.isStart]))
    split
    · exact displayOnly_refl _
    · split
      · exact displayOnly_emit _ _ (by simp [Effect.isStart])
      · split
        · exact displayOnly_emit _ _ (by simp [Effect.isStart])
        · split
          · exact displayOnly_updateSummaryLine _ _ _ _ _
          · exact displayOnly_emit _ _ (by simp [Effect.isStart])
  · simp only [hf]
    exact quiet_of_displayOnly (displayOnly_emit _ _ (by simp [Effect.isStart]))

theorem quiet_cancelSummaryQueued (target : Int) (message : Message)
    (l : List (Int × QueuedPtr)) (b : Bot) :
    Quiet b (Bot.cancelSummaryQueued target message b l) := by
  induction l generalizing b with
  | nil => exact quiet_refl b
  | cons e rest ih =>
    obtain ⟨k, p⟩ := e
    unfold Bot.cancelSummaryQueued
    split
    · split
      · exact ih b
      · split
        · dsimp only
          refine quiet_trans ?_ (ih _)
          refine quiet_trans (quiet_cancelQueued_apply b target (b.heap.queued p).TaskID)
            (quiet_of_displayOnly ?_)
          exact displayOnly_trans (displayOnly_updateSummaryLine _ _ _ _ _)
            (displayOnly_decrementSummary _ _ _)
        · exact ih b
    · exact ih b

theorem quiet_cancelSummaryRunning (target : Int) (message : Message)
    (l : List (Int × TaskPtr)) (b : Bot) :
    Quiet b (Bot.cancelSummaryRunning target message b l) := by
  induction l generalizing b with
  | nil => exact quiet_refl b
  | cons e rest ih =>
    obtain ⟨tid, t⟩ := e
    unfold Bot.cancelSummaryRunning
    split
    · split
      · exact ih b
      · split
        · dsimp only
          split
          · refine quiet_trans ?_ (ih _)
            refine quiet_trans (quiet_cancelTask_apply b target tid) (quiet_of_displayOnly ?_)
            exact displayOnly_trans (displayOnly_updateSummaryLine _ _ _ _ _)
              (displayOnly_decrementSummary _ _ _)
          · exact quiet_trans (quiet_cancelTask_apply b target tid) (ih _)
        · exact ih b
    · exact ih b

theorem quiet_handleCallbackQuery {b b2 : Bot} {fromID : Int} {data : CallbackData}
    {message : Option Message} (h : b.handleCallbackQuery fromID data message = some b2) :
    Quiet b b2 := by
  unfold Bot.handleCallbackQuery at h
  cases data with
  | cancelSummary target =>
    dsimp only at h
    split at h
    · cases h
      exact quiet_of_displayOnly (displayOnly_emit _ _ (by simp [Effect.isStart]))
    · split at h
      · cases h
        exact quiet_of_displayOnly (displayOnly_emit _ _ (by simp [Effect.isStart]))
      · cases h
        exact quiet_trans (quiet_cancelSummaryQueued target _ _ b)
          (quiet_trans (quiet_cancelSummaryRunning target _ _ _)
            (quiet_of_displayOnly (displayOnly_emit _ _ (by simp [Effect.isStart]))))
  | cancelTask target taskID =>
    dsimp only at h
    split at h
    · cases h
      exact quiet_of_displayOnly (displayOnly_emit _ _ (by simp [Effect.isStart]))
    · split at h
      · cases h
        exact quiet_cancelRunning b target taskID message
      · split at h
        · split at h
          · cases h
            exact quiet_trans (quiet_cancelQueued_apply b target taskID)
              (quiet_of_displayOnly (displayOnly_emit _ _ (by simp [Effect.isStart])))
          · split at h
            · cases h
              refine quiet_trans (quiet_cancelQueued_apply b target taskID)
                (quiet_of_displayOnly ?_)
              exact displayOnly_trans (displayOnly_updateSummaryLine _ _ _ _ _)
                (displayOnly_trans (displayOnly_decrementSummary _ _ _)
                  (displayOnly_emit _ _ (by simp [Effect.isStart])))
            · split at h
              · exact absurd h (by simp)
              · cases h
                exact quiet_trans (quiet_cancelQueued_apply b target taskID)
                  (quiet_of_displayOnly (displayOnly_emit _ _ (by simp [Effect.isStart])))
        · cases h
          exact quiet_trans (quiet_cancelQueued_apply b target taskID)
            (quiet_cancelRunning _ target taskID message)

theorem nextCounter_running (tm : TaskManager) (u : Int) :
    (nextCounter tm u).1.running = tm.running := rfl

theorem allocTaskIDs_running (n : Nat) (tm : TaskManager) (u : Int) :
    (allocTaskIDs tm u n).1.running = tm.running := by
  induction n generalizing tm with
  | zero => rfl
  | succ n ih =>
    simp only [allocTaskIDs]
    rw [ih]
    rfl

theorem newSummaryItems_heap (message : Message) (userID baseQueue : Int)
    (links : List GoString) (h : Heap) (i : Nat) (ids : List Int) :
    HeapMono h (newSummaryItems message userID baseQueue h i links ids).1 := by
  induction links generalizing h i ids with
  | nil => simp [newSummaryItems, heapMono_refl]
  | cons link rest ih =>
    cases ids with
    | nil => simp [newSummaryItems, heapMono_refl]
    | cons id ids =>
      simp only [newSummaryItems]
      exact heapMono_trans (heapMono_newQueued h _) (ih _ _ _)

theorem EnqueueTask_running {h : Heap} {tm tm2 : TaskManager} {p : QueuedPtr}
    (he : EnqueueTask h tm p = some tm2) : tm2.running = tm.running := by
  unfold EnqueueTask chanSend at he
  split at he
  · cases he
    rfl
  · exact absurd he (by simp)

theorem enqueueAll_spec (sentMsg : Message) (ps : List QueuedPtr) (h : Heap) (tm : TaskManager)
    (h2 : Heap) (tm2 : TaskManager) (he : enqueueAll sentMsg h tm ps = some (h2, tm2)) :
    HeapMono h h2 ∧ tm2.running = tm.running := by
  induction ps generalizing h tm with
  | nil =>
    simp only [enqueueAll, Option.some.injEq, Prod.mk.injEq] at he
    obtain ⟨rfl, rfl⟩ := he
    exact ⟨heapMono_refl _, rfl⟩
  | cons p rest ih =>
    unfold enqueueAll at he
    split at he
    · exact absurd he (by simp)
    · rename_i tm1 hen
      obtain ⟨hm, hr⟩ := ih _ _ he
      exact ⟨heapMono_trans
          (heapMono_setQueued h p { h.queued p with StatusMsg := some sentMsg } (fun hc => hc)) hm,
        hr.trans (EnqueueTask_running hen)⟩

theorem quiet_enqueueAll {b1 : Bot} {sentMsg : Message} {ps : List QueuedPtr}
    {tm0 : TaskManager} {r : Heap × TaskManager}
    (hr : enqueueAll sentMsg b1.heap tm0 ps = some r)
    (htm0 : tm0.running = b1.taskManager.running) :
    Quiet b1 { b1 with heap := r.1, taskManager := r.2 } := by
  obtain ⟨rh, rtm⟩ := r
  obtain ⟨hm, hrun⟩ := enqueueAll_spec _ _ _ _ _ _ hr
  exact quiet_of_running rfl (hrun.trans htm0) hm ⟨[], by simp, by simp⟩

theorem quiet_handleMessageLinks {b b2 : Bot} {message : Message} {userID : Int}
    {links : List GoString} {sent : Option Message}
    (h : b.handleMessageLinks message userID links sent = some b2) : Quiet b b2 := by
  unfold Bot.handleMessageLinks at h
  dsimp only at h
  have h1 : Quiet b
      (Bot.emit
        { b with
          heap := (newSummaryItems message userID
            (GetQueueSize (allocTaskIDs b.taskManager userID links.length).1) b.heap 0 links
            (allocTaskIDs b.taskManager userID links.length).2).1
          taskManager := (allocTaskIDs b.taskManager userID links.length).1 }
        [Effect.send message.ChatID
          (joinWith (utf8 "\n\n") (newSummaryItems message userID
            (GetQueueSize (allocTaskIDs b.taskManager userID links.length).1) b.heap 0 links
            (allocTaskIDs b.taskManager userID links.length).2).2.2)
          message.MessageID (some (summaryKeyboard userID))]) :=
    quiet_of_running rfl (allocTaskIDs_running _ _ _) (newSummaryItems_heap _ _ _ _ _ _ _)
      ⟨_, rfl, by simp [Effect.isStart]⟩
  split at h
  · cases h
    exact h1
  · rename_i sentMsg
    rw [Option.map_eq_some'] at h
    obtain ⟨r, hr, hb2⟩ := h
    subst hb2
    exact quiet_trans h1 (quiet_enqueueAll hr rfl)

theorem quiet_handleMessageLink {b b2 : Bot} {message : Message} {userID : Int}
    {link : GoString} {sent : Option Message}
    (h : b.handleMessageLink message userID link sent = some b2) : Quiet b b2 := by
  unfold Bot.handleMessageLink at h
  dsimp only at h
  have h1 : Quiet b
      (Bot.emit
        { b with
          heap := (b.heap.newQueued
            { Link := link, Message := message, UserID := userID, StatusMsg := none,
              TaskID := (nextCounter b.taskManager userID).2, Cancelled := false, Index := 0,
              Shared := false }).1
          taskManager := (nextCounter b.taskManager userID).1 }
        [Effect.send message.ChatID
          (formatLine
            { Link := link, Message := message, UserID := userID, StatusMsg := none,
              TaskID := (nextCounter b.taskManager userID).2, Cancelled := false, Index := 0,
              Shared := false }
            (if GetQueueSize (nextCounter b.taskManager userID).1 + 1 > 1 then
              utf8 "📋 当前排队位置: 第 " ++
                itoa (GetQueueSize (nextCounter b.taskManager userID).1 + 1) ++ utf8 " 位"
             else utf8 "⚡ 即将开始处理")
            false)
          message.MessageID
          (some (cancelKeyboard userID (nextCounter b.taskManager userID).2))]) :=
    quiet_of_running rfl (nextCounter_running _ _) (heapMono_newQueued _ _)
      ⟨_, rfl, by simp [Effect.isStart]⟩
  split at h
  · cases h
    exact h1
  · rename_i sentMsg
    rw [Option.map_eq_some'] at h
    obtain ⟨r, hr, hb2⟩ := h
    subst hb2
    exact quiet_trans h1 (quiet_enqueueAll hr rfl)

/-- Every step other than a worker step and `startQueueProcessor` is quiet. -/
theorem quiet_step {b b2 : Bot} {ev : Event} (h : step b ev = some b2)
    (hnotWorker : ∀ i wev, ev ≠ Event.worker i wev)
    (hnotStart : ev ≠ Event.startQueueProcessor) : Quiet b b2 := by
  cases ev with
  | startQueueProcessor => exact absurd rfl hnotStart
  | worker i wev => exact absurd rfl (hnotWorker i wev)
  | messageLinks message userID links sent => exact quiet_handleMessageLinks h
  | messageLink message userID link sent => exact quiet_handleMessageLink h
  | callback fromID data message => exact quiet_handleCallbackQuery h
  | enqueueRecord q =>
    simp only [step, Option.some.injEq] at h
    subst h
    exact quiet_of_running rfl rfl (heapMono_newQueued _ _) ⟨[], by simp, by simp⟩
  | enqueueSend item =>
    simp only [step, Option.map_eq_some'] at h
    obtain ⟨tm, htm, rfl⟩ := h
    unfold chanSend at htm
    split at htm
    · cases htm
      exact quiet_of_running rfl rfl (heapMono_refl _) ⟨[], by simp, by simp⟩
    · exact absurd htm (by simp)
  | enqueue q =>
    simp only [step, Option.map_eq_some'] at h
    obtain ⟨tm, htm, rfl⟩ := h
    exact quiet_of_running rfl (EnqueueTask_running htm) (heapMono_newQueued _ _)
      ⟨[], by simp, by simp⟩
  | markCancelled userID taskID =>
    simp only [step, Option.some.injEq] at h
    subst h
    exact quiet_mark_apply b userID taskID
  | cancelQueued userID taskID =>
    simp only [step, Option.some.injEq] at h
    subst h
    exact quiet_cancelQueued_apply b userID taskID
  | cancelTask userID taskID =>
    simp only [step, Option.some.injEq] at h
    subst h
    exact quiet_cancelTask_apply b userID taskID

/-! ## Steps of a queue worker -/

theorem calm_refl (b : Bot) : Calm b b := ⟨rfl, rfl, rfl, [], by simp, by simp⟩

theorem calm_of_displayOnly {b b2 : Bot} (h : DisplayOnly b b2) : Calm b b2 := by
  obtain ⟨hh, hw, hc, hl⟩ := h
  exact ⟨hw, hc, by rw [hh], hl⟩

theorem calm_trans {b b2 b3 : Bot} (h12 : Calm b b2) (h23 : Calm b2 b3) : Calm b b3 := by
  obtain ⟨hw, hc, hq, es, hl, hes⟩ := h12
  obtain ⟨hw2, hc2, hq2, es2, hl2, hes2⟩ := h23
  refine ⟨hw2.trans hw, hc2.trans hc, hq2.trans hq, es ++ es2, ?_, ?_⟩
  · rw [hl2, hl, List.append_assoc]
  · intro e he
    rcases List.mem_append.mp he with h | h
    · exact hes e h
    · exact hes2 e h

theorem not_start_of_isStart_false {e : Effect} (he : e.isStart = false) (p : QueuedPtr) :
    e ≠ Effect.start p := by
  intro heq
  subst heq
  simp [Effect.isStart] at he

/-- A calm worker step that stays outside `processTDLForward`, or stays inside
it, meets the specification of worker steps. -/
theorem workerSpec_of_calm {b b2 : Bot} {w w2 : Worker} (hc : Calm b b2)
    (hitem : w2.item? = w.item?)
    (hmove : (w.exec? = none ∧ w2.exec? = none) ∨
      ∃ ex ex2 : Exec, w.current? = some ex ∧ w2.current? = some ex2 ∧ SameTask ex ex2) :
    WorkerSpec b w b2 w2 := by
  obtain ⟨hw, hcore, hq, es, hl, hes⟩ := hc
  refine ⟨hw, core_queueProcessing hcore, heapMono_of_queuedObjs hq, ⟨es, hl, ?_⟩, ?_, ?_⟩
  · intro e he p hp
    exact absurd hp (not_start_of_isStart_false (hes e he) p)
  · intro p hp
    left
    rw [← hitem]
    exact hp
  · rcases hmove with ⟨h1, h2⟩ | ⟨ex, ex2, h1, h2, h3⟩
    · exact Or.inl ⟨h1, h2, core_tasks hcore, core_currentTask hcore⟩
    · exact Or.inr (Or.inr (Or.inr (Or.inl
        ⟨ex, ex2, h1, h2, h3, core_tasks hcore, core_currentTask hcore⟩)))

theorem sameTask_refl (ex : Exec) : SameTask ex ex := ⟨rfl, rfl, rfl, rfl⟩

theorem checkCancelled_spec {b b2 : Bot} {ex : Exec} {w2 : Worker}
    (h : b.checkCancelled ex = some (b2, w2)) :
    DisplayOnly b b2 ∧ (w2 = Worker.running ex ∨ w2 = Worker.exiting ex) := by
  unfold Bot.checkCancelled at h
  split at h
  · simp only [Option.some.injEq, Prod.mk.injEq] at h
    obtain ⟨rfl, rfl⟩ := h
    exact ⟨displayOnly_refl _, Or.inl rfl⟩
  · rw [Option.map_eq_some'] at h
    obtain ⟨b1, hb1, heq⟩ := h
    simp only [Prod.mk.injEq] at heq
    obtain ⟨rfl, rfl⟩ := heq
    exact ⟨displayOnly_showTerminated hb1, Or.inr rfl⟩

theorem processLine_spec {b b2 : Bot} {ex : Exec} {text : GoString} {now later : Int}
    {w2 : Worker} (h : b.processLine ex text now later = some (b2, w2)) :
    DisplayOnly b b2 ∧
    ∃ ex2 : Exec, SameTask ex ex2 ∧ (w2 = Worker.running ex2 ∨ w2 = Worker.exiting ex2) := by
  unfold Bot.processLine at h
  split at h
  · simp only [Option.some.injEq, Prod.mk.injEq] at h
    obtain ⟨rfl, rfl⟩ := h
    exact ⟨displayOnly_refl _, ex, sameTask_refl ex, Or.inl rfl⟩
  · split at h
    · split at h
      · exact absurd h (by simp)
      · simp only [Option.some.injEq, Prod.mk.injEq] at h
        obtain ⟨rfl, rfl⟩ := h
        exact ⟨displayOnly_updateTaskMessage _ _ _ _ _, { ex with qrDetected := true },
          ⟨rfl, rfl, rfl, rfl⟩, Or.inl rfl⟩
    · split at h
      · split at h
        · exact absurd h (by simp)
        · simp only [Option.some.injEq, Prod.mk.injEq] at h
          obtain ⟨rfl, rfl⟩ := h
          exact ⟨displayOnly_updateTaskMessage _ _ _ _ _, ex, sameTask_refl ex, Or.inl rfl⟩
      · split at h
        · split at h
          · split at h
            · exact absurd h (by simp)
            · rename_i b1 hb1
              obtain ⟨hd, hw⟩ := checkCancelled_spec h
              refine ⟨displayOnly_trans (displayOnly_showStatus hb1) hd, _, ?_, hw⟩
              exact ⟨rfl, rfl, rfl, rfl⟩
          · obtain ⟨hd, hw⟩ := checkCancelled_spec h
            refine ⟨hd, _, ?_, hw⟩
            exact ⟨rfl, rfl, rfl, rfl⟩
        · obtain ⟨hd, hw⟩ := checkCancelled_spec h
          exact ⟨hd, ex, sameTask_refl ex, hw⟩

theorem cleanupGroup_queuedObjs (h : Heap) (t : TaskPtr) (pgid : Option Int) :
    (cleanupGroup h t pgid).1.queuedObjs = h.queuedObjs := rfl

theorem cleanupGroup_no_start (h : Heap) (t : TaskPtr) (pgid : Option Int) :
    ∀ e ∈ (cleanupGroup h t pgid).2, e.isStart = false := by
  intro e he
  unfold cleanupGroup at he
  by_cases hz : resolvePGID (h.task t) pgid ≠ 0
  · simp only [hz, if_true, ne_eq, not_false_eq_true, List.mem_cons, List.mem_singleton,
      List.not_mem_nil, or_false] at he
    rcases he with h1 | h1 | h1 <;> (subst h1; rfl)
  · simp [hz] at he

theorem RemoveQueuedTask_running (tm : TaskManager) (u i : Int) :
    (RemoveQueuedTask tm u i).running = tm.running := by
  unfold RemoveQueuedTask
  split <;> rfl

theorem calm_setTask (b : Bot) (p : TaskPtr) (t : Task) :
    Calm b { b with heap := b.heap.setTask p t } :=
  ⟨rfl, rfl, rfl, [], by simp, by simp⟩

theorem calm_emit (b : Bot) (es : List Effect) (hes : ∀ e ∈ es, e.isStart = false) :
    Calm b (b.emit es) :=
  ⟨rfl, rfl, rfl, es, rfl, hes⟩

/-- Every step of a queue worker meets `WorkerSpec`. -/
theorem workerStep_spec {b b2 : Bot} {w w2 : Worker} {ev : WorkerEvent}
    (h : workerStep b w ev = some (b2, w2)) : WorkerSpec b w b2 w2 := by
  cases w with
  | idle =>
    cases ev with
    | recv =>
      simp only [workerStep] at h
      split at h
      · exact absurd h (by simp)
      · simp only [Option.some.injEq, Prod.mk.injEq] at h
        obtain ⟨rfl, rfl⟩ := h
        refine ⟨rfl, rfl, heapMono_refl _, ⟨[], by simp, by simp⟩, ?_,
          Or.inl ⟨rfl, rfl, rfl, rfl⟩⟩
        intro p hp
        simp [Worker.item?] at hp
    | _ => simp [workerStep] at h
  | dequeued p =>
    cases ev with
    | check =>
      simp only [workerStep] at h
      split at h
      · simp only [Option.some.injEq, Prod.mk.injEq] at h
        obtain ⟨rfl, rfl⟩ := h
        refine ⟨rfl, congrArg (fun c => c.2.2) (RemoveQueuedTask_running _ _ _),
          heapMono_refl _, ⟨[], by simp, by simp⟩, ?_,
          Or.inl ⟨rfl, rfl, congrArg (fun c => c.1) (RemoveQueuedTask_running _ _ _),
            congrArg (fun c => c.2.1) (RemoveQueuedTask_running _ _ _)⟩⟩
        intro p2 hp
        simp [Worker.item?] at hp
      · rename_i hnc
        simp only [Option.some.injEq, Prod.mk.injEq] at h
        obtain ⟨rfl, rfl⟩ := h
        refine ⟨rfl, rfl, heapMono_refl _, ⟨[], by simp, by simp⟩, ?_,
          Or.inl ⟨rfl, rfl, rfl, rfl⟩⟩
        intro p2 hp
        simp only [Worker.item?, Option.some.injEq] at hp
        subst hp
        right
        exact ⟨rfl, by simpa using hnc⟩
    | _ => simp [workerStep] at h
  | accepted p =>
    cases ev with
    | announce =>
      simp only [workerStep] at h
      split at h
      · simp only [Option.some.injEq, Prod.mk.injEq] at h
        obtain ⟨rfl, rfl⟩ := h
        exact workerSpec_of_calm (calm_refl _) rfl (Or.inl ⟨rfl, rfl⟩)
      · split at h
        · simp only [Option.some.injEq, Prod.mk.injEq] at h
          obtain ⟨rfl, rfl⟩ := h
          exact workerSpec_of_calm
            (calm_of_displayOnly (displayOnly_updateSummaryLine _ _ _ _ _)) rfl
            (Or.inl ⟨rfl, rfl⟩)
        · simp only [Option.some.injEq, Prod.mk.injEq] at h
          obtain ⟨rfl, rfl⟩ := h
          exact workerSpec_of_calm (calm_emit _ _ (by simp [Effect.isStart])) rfl
            (Or.inl ⟨rfl, rfl⟩)
    | _ => simp [workerStep] at h
  | entering p =>
    cases ev with
    | register =>
      simp only [workerStep, Option.some.injEq, Prod.mk.injEq] at h
      obtain ⟨rfl, rfl⟩ := h
      refine ⟨rfl, rfl, heapMono_of_queuedObjs rfl, ⟨[], by simp, by simp⟩, ?_,
        Or.inr (Or.inl ⟨rfl, _, rfl, rfl, rfl⟩)⟩
      intro p2 hp
      left
      exact hp
    | _ => simp [workerStep] at h
  | registered ex =>
    cases ev with
    | setCurrent =>
      simp only [workerStep, Option.some.injEq, Prod.mk.injEq] at h
      obtain ⟨rfl, rfl⟩ := h
      refine ⟨rfl, rfl, heapMono_refl _, ⟨[], by simp, by simp⟩, ?_,
        Or.inr (Or.inr (Or.inl ⟨ex, rfl, rfl, rfl, rfl⟩))⟩
      intro p2 hp
      left
      exact hp
    | _ => simp [workerStep] at h
  | prepared ex =>
    cases ev with
    | spawn outcome now =>
      simp only [workerStep] at h
      cases outcome with
      | pipeError =>
        simp only [Option.map_eq_some'] at h
        obtain ⟨b1, hb1, heq⟩ := h
        simp only [Prod.mk.injEq] at heq
        obtain ⟨rfl, rfl⟩ := heq
        exact workerSpec_of_calm
          (calm_trans (calm_setTask b _ _) (calm_of_displayOnly (displayOnly_showStartFailure hb1)))
          rfl (Or.inr ⟨ex, ex, rfl, rfl, sameTask_refl ex⟩)
      | startError =>
        simp only [Option.map_eq_some'] at h
        obtain ⟨b1, hb1, heq⟩ := h
        simp only [Prod.mk.injEq] at heq
        obtain ⟨rfl, rfl⟩ := heq
        exact workerSpec_of_calm
          (calm_trans (calm_setTask b _ _) (calm_of_displayOnly (displayOnly_showStartFailure hb1)))
          rfl (Or.inr ⟨ex, ex, rfl, rfl, sameTask_refl ex⟩)
      | started pid pgid =>
        simp only [Option.some.injEq, Prod.mk.injEq] at h
        obtain ⟨rfl, rfl⟩ := h
        refine ⟨rfl, rfl, heapMono_of_queuedObjs rfl, ⟨[Effect.start ex.item], rfl, ?_⟩, ?_,
          Or.inr (Or.inr (Or.inr (Or.inl ⟨ex, _, rfl, rfl, ⟨rfl, rfl, rfl, rfl⟩, rfl, rfl⟩)))⟩
        · intro e he p2 hp
          simp only [List.mem_singleton] at he
          rw [he] at hp
          cases hp
          rfl
        · intro p2 hp
          left
          exact hp
    | _ => simp [workerStep] at h
  | running ex =>
    cases ev with
    | line text now later =>
      simp only [workerStep] at h
      obtain ⟨hd, ex2, hsame, hw⟩ := processLine_spec h
      rcases hw with rfl | rfl
      · exact workerSpec_of_calm (calm_of_displayOnly hd) (congrArg some hsame.1)
          (Or.inr ⟨ex, ex2, rfl, rfl, hsame⟩)
      · exact workerSpec_of_calm (calm_of_displayOnly hd) (congrArg some hsame.1)
          (Or.inr ⟨ex, ex2, rfl, rfl, hsame⟩)
    | eof waitErr deadlineExceeded pgid =>
      simp only [workerStep, Option.map_eq_some'] at h
      obtain ⟨b1, hb1, heq⟩ := h
      simp only [Prod.mk.injEq] at heq
      obtain ⟨rfl, rfl⟩ := heq
      refine workerSpec_of_calm
        (calm_trans ?_ (calm_of_displayOnly (displayOnly_showFinal hb1)))
        rfl (Or.inr ⟨ex, ex, rfl, rfl, sameTask_refl ex⟩)
      refine ⟨rfl, rfl, rfl, _, rfl, ?_⟩
      intro e he
      rcases List.mem_cons.mp he with h1 | h1
      · subst h1
        rfl
      · exact cleanupGroup_no_start _ _ _ e h1
    | _ => simp [workerStep] at h
  | exiting ex =>
    cases ev with
    | leave =>
      simp only [workerStep, Option.some.injEq, Prod.mk.injEq] at h
      obtain ⟨rfl, rfl⟩ := h
      refine ⟨rfl, ?_, heapMono_refl _, ⟨[Effect.cancelCtx ex.task], rfl, ?_⟩, ?_,
        Or.inr (Or.inr (Or.inr (Or.inr ⟨ex, rfl, rfl, rfl, rfl⟩)))⟩
      · simp only [Bot.emit, SetCurrentTask, RemoveTask]
        split <;> rfl
      · intro e he p2 hp
        simp only [List.mem_singleton] at he
        rw [he] at hp
        cases hp
      · intro p2 hp
        left
        exact hp
    | _ => simp [workerStep] at h
  | returned p =>
    cases ev with
    | unlist =>
      simp only [workerStep, Option.some.injEq, Prod.mk.injEq] at h
      obtain ⟨rfl, rfl⟩ := h
      refine ⟨rfl, congrArg (fun c => c.2.2) (RemoveQueuedTask_running _ _ _),
        heapMono_refl _, ⟨[], by simp, by simp⟩, ?_,
        Or.inl ⟨rfl, rfl, congrArg (fun c => c.1) (RemoveQueuedTask_running _ _ _),
          congrArg (fun c => c.2.1) (RemoveQueuedTask_running _ _ _)⟩⟩
      intro p2 hp
      simp [Worker.item?] at hp
    | _ => simp [workerStep] at h

/-! ## Runs -/

theorem run_invariant (P : Bot → Prop)
    (hstep : ∀ (b b2 : Bot) (ev : Event), P b → step b ev = some b2 → P b2)
    (evs : List Event) (b b2 : Bot) (hP : P b) (hrun : run b evs = some b2) : P b2 := by
  induction evs generalizing b with
  | nil =>
    simp only [run, Option.some.injEq] at hrun
    subst hrun
    exact hP
  | cons ev rest ih =>
    unfold run at hrun
    split at hrun
    · exact absurd hrun (by simp)
    · rename_i b1 hb1
      exact ih b1 (hstep b b1 ev hP hb1) hrun

theorem step_worker_inv {b b2 : Bot} {i : Nat} {wev : WorkerEvent}
    (h : step b (Event.worker i wev) = some b2) :
    ∃ (w w2 : Worker) (b1 : Bot), b.workers[i]? = some w ∧ workerStep b w wev = some (b1, w2) ∧
      b2 = { b1 with workers := b1.workers.set i w2 } := by
  simp only [step] at h
  split at h
  · exact absurd h (by simp)
  · rename_i w hw
    rw [Option.map_eq_some'] at h
    obtain ⟨r, hr, hb2⟩ := h
    obtain ⟨b1, w2⟩ := r
    exact ⟨w, w2, b1, hw, hr, hb2.symm⟩

/-! ## Serial execution -/

theorem exec_of_current {w : Worker} {ex : Exec} (h : w.current? = some ex) :
    w.exec? = some ex := by
  cases w <;> simp [Worker.current?] at h <;> simp [Worker.exec?, h]

theorem current_none_of_exec_none {w : Worker} (h : w.exec? = none) : w.current? = none := by
  cases w <;> simp [Worker.exec?] at h <;> rfl

theorem RemoveTask_clears (tm : TaskManager) (u i : Int) (x : TaskPtr)
    (h : tm.tasks = [] ∨ tm.tasks = [(u, [(i, x)])]) : (RemoveTask tm u i).tasks = [] := by
  rcases h with h | h
  · simp [RemoveTask, h, mapGet]
  · simp [RemoveTask, h, mapGet, mapDeleteIn, mapDelete]

theorem mapSet2_nil (u i : Int) (x : TaskPtr) :
    mapSet2 ([] : List (Int × List (Int × TaskPtr))) u i x = [(u, [(i, x)])] := by
  simp [mapSet2, mapGet, mapSet]

theorem serialInv_newBot : SerialInv NewBot :=
  ⟨by simp [NewBot], fun _ => rfl, Or.inl rfl, Or.inl rfl⟩

theorem serialInv_step (b b2 : Bot) (ev : Event) (hinv : SerialInv b)
    (h : step b ev = some b2) : SerialInv b2 := by
  obtain ⟨hlen, hproc, htasks, hcur⟩ := hinv
  by_cases hstart : ev = Event.startQueueProcessor
  · subst hstart
    simp only [step, Option.some.injEq] at h
    subst h
    unfold Bot.startQueueProcessor
    split
    · exact ⟨hlen, hproc, htasks, hcur⟩
    · rename_i hp
      have hw : b.workers = [] := hproc (by simpa using hp)
      refine ⟨by simp [hw], fun hf => by simp at hf, ?_, ?_⟩
      · rcases htasks with ht | ⟨ex, ⟨w, hwm, _⟩, _⟩
        · exact Or.inl ht
        · rw [hw] at hwm
          simp at hwm
      · rcases hcur with hc | ⟨ex, ⟨w, hwm, _⟩, _⟩
        · exact Or.inl hc
        · rw [hw] at hwm
          simp at hwm
  · by_cases hworker : ∃ i wev, ev = Event.worker i wev
    · obtain ⟨i, wev, rfl⟩ := hworker
      obtain ⟨w, w2, b1, hw, hws, rfl⟩ := step_worker_inv h
      obtain ⟨hwk, hpr, _, _, _, hmove⟩ := workerStep_spec hws
      have hone : b.workers = [w] ∧ i = 0 := by
        have hi := (List.getElem?_eq_some_iff.mp hw).1
        have hi0 : i = 0 := by omega
        subst hi0
        match hb : b.workers, hlen, hw with
        | [x], _, hw2 =>
          simp only [List.getElem?_cons_zero, Option.some.injEq] at hw2
          rw [hw2]
          exact ⟨rfl, rfl⟩
        | [], _, hw2 => simp at hw2
        | _ :: _ :: _, hl, _ => simp at hl
      obtain ⟨hbw, rfl⟩ := hone
      have hw2s : ({ b1 with workers := b1.workers.set 0 w2 } : Bot).workers = [w2] := by
        show b1.workers.set 0 w2 = [w2]
        rw [hwk, hbw]
        rfl
      have htk : b.taskManager.tasks = [] ∨
          ∃ ex, w.exec? = some ex ∧
            b.taskManager.tasks = [(ex.userID, [(ex.taskID, ex.task)])] := by
        rcases htasks with ht | ⟨ex, ⟨w0, hwm, hex⟩, ht⟩
        · exact Or.inl ht
        · rw [hbw, List.mem_singleton] at hwm
          subst hwm
          exact Or.inr ⟨ex, hex, ht⟩
      have hck : b.taskManager.currentTask = none ∨
          ∃ ex, w.current? = some ex ∧ b.taskManager.currentTask = some ex.task := by
        rcases hcur with hc | ⟨ex, ⟨w0, hwm, hex⟩, hc⟩
        · exact Or.inl hc
        · rw [hbw, List.mem_singleton] at hwm
          subst hwm
          exact Or.inr ⟨ex, hex, hc⟩
      refine ⟨by rw [hw2s]; simp, ?_, ?_, ?_⟩
      · intro hf
        have : b.taskManager.queueProcessing = false := by
          rw [← hpr]
          exact hf
        have hnil := hproc this
        rw [hbw] at hnil
        simp at hnil
      · show b1.taskManager.tasks = [] ∨ _
        rw [hw2s]
        rcases hmove with ⟨he, he2, ht, _⟩ | ⟨he, ex, rfl, ht, _⟩ | ⟨ex, rfl, rfl, ht, _⟩ |
          ⟨ex, ex2, hc1, hc2, hsame, ht, _⟩ | ⟨ex, hc1, he2, ht, _⟩
        · rcases htk with h0 | ⟨ex, hex, _⟩
          · exact Or.inl (ht.trans h0)
          · rw [he] at hex
            simp at hex
        · rcases htk with h0 | ⟨ex0, hex, _⟩
          · right
            refine ⟨ex, ⟨_, List.mem_singleton.mpr rfl, rfl⟩, ?_⟩
            rw [ht, h0, mapSet2_nil]
          · rw [he] at hex
            simp at hex
        · rcases htk with h0 | ⟨ex0, hex, h1⟩
          · exact Or.inl (ht.trans h0)
          · simp only [Worker.exec?, Option.some.injEq] at hex
            subst hex
            exact Or.inr ⟨ex, ⟨_, List.mem_singleton.mpr rfl, rfl⟩, ht.trans h1⟩
        · rcases htk with h0 | ⟨ex0, hex, h1⟩
          · exact Or.inl (ht.trans h0)
          · rw [exec_of_current hc1] at hex
            simp only [Option.some.injEq] at hex
            subst hex
            right
            refine ⟨ex2, ⟨_, List.mem_singleton.mpr rfl, exec_of_current hc2⟩, ?_⟩
            rw [ht, h1, hsame.2.1, hsame.2.2.1, hsame.2.2.2]
        · left
          rw [ht]
          rcases htk with h0 | ⟨ex0, hex, h1⟩
          · exact RemoveTask_clears _ _ _ ex.task (Or.inl h0)
          · rw [exec_of_current hc1] at hex
            simp only [Option.some.injEq] at hex
            subst hex
            exact RemoveTask_clears _ _ _ ex.task (Or.inr h1)
      · show b1.taskManager.currentTask = none ∨ _
        rw [hw2s]
        rcases hmove with ⟨he, he2, _, hc⟩ | ⟨he, ex, rfl, _, hc⟩ | ⟨ex, rfl, rfl, _, hc⟩ |
          ⟨ex, ex2, hc1, hc2, hsame, _, hc⟩ | ⟨ex, hc1, he2, _, hc⟩
        · rcases hck with h0 | ⟨ex, hex, _⟩
          · exact Or.inl (hc.trans h0)
          · rw [current_none_of_exec_none he] at hex
            simp at hex
        · rcases hck with h0 | ⟨ex0, hex, _⟩
          · exact Or.inl (hc.trans h0)
          · rw [current_none_of_exec_none he] at hex
            simp at hex
        · exact Or.inr ⟨ex, ⟨_, List.mem_singleton.mpr rfl, rfl⟩, hc⟩
        · rcases hck with h0 | ⟨ex0, hex, h1⟩
          · exact Or.inl (hc.trans h0)
          · rw [hc1] at hex
            simp only [Option.some.injEq] at hex
            subst hex
            right
            refine ⟨ex2, ⟨_, List.mem_singleton.mpr rfl, hc2⟩, ?_⟩
            rw [hc, h1, hsame.2.2.2]
        · exact Or.inl hc
    · have hq : Quiet b b2 :=
        quiet_step h (fun i wev heq => hworker ⟨i, wev, heq⟩) hstart
      refine ⟨by rw [hq.workers]; exact hlen, ?_, ?_, ?_⟩
      · intro hf
        rw [hq.workers]
        exact hproc (by rw [← hq.processing]; exact hf)
      · rw [hq.workers]
        have hsmall : SmallTable b.taskManager.tasks := by
          rcases htasks with ht | ⟨ex, _, ht⟩
          · exact Or.inl ht
          · exact Or.inr ⟨_, _, _, ht⟩
        rcases hq.tasks hsmall with ht | ht
        · rw [ht]
          exact htasks
        · exact Or.inl ht
      · rw [hq.workers, hq.current]
        exact hcur

theorem mapCount2_le_one_of_serialInv {b : Bot} (hinv : SerialInv b) :
    mapCount2 b.taskManager.tasks ≤ 1 := by
  rcases hinv.2.2.1 with ht | ⟨ex, _, ht⟩
  · simp [ht, mapCount2]
  · simp [ht, mapCount2]

/-- Claim C9: in every state reached from `NewBot` by submissions
(`handleMessage`, `EnqueueTask` and its two halves), cancellations
(`handleCallbackQuery`, `CancelQueuedTask` and its locked section, `CancelTask`),
calls of `startQueueProcessor` and steps of the queue worker (dequeue, flag
check, registration, start, output lines, end of output, deferred calls), the
active-task table holds at most one Task over all users, at most one consumer
exists, the current-task slot holds no Task or exactly one, which is then the
Task of the one call of `processTDLForward` in flight, and a call of
`startQueueProcessor` made while `queueProcessing` is set changes nothing: it
starts no second consumer. -/
theorem at_most_one_task_executes (evs : List Event) (b : Bot)
    (hrun : run NewBot evs = some b) :
    mapCount2 b.taskManager.tasks ≤ 1 ∧
    b.workers.length ≤ 1 ∧
    b.taskManager.currentTask.toList.length ≤ 1 ∧
    (∀ t : TaskPtr, b.taskManager.currentTask = some t →
      ∃ ex : Exec, (∃ w ∈ b.workers, w.current? = some ex) ∧ ex.task = t) ∧
    (b.taskManager.queueProcessing = true →
      step b Event.startQueueProcessor = some b) := by
  have hinv : SerialInv b :=
    run_invariant SerialInv serialInv_step evs NewBot b serialInv_newBot hrun
  refine ⟨mapCount2_le_one_of_serialInv hinv, hinv.1, ?_, ?_, ?_⟩
  · cases b.taskManager.currentTask <;> simp
  · intro t ht
    rcases hinv.2.2.2 with hc | ⟨ex, hw, hc⟩
    · rw [hc] at ht
      simp at ht
    · rw [hc] at ht
      simp only [Option.some.injEq] at ht
      exact ⟨ex, hw, ht⟩
  · intro hp
    simp [step, Bot.startQueueProcessor, hp]

/-- Witness for C9: after `exampleStartedRun`, with one task running. -/
theorem at_most_one_task_executes_witness :
    run NewBot exampleStartedRun = some exampleStarted ∧
    mapCount2 exampleStarted.taskManager.tasks ≤ 1 ∧
    exampleStarted.workers.length ≤ 1 ∧
    exampleStarted.taskManager.currentTask.toList.length ≤ 1 :=
  ⟨by decide,
   (at_most_one_task_executes exampleStartedRun exampleStarted (by decide)).1,
   (at_most_one_task_executes exampleStartedRun exampleStarted (by decide)).2.1,
   (at_most_one_task_executes exampleStartedRun exampleStarted (by decide)).2.2.1⟩

/-! ## An item cancelled in the queue is never executed -/

theorem discarded_step (p : QueuedPtr) (b b2 : Bot) (ev : Event) (hd : Discarded p b)
    (h : step b ev = some b2) :
    Discarded p b2 ∧ ∃ es : List Effect, b2.log = b.log ++ es ∧ Effect.start p ∉ es := by
  obtain ⟨hvalid, hcan, hnone⟩ := hd
  by_cases hstart : ev = Event.startQueueProcessor
  · subst hstart
    simp only [step, Option.some.injEq] at h
    subst h
    unfold Bot.startQueueProcessor
    split
    · exact ⟨⟨hvalid, hcan, hnone⟩, [], by simp, by simp⟩
    · refine ⟨⟨hvalid, hcan, ?_⟩, [], by simp, by simp⟩
      intro w hw
      rcases List.mem_append.mp hw with h1 | h1
      · exact hnone w h1
      · simp only [List.mem_singleton] at h1
        subst h1
        simp [Worker.item?]
  · by_cases hworker : ∃ i wev, ev = Event.worker i wev
    · obtain ⟨i, wev, rfl⟩ := hworker
      obtain ⟨w, w2, b1, hw, hws, rfl⟩ := step_worker_inv h
      obtain ⟨hwk, _, hheap, ⟨es, hlog, hes⟩, hitem, _⟩ := workerStep_spec hws
      have hwmem : w ∈ b.workers := List.getElem?_mem hw
      have hw2 : w2.item? ≠ some p := by
        intro hp
        rcases hitem p hp with h1 | ⟨_, h1⟩
        · exact hnone w hwmem h1
        · rw [hcan] at h1
          exact absurd h1 (by decide)
      refine ⟨⟨lt_of_lt_of_le hvalid hheap.1, hheap.2 p hvalid hcan, ?_⟩, es, hlog, ?_⟩
      · intro w0 hw0
        have hw0s : w0 ∈ b1.workers.set i w2 := hw0
        rcases List.mem_or_eq_of_mem_set hw0s with h1 | h1
        · rw [hwk] at h1
          exact hnone w0 h1
        · rw [h1]
          exact hw2
      · intro hmem
        exact hnone w hwmem (hes _ hmem p rfl)
    · have hq : Quiet b b2 :=
        quiet_step h (fun i wev heq => hworker ⟨i, wev, heq⟩) hstart
      obtain ⟨es, hlog, hes⟩ := hq.log
      refine ⟨⟨lt_of_lt_of_le hvalid hq.heap.1, hq.heap.2 p hvalid hcan, ?_⟩, es, hlog, ?_⟩
      · rw [hq.workers]
        exact hnone
      · intro hmem
        exact absurd (hes _ hmem) (by simp [Effect.isStart])

theorem discarded_run (p : QueuedPtr) (evs : List Event) (b b2 : Bot) (hd : Discarded p b)
    (hrun : run b evs = some b2) :
    Discarded p b2 ∧ ∃ es : List Effect, b2.log = b.log ++ es ∧ Effect.start p ∉ es := by
  induction evs generalizing b with
  | nil =>
    simp only [run, Option.some.injEq] at hrun
    subst hrun
    exact ⟨hd, [], by simp, by simp⟩
  | cons ev rest ih =>
    unfold run at hrun
    split at hrun
    · exact absurd hrun (by simp)
    · rename_i b1 hb1
      obtain ⟨hd1, es1, hl1, hes1⟩ := discarded_step p b b1 ev hd hb1
      obtain ⟨hd2, es2, hl2, hes2⟩ := ih b1 hd1 hrun
      refine ⟨hd2, es1 ++ es2, ?_, ?_⟩
      · rw [hl2, hl1, List.append_assoc]
      · intro hmem
        rcases List.mem_append.mp hmem with h1 | h1
        · exact hes1 h1
        · exact hes2 h1

theorem discarded_after_cancelQueued (b : Bot) (p : QueuedPtr) (userID taskID : Int)
    (hvalid : p < b.heap.queuedObjs.length)
    (hlook : GetQueuedTask b.taskManager userID taskID = some p)
    (hnot : ∀ w ∈ b.workers, w.item? ≠ some p) (b1 : Bot)
    (h : step b (Event.cancelQueued userID taskID) = some b1) :
    Discarded p b1 ∧ ∃ es : List Effect, b1.log = b.log ++ es ∧ Effect.start p ∉ es := by
  have hq : Quiet b b1 := quiet_step h (fun i wev heq => by cases heq) (by simp)
  simp only [step, Option.some.injEq] at h
  subst h
  obtain ⟨hheap, _, _, hfound⟩ :=
    CancelQueuedTask_mark_present b.heap b.taskManager userID taskID p hlook
  obtain ⟨es, hlog, hes⟩ := hq.log
  refine ⟨⟨lt_of_lt_of_le hvalid hq.heap.1, ?_, ?_⟩, es, hlog, ?_⟩
  · show ((CancelQueuedTask b.heap b.taskManager userID taskID).heap.queued p).Cancelled = true
    simp only [CancelQueuedTask, hfound, if_true]
    rw [hheap, queued_after_setQueued b.heap p _ hvalid]
  · exact hnot
  · intro hmem
    exact absurd (hes _ hmem) (by simp [Effect.isStart])

/-- Claim C5: let `p` be a queued item that the lookup table holds under
`(user, id)` (as `EnqueueTask` leaves it) and that no worker has accepted yet,
and let `CancelQueuedTask(user, id)` be called.  Then along every later run of
the program the `Cancelled` flag of `p` stays set, no worker ever executes `p`
(it never enters `processTDLForward` for it, so no Task is registered for it)
and no process is started for `p`; and whenever a worker has received `p` from
the channel, its next step discards `p`: the worker is idle again, the
active-task table and the log are unchanged. -/
theorem cancelled_in_queue_never_runs (b : Bot) (p : QueuedPtr) (userID taskID : Int)
    (hvalid : p < b.heap.queuedObjs.length)
    (hlook : GetQueuedTask b.taskManager userID taskID = some p)
    (hnot : ∀ w ∈ b.workers, w.item? ≠ some p)
    (evs : List Event) (b2 : Bot)
    (hrun : run b (Event.cancelQueued userID taskID :: evs) = some b2) :
    (b2.heap.queued p).Cancelled = true ∧
    (∀ w ∈ b2.workers, w.item? ≠ some p) ∧
    (∃ es : List Effect, b2.log = b.log ++ es ∧ Effect.start p ∉ es) ∧
    (∀ i : Nat, b2.workers[i]? = some (Worker.dequeued p) →
      ∃ b3 : Bot, step b2 (Event.worker i WorkerEvent.check) = some b3 ∧
        b3.workers = b2.workers.set i Worker.idle ∧
        b3.taskManager.tasks = b2.taskManager.tasks ∧ b3.log = b2.log ∧ b3.heap = b2.heap) := by
  unfold run at hrun
  split at hrun
  · exact absurd hrun (by simp)
  · rename_i b1 hb1
    obtain ⟨hd1, es1, hl1, hes1⟩ :=
      discarded_after_cancelQueued b p userID taskID hvalid hlook hnot b1 hb1
    obtain ⟨hd2, es2, hl2, hes2⟩ := discarded_run p evs b1 b2 hd1 hrun
    refine ⟨hd2.2.1, hd2.2.2, ⟨es1 ++ es2, ?_, ?_⟩, ?_⟩
    · rw [hl2, hl1, List.append_assoc]
    · intro hmem
      rcases List.mem_append.mp hmem with h1 | h1
      · exact hes1 h1
      · exact hes2 h1
    · intro i hi
      refine ⟨{ b2 with
                taskManager := RemoveQueuedTask b2.taskManager (b2.heap.queued p).UserID
                  (b2.heap.queued p).TaskID
                workers := b2.workers.set i Worker.idle }, ?_, rfl, ?_, rfl, rfl⟩
      · simp [step, hi, workerStep, hd2.2.1]
      · exact congrArg (fun c => c.1) (RemoveQueuedTask_running _ _ _)

/-- Witness for C5: `exampleItem` waits in the channel, is cancelled and is
then received by the worker; the flag is set, nothing was started, and the
worker's next step discards the item. -/
theorem cancelled_in_queue_never_runs_witness :
    run NewBot [Event.startQueueProcessor, Event.enqueue exampleItem] = some exampleQueued ∧
    run exampleQueued (Event.cancelQueued 7 1 :: [Event.worker 0 WorkerEvent.recv])
      = some exampleCancelled ∧
    exampleCancelled.workers[0]? = some (Worker.dequeued 0) ∧
    (exampleCancelled.heap.queued 0).Cancelled = true ∧
    (∃ b3 : Bot, step exampleCancelled (Event.worker 0 WorkerEvent.check) = some b3 ∧
        b3.workers = exampleCancelled.workers.set 0 Worker.idle ∧
        b3.taskManager.tasks = exampleCancelled.taskManager.tasks ∧
        b3.log = exampleCancelled.log ∧ b3.heap = exampleCancelled.heap) :=
  ⟨by decide, by decide, by decide,
   (cancelled_in_queue_never_runs exampleQueued 0 7 1 (by decide) (by decide) (by decide)
      [Event.worker 0 WorkerEvent.recv] exampleCancelled (by decide)).1,
   (cancelled_in_queue_never_runs exampleQueued 0 7 1 (by decide) (by decide) (by decide)
      [Event.worker 0 WorkerEvent.recv] exampleCancelled (by decide)).2.2.2 0 (by decide)⟩

/-! ## The controls of a summary can be retired too early -/

/-- Claim C3 fails on the code: along `earlyRetireRun` the unit (100, 50) is
initialised with 2 rows and pending count 2; the press of `cancel_7_1` on the
running row 1 decrements it to 1 in `handleCallbackQuery`, and the end of the
killed run decrements it again in `processTDLForward`, so the pending count and
the cached controls of the unit are gone while row 2 (item 1, task 2) is still
queued: it is in the channel and in the lookup table and its `Cancelled` flag
is not set. -/
theorem summary_controls_retired_with_row_queued :
    (run NewBot (earlyRetireRun.take 2)).map
        (fun b => mapGet2 b.taskManager.summaryPendingCounts 100 50) = some (some 2) ∧
    (run NewBot (earlyRetireRun.take 10)).map
        (fun b => mapGet2 b.taskManager.summaryPendingCounts 100 50) = some (some 1) ∧
    (run NewBot (earlyRetireRun.take 10)).map
        (fun b => (mapGet2 b.taskManager.summaryKeyboards 100 50).isSome) = some true ∧
    (run NewBot earlyRetireRun).map
        (fun b => mapGet2 b.taskManager.summaryPendingCounts 100 50) = some none ∧
    (run NewBot earlyRetireRun).map
        (fun b => mapGet2 b.taskManager.summaryKeyboards 100 50) = some none ∧
    (run NewBot earlyRetireRun).map (fun b => b.taskManager.queue) = some [1] ∧
    (run NewBot earlyRetireRun).map (fun b => GetQueuedTask b.taskManager 7 2) = some (some 1) ∧
    (run NewBot earlyRetireRun).map (fun b => (b.heap.queued 1).Cancelled) = some false ∧
    (run NewBot earlyRetireRun).map (fun b => (b.heap.queued 1).StatusMsg)
      = some (some { ChatID := 100, MessageID := 50 }) := by
  refine ⟨?_, ?_, ?_, ?_, ?_, ?_, ?_, ?_, ?_⟩ <;> decide

/-! ## The line entry outlives the pending count -/

theorem decrement_lines (tm : TaskManager) (c m : Int) :
    (DecrementSummaryPending tm c m).1.summaryLines = tm.summaryLines := by
  unfold DecrementSummaryPending
  split
  · rfl
  · split
    · rfl
    · dsimp only
      split <;> rfl

theorem decrementTimes_lines (tm : TaskManager) (c m : Int) (k : Nat) :
    (decrementTimes tm c m k).summaryLines = tm.summaryLines := by
  induction k with
  | zero => rfl
  | succ k ih => simp only [decrementTimes, decrement_lines, ih]

theorem decrement_returns (tm : TaskManager) (c m : Int) :
    (DecrementSummaryPending tm c m).2 = nextReturn tm c m := by
  cases hn : mapGet2 tm.summaryPendingCounts c m with
  | none => simp [decrement_absent tm c m hn, nextReturn, hn]
  | some n =>
    by_cases h1 : n ≤ 1
    · have hle : n - 1 ≤ 0 := by omega
      simp [(decrement_last tm c m n hn h1).1, nextReturn, hn, hle]
    · have hle : ¬ (n - 1 ≤ 0) := by omega
      simp [(decrement_above_one tm c m n hn (by omega)).1, nextReturn, hn, hle]

theorem nextReturn_nonneg (tm : TaskManager) (c m : Int) : 0 ≤ nextReturn tm c m := by
  unfold nextReturn
  split
  · split <;> omega
  · exact le_refl 0

theorem nextReturn_after_self (tm : TaskManager) (c m : Int) :
    nextReturn (DecrementSummaryPending tm c m).1 c m ≤ nextReturn tm c m := by
  cases hn : mapGet2 tm.summaryPendingCounts c m with
  | none => simp [decrement_absent tm c m hn]
  | some n =>
    by_cases h1 : n ≤ 1
    · have hle : n - 1 ≤ 0 := by omega
      simp [nextReturn, (decrement_last tm c m n hn h1).2.1, hn, hle]
    · have hle : ¬ (n - 1 ≤ 0) := by omega
      simp only [nextReturn, (decrement_above_one tm c m n hn (by omega)).2.1, hn, hle, if_false]
      split <;> omega

theorem mapGet2_mapDeleteIn_other {ν : Type} (m : List (Int × List (Int × ν))) (a b a2 b2 : Int)
    (inner : List (Int × ν)) (hne : a2 ≠ a ∨ b2 ≠ b) :
    mapGet2 (mapDeleteIn m a inner b) a2 b2
      = if a2 = a then mapGet inner b2 else mapGet2 m a2 b2 := by
  unfold mapDeleteIn mapGet2
  by_cases ha : a2 = a
  · subst ha
    have hb : b2 ≠ b := by
      rcases hne with h | h
      · exact absurd rfl h
      · exact h
    by_cases hlen : (mapDelete inner b).length = 0
    · simp [hlen, mapGet_mapDelete_self, mapGet_none_of_mapDelete_nil inner b b2 hlen hb]
    · simp [hlen, mapGet_mapSet_self, mapGet_mapDelete_ne _ _ _ hb]
  · by_cases hlen : (mapDelete inner b).length = 0
    · simp [hlen, ha, mapGet_mapDelete_ne _ _ _ ha]
    · simp [hlen, ha, mapGet_mapSet_ne _ _ _ _ ha]

theorem pending_after_other (tm : TaskManager) (c m c2 m2 : Int) (hne : (c2, m2) ≠ (c, m)) :
    mapGet2 (DecrementSummaryPending tm c2 m2).1.summaryPendingCounts c m
      = mapGet2 tm.summaryPendingCounts c m := by
  have hne2 : c ≠ c2 ∨ m ≠ m2 := by
    by_contra hcon
    push_neg at hcon
    exact hne (by rw [hcon.1, hcon.2])
  cases hc : mapGet tm.summaryPendingCounts c2 with
  | none => simp [DecrementSummaryPending, hc]
  | some counts =>
    cases hm : mapGet counts m2 with
    | none => simp [DecrementSummaryPending, hc, hm]
    | some n =>
      by_cases hle : n - 1 ≤ 0
      · simp only [DecrementSummaryPending, hc, hm, hle, if_true]
        rw [mapGet2_mapDeleteIn_other _ _ _ _ _ _ hne2]
        by_cases ha : c = c2
        · subst ha
          have hb : m ≠ m2 := by
            rcases hne2 with h | h
            · exact absurd rfl h
            · exact h
          simp [mapGet2, hc, mapGet_mapSet_ne _ _ _ _ hb]
        · simp [ha]
      · simp only [DecrementSummaryPending, hc, hm, hle, if_false]
        by_cases ha : c = c2
        · subst ha
          have hb : m ≠ m2 := by
            rcases hne2 with h | h
            · exact absurd rfl h
            · exact h
          simp [mapGet2, hc, mapGet_mapSet_self, mapGet_mapSet_ne _ _ _ _ hb]
        · simp [mapGet2, mapGet_mapSet_ne _ _ _ _ ha]

theorem nextReturn_after_other (tm : TaskManager) (c m c2 m2 : Int) (hne : (c2, m2) ≠ (c, m)) :
    nextReturn (DecrementSummaryPending tm c2 m2).1 c m = nextReturn tm c m := by
  simp only [nextReturn, pending_after_other tm c m c2 m2 hne]

theorem returnsFor_bounded (c m : Int) (calls : List (Int × Int)) :
    ∀ tm : TaskManager,
      List.Chain (fun prev next => next ≤ prev) (nextReturn tm c m) (returnsFor tm c m calls) := by
  induction calls with
  | nil => intro tm; exact List.Chain.nil
  | cons call rest ih =>
    intro tm
    by_cases hcall : call = (c, m)
    · subst hcall
      simp only [returnsFor, if_true]
      refine List.Chain.cons ?_ ?_
      · rw [decrement_returns]
      · rw [decrement_returns]
        have h := ih (DecrementSummaryPending tm c m).1
        cases hl : returnsFor (DecrementSummaryPending tm c m).1 c m rest with
        | nil => exact List.Chain.nil
        | cons x xs =>
          rw [hl] at h
          exact List.Chain.cons
            (le_trans (List.chain_cons.1 h).1 (nextReturn_after_self tm c m))
            (List.chain_cons.1 h).2
    · simp only [returnsFor, hcall, if_false]
      have h := ih (DecrementSummaryPending tm call.1 call.2).1
      rw [nextReturn_after_other tm c m call.1 call.2 hcall] at h
      exact h

theorem returnsFor_nonneg (c m : Int) (calls : List (Int × Int)) :
    ∀ tm : TaskManager, ∀ r ∈ returnsFor tm c m calls, 0 ≤ r := by
  induction calls with
  | nil => intro tm r hr; simp [returnsFor] at hr
  | cons call rest ih =>
    intro tm r hr
    by_cases hcall : call = (c, m)
    · subst hcall
      simp only [returnsFor, if_true, List.mem_cons] at hr
      rcases hr with h | h
      · rw [h, decrement_returns]
        exact nextReturn_nonneg tm c m
      · exact ih _ r h
    · simp only [returnsFor, hcall, if_false] at hr
      exact ih _ r hr

/-- Claim C16, as it fails: a unit of one line with controls whose pending count
reaches 0 loses its control-set entry, and `GetSummaryLines` still reports the
cached line. -/
theorem pending_zero_line_entry_stays :
    (DecrementSummaryPending (InitSummary NewTaskManager 5 9 [utf8 "a"] (some ⟨[]⟩)) 5 9).2 = 0 ∧
    mapGet2 (DecrementSummaryPending
      (InitSummary NewTaskManager 5 9 [utf8 "a"] (some ⟨[]⟩)) 5 9).1.summaryKeyboards 5 9 = none ∧
    GetSummaryLines (DecrementSummaryPending
      (InitSummary NewTaskManager 5 9 [utf8 "a"] (some ⟨[]⟩)) 5 9).1 5 9 = some [utf8 "a"] := by
  refine ⟨?_, ?_, ?_⟩ <;> decide

/-- Claim C16, amended: once the `N` calls of `DecrementSummaryPending` that
follow `InitSummary` with `N >= 1` lines have brought the pending count to 0, the
pending-count entry and the control-set entry of the unit are removed, and the
line entry stays: `GetSummaryLines` reports the `N` lines that were cached. -/
theorem pending_zero_retires_controls_only (tm : TaskManager) (chatID messageID : Int)
    (lines : List GoString) (keyboard : Option InlineKeyboardMarkup)
    (hN : 1 ≤ lines.length) :
    (DecrementSummaryPending
      (decrementTimes (InitSummary tm chatID messageID lines keyboard) chatID messageID
        (lines.length - 1)) chatID messageID).2 = 0 ∧
    mapGet2 (decrementTimes (InitSummary tm chatID messageID lines keyboard)
      chatID messageID lines.length).summaryPendingCounts chatID messageID = none ∧
    mapGet2 (decrementTimes (InitSummary tm chatID messageID lines keyboard)
      chatID messageID lines.length).summaryKeyboards chatID messageID = none ∧
    GetSummaryLines (decrementTimes (InitSummary tm chatID messageID lines keyboard)
      chatID messageID lines.length) chatID messageID = some lines := by
  have hinit := pending_after_init tm chatID messageID lines keyboard
  obtain ⟨n, hn⟩ : ∃ n, lines.length = n + 1 := ⟨lines.length - 1, by omega⟩
  have hc := pending_after_decrements _ chatID messageID lines.length hinit n (by omega)
  have hlast := decrement_last _ chatID messageID _ hc (by omega)
  have hlines : GetSummaryLines (decrementTimes (InitSummary tm chatID messageID lines keyboard)
      chatID messageID lines.length) chatID messageID = some lines := by
    unfold GetSummaryLines
    rw [decrementTimes_lines]
    simp [InitSummary, mapGet2_mapSet2_self]
  refine ⟨?_, ?_, ?_, hlines⟩
  · rw [hn, Nat.add_sub_cancel]
    exact hlast.1
  · rw [hn]
    exact hlast.2.1
  · rw [hn]
    exact hlast.2.2.1

/-- Witness for C16 with two lines and a keyboard. -/
theorem pending_zero_retires_controls_only_witness :
    1 ≤ [utf8 "a", utf8 "b"].length ∧
    GetSummaryLines (decrementTimes (InitSummary NewTaskManager 5 9 [utf8 "a", utf8 "b"] (some ⟨[]⟩))
      5 9 [utf8 "a", utf8 "b"].length) 5 9 = some [utf8 "a", utf8 "b"] :=
  ⟨by decide,
   (pending_zero_retires_controls_only NewTaskManager 5 9 [utf8 "a", utf8 "b"] (some ⟨[]⟩)
      (by decide)).2.2.2⟩

/-- Claim C17: a call of `DecrementSummaryPending` for a unit without a
pending-count entry returns 0 and leaves the registry as it was; every call
returns a value that is not negative; and in every sequence of calls the values
returned for one unit never increase from one call for that unit to the next. -/
theorem decrement_is_settled_and_monotone (tm : TaskManager) (chatID messageID : Int)
    (calls : List (Int × Int)) :
    (mapGet2 tm.summaryPendingCounts chatID messageID = none →
      DecrementSummaryPending tm chatID messageID = (tm, 0)) ∧
    0 ≤ (DecrementSummaryPending tm chatID messageID).2 ∧
    (∀ r ∈ returnsFor tm chatID messageID calls, 0 ≤ r) ∧
    List.Chain' (fun prev next => next ≤ prev) (returnsFor tm chatID messageID calls) := by
  refine ⟨decrement_absent tm chatID messageID, ?_,
    returnsFor_nonneg chatID messageID calls tm, ?_⟩
  · rw [decrement_returns]
    exact nextReturn_nonneg tm chatID messageID
  · have h := returnsFor_bounded chatID messageID calls tm
    cases hl : returnsFor tm chatID messageID calls with
    | nil => exact List.chain'_nil
    | cons x xs =>
      rw [hl] at h
      exact (List.chain_cons.1 h).2

/-- Witness for C17: a unit of two lines after its two decrements has no
pending-count entry, and a third call returns 0 and changes nothing. -/
theorem decrement_is_settled_and_monotone_witness :
    mapGet2 (decrementTimes (InitSummary NewTaskManager 5 9 [utf8 "a", utf8 "b"] none)
      5 9 2).summaryPendingCounts 5 9 = none ∧
    DecrementSummaryPending
        (decrementTimes (InitSummary NewTaskManager 5 9 [utf8 "a", utf8 "b"] none) 5 9 2) 5 9
      = (decrementTimes (InitSummary NewTaskManager 5 9 [utf8 "a", utf8 "b"] none) 5 9 2, 0) ∧
    returnsFor (InitSummary NewTaskManager 5 9 [utf8 "a", utf8 "b"] none) 5 9
      [(5, 9), (5, 8), (5, 9), (5, 9)] = [1, 0, 0] :=
  ⟨by decide,
   (decrement_is_settled_and_monotone
      (decrementTimes (InitSummary NewTaskManager 5 9 [utf8 "a", utf8 "b"] none) 5 9 2) 5 9
      []).1 (by decide),
   by decide⟩

/-! ## No user key maps to an empty sub-table -/

theorem mem_of_mem_mapSet {κ ν : Type} [DecidableEq κ] (m : List (κ × ν)) (k : κ) (v : ν)
    (e : κ × ν) (he : e ∈ mapSet m k v) : e = (k, v) ∨ e ∈ m := by
  induction m with
  | nil =>
    simp only [mapSet, List.mem_singleton] at he
    exact Or.inl he
  | cons e1 rest ih =>
    obtain ⟨k1, v1⟩ := e1
    by_cases hk : k1 = k
    · simp only [mapSet, hk, if_true, List.mem_cons] at he
      rcases he with h | h
      · exact Or.inl h
      · exact Or.inr (List.mem_cons_of_mem _ h)
    · simp only [mapSet, hk, if_false, List.mem_cons] at he
      rcases he with h | h
      · exact Or.inr (by rw [h]; exact List.mem_cons_self _ _)
      · rcases ih h with h2 | h2
        · exact Or.inl h2
        · exact Or.inr (List.mem_cons_of_mem _ h2)

theorem mem_of_mem_mapDelete {κ ν : Type} [DecidableEq κ] (m : List (κ × ν)) (k : κ)
    (e : κ × ν) (he : e ∈ mapDelete m k) : e ∈ m := by
  induction m with
  | nil => simp [mapDelete] at he
  | cons e1 rest ih =>
    obtain ⟨k1, v1⟩ := e1
    by_cases hk : k1 = k
    · simp only [mapDelete, hk, if_true] at he
      exact List.mem_cons_of_mem _ (ih he)
    · simp only [mapDelete, hk, if_false, List.mem_cons] at he
      rcases he with h | h
      · rw [h]; exact List.mem_cons_self _ _
      · exact List.mem_cons_of_mem _ (ih h)

theorem mem_of_mapGet {κ ν : Type} [DecidableEq κ] (m : List (κ × ν)) (k : κ) (v : ν)
    (h : mapGet m k = some v) : (k, v) ∈ m := by
  induction m with
  | nil => simp [mapGet] at h
  | cons e1 rest ih =>
    obtain ⟨k1, v1⟩ := e1
    by_cases hk : k1 = k
    · simp only [mapGet, hk, if_true, Option.some.injEq] at h
      rw [hk, h]
      exact List.mem_cons_self _ _
    · simp only [mapGet, hk, if_false] at h
      exact List.mem_cons_of_mem _ (ih h)

theorem mapSet_ne_nil {κ ν : Type} [DecidableEq κ] (m : List (κ × ν)) (k : κ) (v : ν) :
    mapSet m k v ≠ [] := by
  cases m with
  | nil => simp [mapSet]
  | cons e1 rest =>
    obtain ⟨k1, v1⟩ := e1
    by_cases hk : k1 = k <;> simp [mapSet, hk]

theorem key_present_iff {ν : Type} (m : List (Int × List (Int × ν))) (a : Int)
    (hm : NoEmptySub m) : mapGet m a ≠ none ↔ ∃ b, mapGet2 m a b ≠ none := by
  unfold mapGet2
  cases hg : mapGet m a with
  | none => simp
  | some inner =>
    have hne := hm _ (mem_of_mapGet m a inner hg)
    simp only [ne_eq, not_false_eq_true, true_iff, reduceCtorEq]
    cases inner with
    | nil => exact absurd rfl hne
    | cons e rest =>
      obtain ⟨k1, v1⟩ := e
      exact ⟨k1, by simp [mapGet]⟩

theorem noEmptySub_mapSet2 {ν : Type} (m : List (Int × List (Int × ν))) (a b : Int) (v : ν)
    (hm : NoEmptySub m) : NoEmptySub (mapSet2 m a b v) := by
  intro e he
  unfold mapSet2 at he
  cases hg : mapGet m a with
  | none =>
    rw [hg] at he
    rcases mem_of_mem_mapSet _ _ _ _ he with h | h
    · rw [h]; exact mapSet_ne_nil _ _ _
    · exact hm e h
  | some inner =>
    rw [hg] at he
    rcases mem_of_mem_mapSet _ _ _ _ he with h | h
    · rw [h]; exact mapSet_ne_nil _ _ _
    · exact hm e h

theorem noEmptySub_mapDeleteIn {ν : Type} (m : List (Int × List (Int × ν))) (a b : Int)
    (inner : List (Int × ν)) (hm : NoEmptySub m) : NoEmptySub (mapDeleteIn m a inner b) := by
  intro e he
  unfold mapDeleteIn at he
  by_cases hlen : (mapDelete inner b).length = 0
  · rw [if_pos hlen] at he
    exact hm e (mem_of_mem_mapDelete _ _ _ he)
  · rw [if_neg hlen] at he
    rcases mem_of_mem_mapSet _ _ _ _ he with h | h
    · rw [h]
      intro hnil
      exact hlen (by rw [show (mapDelete inner b) = [] from hnil]; rfl)
    · exact hm e h

theorem noEmptySub_CancelTask (h : Heap) (tm : TaskManager) (u i : Int)
    (ht : NoEmptySub tm.tasks) (hq : NoEmptySub tm.queuedTasks) :
    NoEmptySub (CancelTask h tm u i).tm.tasks ∧
    NoEmptySub (CancelTask h tm u i).tm.queuedTasks := by
  unfold CancelTask
  split
  · split
    · exact ⟨noEmptySub_mapDeleteIn _ _ _ _ ht, hq⟩
    · exact ⟨ht, hq⟩
  · exact ⟨ht, hq⟩

theorem noEmptySub_mark (h : Heap) (tm : TaskManager) (u i : Int)
    (ht : NoEmptySub tm.tasks) (hq : NoEmptySub tm.queuedTasks) :
    NoEmptySub (CancelQueuedTask_mark h tm u i).2.1.tasks ∧
    NoEmptySub (CancelQueuedTask_mark h tm u i).2.1.queuedTasks := by
  unfold CancelQueuedTask_mark
  split
  · split
    · exact ⟨ht, noEmptySub_mapDeleteIn _ _ _ _ hq⟩
    · exact ⟨ht, hq⟩
  · exact ⟨ht, hq⟩

theorem noEmptySub_registryStep (s : Heap × TaskManager) (call : RegistryCall)
    (ht : NoEmptySub s.2.tasks) (hq : NoEmptySub s.2.queuedTasks) :
    NoEmptySub (registryStep s call).2.tasks ∧
    NoEmptySub (registryStep s call).2.queuedTasks := by
  cases call with
  | addTask u t => exact ⟨noEmptySub_mapSet2 _ _ _ _ ht, hq⟩
  | register p => exact ⟨noEmptySub_mapSet2 _ _ _ _ ht, hq⟩
  | removeTask u i =>
    simp only [registryStep, RemoveTask]
    split
    · exact ⟨noEmptySub_mapDeleteIn _ _ _ _ ht, hq⟩
    · exact ⟨ht, hq⟩
  | cancelTask u i => exact noEmptySub_CancelTask s.1 s.2 u i ht hq
  | enqueue p =>
    simp only [registryStep, EnqueueTask, chanSend, EnqueueTask_record]
    split
    · rename_i tm heq
      split at heq
      · cases heq
        exact ⟨ht, noEmptySub_mapSet2 _ _ _ _ hq⟩
      · cases heq
    · exact ⟨ht, noEmptySub_mapSet2 _ _ _ _ hq⟩
  | removeQueued u i =>
    simp only [registryStep, RemoveQueuedTask]
    split
    · exact ⟨ht, noEmptySub_mapDeleteIn _ _ _ _ hq⟩
    · exact ⟨ht, hq⟩
  | cancelQueued u i =>
    have hm := noEmptySub_mark s.1 s.2 u i ht hq
    simp only [registryStep, CancelQueuedTask]
    split
    · exact noEmptySub_CancelTask _ _ u i hm.1 hm.2
    · exact hm

theorem noEmptySub_registryRun (calls : List RegistryCall) :
    ∀ s : Heap × TaskManager, NoEmptySub s.2.tasks → NoEmptySub s.2.queuedTasks →
      NoEmptySub (registryRun s calls).2.tasks ∧
      NoEmptySub (registryRun s calls).2.queuedTasks := by
  induction calls with
  | nil => intro s ht hq; exact ⟨ht, hq⟩
  | cons call rest ih =>
    intro s ht hq
    have h := noEmptySub_registryStep s call ht hq
    exact ih (registryStep s call) h.1 h.2

/-- The registration step of the queue worker is `registerTask`. -/
theorem worker_register_is_registerTask (b : Bot) (p : QueuedPtr) :
    (workerStep b (Worker.entering p) WorkerEvent.register).map
        (fun r => (r.1.heap, r.1.taskManager))
      = some (registerTask b.heap b.taskManager p) := rfl

/-- Claim C20: in every state reached from `NewTaskManager` by calls of `AddTask`,
the registration of the executor, `RemoveTask`, `CancelTask`, `EnqueueTask`,
`RemoveQueuedTask` and `CancelQueuedTask`, every sub-table stored in the
active-task table or in the queued-lookup table is non-empty; so a user whose
last entry was removed has no sub-table: a user key is present exactly when the
user has an entry. -/
theorem no_user_maps_to_empty_subtable (h0 : Heap) (calls : List RegistryCall) :
    NoEmptySub (registryRun (h0, NewTaskManager) calls).2.tasks ∧
    NoEmptySub (registryRun (h0, NewTaskManager) calls).2.queuedTasks ∧
    (∀ userID : Int,
      (mapGet (registryRun (h0, NewTaskManager) calls).2.tasks userID ≠ none ↔
        ∃ taskID, GetTask (registryRun (h0, NewTaskManager) calls).2 userID taskID ≠ none) ∧
      (mapGet (registryRun (h0, NewTaskManager) calls).2.queuedTasks userID ≠ none ↔
        ∃ taskID,
          GetQueuedTask (registryRun (h0, NewTaskManager) calls).2 userID taskID ≠ none)) := by
  have h := noEmptySub_registryRun calls (h0, NewTaskManager)
    (by intro e he; simp [NewTaskManager] at he) (by intro e he; simp [NewTaskManager] at he)
  refine ⟨h.1, h.2, ?_⟩
  intro userID
  constructor
  · exact key_present_iff _ userID h.1
  · exact key_present_iff _ userID h.2

/-- A run that adds a task of user 7 and removes it again leaves no sub-table
for user 7, and a second user keeps a sub-table of one entry. -/
theorem registry_example :
    (registryRun (default, NewTaskManager)
      [RegistryCall.addTask 7 0, RegistryCall.addTask 8 1, RegistryCall.removeTask 7 1]).2.tasks
      = [(8, [(1, 1)])] := by
  decide

/-! ## The rendered line -/

theorem digitChar_ne_newline (d : Nat) (hd : d < 10) : (Nat.digitChar d).toNat ≠ 10 := by
  interval_cases d <;> decide

theorem toDigitsCore_no_newline (fuel : Nat) :
    ∀ (n : Nat) (ds : List Char), (∀ c ∈ ds, c.toNat ≠ 10) →
      ∀ c ∈ Nat.toDigitsCore 10 fuel n ds, c.toNat ≠ 10 := by
  induction fuel with
  | zero => intro n ds hds c hc; exact hds c hc
  | succ fuel ih =>
    intro n ds hds c hc
    have hcons : ∀ c ∈ Nat.digitChar (n % 10) :: ds, c.toNat ≠ 10 := by
      intro c hc
      rcases List.mem_cons.1 hc with h | h
      · rw [h]; exact digitChar_ne_newline _ (Nat.mod_lt _ (by decide))
      · exact hds c h
    simp only [Nat.toDigitsCore] at hc
    split at hc
    · exact hcons c hc
    · exact ih _ _ hcons c hc

theorem itoa_no_newline (n : Int) : 10 ∉ itoa n := by
  have hd : 10 ∉ (Nat.toDigits 10 n.natAbs).map Char.toNat := by
    intro hmem
    obtain ⟨c, hc, hc10⟩ := List.mem_map.1 hmem
    exact toDigitsCore_no_newline _ _ [] (by simp) c hc hc10
  unfold itoa
  split
  · intro hmem
    rcases List.mem_cons.1 hmem with h | h
    · exact absurd h (by decide)
    · exact hd h
  · exact hd

theorem splitLinesAux_no_newline (s : GoString) :
    ∀ cur : GoString, 10 ∉ cur → ∀ seg ∈ splitLinesAux cur s, 10 ∉ seg := by
  induction s with
  | nil =>
    intro cur hcur seg hseg
    simp only [splitLinesAux, List.mem_singleton] at hseg
    rw [hseg]
    simpa using hcur
  | cons b rest ih =>
    intro cur hcur seg hseg
    by_cases hb : b = 10
    · simp only [splitLinesAux, hb, if_true, List.mem_cons] at hseg
      rcases hseg with h | h
      · rw [h]; simpa using hcur
      · exact ih [] (by simp) seg h
    · simp only [splitLinesAux, hb, if_false] at hseg
      refine ih (b :: cur) ?_ seg hseg
      intro hmem
      rcases List.mem_cons.1 hmem with h | h
      · exact hb h.symm
      · exact hcur h

theorem splitLines_no_newline (s : GoString) : ∀ seg ∈ splitLines s, 10 ∉ seg :=
  splitLinesAux_no_newline s [] (by simp)

theorem splitLinesAux_ne_nil (s : GoString) : ∀ cur : GoString, splitLinesAux cur s ≠ [] := by
  induction s with
  | nil => intro cur; simp [splitLinesAux]
  | cons b rest ih =>
    intro cur
    by_cases hb : b = 10
    · simp [splitLinesAux, hb]
    · simp only [splitLinesAux, hb, if_false]
      exact ih _

theorem mem_of_mem_trimSpace (s : GoString) (x : Nat) (hx : x ∈ trimSpace s) : x ∈ s := by
  obtain ⟨pre1, hpre1⟩ := dropWhileWidth_suffix (runeWidth spaceRunes) s.length s
  obtain ⟨pre2, hpre2⟩ := dropWhileWidth_suffix (runeWidthRev spaceRunes) s.length
    (dropWhileWidth (runeWidth spaceRunes) s.length s).reverse
  unfold trimSpace at hx
  rw [List.mem_reverse] at hx
  have h2 : x ∈ (dropWhileWidth (runeWidth spaceRunes) s.length s).reverse := by
    rw [hpre2]
    exact List.mem_append_right _ hx
  rw [List.mem_reverse] at h2
  rw [hpre1]
  exact List.mem_append_right _ h2

theorem selectProgress_no_newline (s : GoString) : 10 ∉ selectProgress s := by
  unfold selectProgress
  split
  · rename_i l hf
    have hmem := List.mem_of_find?_eq_some hf
    obtain ⟨seg, hseg, hl⟩ := List.mem_map.1 hmem
    rw [← hl]
    intro h10
    exact splitLines_no_newline s seg (List.mem_reverse.1 hseg) (mem_of_mem_trimSpace _ _ h10)
  · split
    · rename_i l hf
      have hmem := List.mem_of_find?_eq_some hf
      obtain ⟨seg, hseg, hl⟩ := List.mem_map.1 hmem
      rw [← hl]
      intro h10
      exact splitLines_no_newline s seg hseg (mem_of_mem_trimSpace _ _ h10)
    · cases hs : splitLines s with
      | nil => simp
      | cons seg rest =>
        simp only [List.headD_cons]
        exact splitLines_no_newline s seg (by rw [hs]; exact List.mem_cons_self _ _)

theorem truncateProgress_no_newline (p : GoString) (hp : 10 ∉ p) : 10 ∉ truncateProgress p := by
  unfold truncateProgress
  split
  · intro hmem
    rcases List.mem_append.1 hmem with h | h
    · exact hp (List.mem_of_mem_take h)
    · exact absurd h (by decide)
  · exact hp

/-- Claim C13: for every queued item whose link contains no line break and every
status text, `formatLine` renders `"[#<TaskID>] <Link> — <excerpt>"` with an
excerpt free of line breaks, prefixed with `"<Index+1>. "` when `includeIndex` is
set, and the rendered text contains no `"\n"`. -/
theorem formatLine_is_one_line (q : QueuedTask) (status : GoString) (hlink : 10 ∉ q.Link) :
    ∃ excerpt : GoString, 10 ∉ excerpt ∧
      formatLine q status false
        = utf8 "[#" ++ itoa q.TaskID ++ utf8 "] " ++ q.Link ++ utf8 " — " ++ excerpt ∧
      formatLine q status true
        = itoa (q.Index + 1) ++ utf8 ". " ++
          (utf8 "[#" ++ itoa q.TaskID ++ utf8 "] " ++ q.Link ++ utf8 " — " ++ excerpt) ∧
      ∀ includeIndex : Bool, 10 ∉ formatLine q status includeIndex := by
  have hex : 10 ∉ truncateProgress (selectProgress (stripTaskTag q.TaskID status)) :=
    truncateProgress_no_newline _ (selectProgress_no_newline _)
  have hbase : 10 ∉ utf8 "[#" ++ itoa q.TaskID ++ utf8 "] " ++ q.Link ++ utf8 " — " ++
      truncateProgress (selectProgress (stripTaskTag q.TaskID status)) := by
    have h1 : 10 ∉ utf8 "[#" := by decide
    have h2 : 10 ∉ utf8 "] " := by decide
    have h3 : 10 ∉ utf8 " — " := by decide
    simp only [List.mem_append, not_or]
    exact ⟨⟨⟨⟨⟨h1, itoa_no_newline _⟩, h2⟩, hlink⟩, h3⟩, hex⟩
  refine ⟨truncateProgress (selectProgress (stripTaskTag q.TaskID status)), hex, rfl, rfl, ?_⟩
  intro includeIndex
  cases includeIndex with
  | false => exact hbase
  | true =>
    have h4 : 10 ∉ utf8 ". " := by decide
    show 10 ∉ itoa (q.Index + 1) ++ utf8 ". " ++ _
    simp only [List.mem_append, not_or] at hbase ⊢
    exact ⟨⟨itoa_no_newline _, h4⟩, hbase⟩

/-- Witness for C13: a row of a shared message with a status of three lines. -/
theorem formatLine_is_one_line_witness :
    10 ∉ exampleItem.Link ∧
    10 ∉ formatLine exampleItem (utf8 "下载中\nhttps://t.me/a/1\n50% done") true :=
  ⟨by decide,
   (formatLine_is_one_line exampleItem (utf8 "下载中\nhttps://t.me/a/1\n50% done")
      (by decide)).elim (fun _ h => h.2.2.2 true)⟩

/-- The rendering of a status of three lines: the last line that is no link. -/
theorem formatLine_example :
    formatLine exampleItem (utf8 "下载中\nhttps://t.me/a/1\n50% done") true
      = utf8 "1. [#1] https://t.me/a/1 — 50% done" := by
  decide

theorem indexOf_of_not_contains (s sub : GoString) (hno : contains s sub = false) :
    indexOf s sub = none := by
  induction s with
  | nil =>
    simp only [contains] at hno
    simp [indexOf, hno]
  | cons b rest ih =>
    simp only [contains, Bool.or_eq_false_iff] at hno
    simp [indexOf, hno.1, ih hno.2]

theorem stripTaskTag_of_not_contains (taskID : Int) (status : GoString)
    (hno : contains status (utf8 "任务 #" ++ itoa taskID) = false) :
    stripTaskTag taskID status = status := by
  simp [stripTaskTag, indexOf_of_not_contains _ _ hno]

theorem find_in_reverse {α β : Type} (p : β → Bool) (f : α → β) (r : List α) :
    match (r.map f).find? p with
    | some x => ∃ pre seg post, r.reverse = pre ++ seg :: post ∧ x = f seg ∧
        p (f seg) = true ∧ ∀ s ∈ post, p (f s) = false
    | none => ∀ s ∈ r.reverse, p (f s) = false := by
  induction r with
  | nil => simp
  | cons a r ih =>
    by_cases hp : p (f a) = true
    · simp only [List.map_cons, List.find?_cons_of_pos _ hp]
      exact ⟨r.reverse, a, [], by simp, rfl, hp, by simp⟩
    · simp only [List.map_cons, List.find?_cons_of_neg _ hp]
      cases hf : (r.map f).find? p with
      | none =>
        rw [hf] at ih
        intro s hs
        simp only [List.reverse_cons, List.mem_append, List.mem_singleton] at hs
        rcases hs with h | h
        · exact ih s h
        · rw [h]; simpa using hp
      | some x =>
        rw [hf] at ih
        obtain ⟨pre, seg, post, hr, hx, hseg, hpost⟩ := ih
        refine ⟨pre, seg, post ++ [a], ?_, hx, hseg, ?_⟩
        · simp [hr]
        · intro s hs
          rcases List.mem_append.1 hs with h | h
          · exact hpost s h
          · rw [List.mem_singleton.1 h]; simpa using hp

theorem isCandidate_iff (l : GoString) :
    isCandidate l = true ↔
      l ≠ [] ∧ contains l (utf8 "http") = false ∧ contains (toLower l) (utf8 "t.me") = false := by
  simp [isCandidate, looksLikeLink]

/-- Claim C14: for a status text that does not contain `"任务 #<id>"`, the excerpt
that `formatLine` truncates and renders is the trimmed form of the last segment
of the text split on `"\n"` whose trimmed form is non-empty and contains neither
`"http"` nor, after lowering, `"t.me"`; when no segment is of this kind (so that
there is no first one either) it is the raw first line of the text. -/
theorem excerpt_is_last_plain_segment (q : QueuedTask) (status : GoString)
    (hno : contains status (utf8 "任务 #" ++ itoa q.TaskID) = false) :
    ∃ excerpt : GoString,
      (∀ includeIndex : Bool, formatLine q status includeIndex
        = (if includeIndex then itoa (q.Index + 1) ++ utf8 ". " else []) ++
          (utf8 "[#" ++ itoa q.TaskID ++ utf8 "] " ++ q.Link ++ utf8 " — " ++
            truncateProgress excerpt)) ∧
      ((∃ pre seg post, splitLines status = pre ++ seg :: post ∧
          (trimSpace seg ≠ [] ∧ contains (trimSpace seg) (utf8 "http") = false ∧
            contains (toLower (trimSpace seg)) (utf8 "t.me") = false) ∧
          (∀ s ∈ post, ¬ (trimSpace s ≠ [] ∧ contains (trimSpace s) (utf8 "http") = false ∧
            contains (toLower (trimSpace s)) (utf8 "t.me") = false)) ∧
          excerpt = trimSpace seg) ∨
       ((∀ s ∈ splitLines status,
          ¬ (trimSpace s ≠ [] ∧ contains (trimSpace s) (utf8 "http") = false ∧
            contains (toLower (trimSpace s)) (utf8 "t.me") = false)) ∧
        ∃ rest, splitLines status = excerpt :: rest)) := by
  refine ⟨selectProgress status, ?_, ?_⟩
  · intro includeIndex
    cases includeIndex <;>
      simp [formatLine, stripTaskTag_of_not_contains _ _ hno]
  · have hlast := find_in_reverse isCandidate trimSpace (splitLines status).reverse
    rw [List.reverse_reverse] at hlast
    cases hf : ((splitLines status).reverse.map trimSpace).find? isCandidate with
    | some x =>
      rw [hf] at hlast
      obtain ⟨pre, seg, post, hr, hx, hseg, hpost⟩ := hlast
      left
      refine ⟨pre, seg, post, hr, (isCandidate_iff _).1 hseg, ?_, ?_⟩
      · intro s hs hcand
        have := hpost s hs
        rw [(isCandidate_iff _).2 hcand] at this
        exact absurd this (by decide)
      · unfold selectProgress
        rw [hf]
        exact hx
    | none =>
      rw [hf] at hlast
      right
      have hnone : ∀ s ∈ splitLines status, isCandidate (trimSpace s) = false := hlast
      have hfwd : ((splitLines status).map trimSpace).find? isCandidate = none := by
        rw [List.find?_eq_none]
        intro x hx
        obtain ⟨s, hs, hsx⟩ := List.mem_map.1 hx
        rw [← hsx, hnone s hs]
        decide
      refine ⟨?_, ?_⟩
      · intro s hs hcand
        have := hnone s hs
        rw [(isCandidate_iff _).2 hcand] at this
        exact absurd this (by decide)
      · simp only [selectProgress, hf, hfwd]
        cases hs : splitLines status with
        | nil => exact absurd hs (splitLinesAux_ne_nil status [])
        | cons first rest => exact ⟨rest, rfl⟩

/-- Witness for C14: the status `" 50% \nhttps://t.me/a/1"` does not name task 1;
its last segment is a link, so the excerpt is `"50%"`, the trimmed first one. -/
theorem excerpt_is_last_plain_segment_witness :
    contains (utf8 " 50% \nhttps://t.me/a/1") (utf8 "任务 #" ++ itoa exampleItem.TaskID) = false ∧
    ∃ excerpt : GoString,
      formatLine exampleItem (utf8 " 50% \nhttps://t.me/a/1") false
        = utf8 "[#" ++ itoa exampleItem.TaskID ++ utf8 "] " ++ exampleItem.Link ++ utf8 " — " ++
            truncateProgress excerpt :=
  ⟨by decide,
   (excerpt_is_last_plain_segment exampleItem (utf8 " 50% \nhttps://t.me/a/1")
      (by decide)).elim (fun e h => ⟨e, h.1 false⟩)⟩

/-- The excerpts of three status texts: the last plain segment in trimmed form,
the segment before a trailing link, and the raw first line when every segment is
blank or a link. -/
theorem excerpt_examples :
    selectProgress (utf8 "a\n  b  \n") = utf8 "b" ∧
    selectProgress (utf8 " 50% \nhttps://t.me/a/1") = utf8 "50%" ∧
    selectProgress (utf8 " https://t.me/a/1 \nHTTPS://T.ME/b") = utf8 " https://t.me/a/1 " := by
  refine ⟨?_, ?_, ?_⟩ <;> decide

/-! ## Cancellation seen from the executor -/

/-- Claim C11 fails on the code: along `cancelThenLinesRun` the press of the
cancel button removes task (7, 1) from the active-task table; the login-prompt
line read next is answered with the login notice and its cancel button and the
executor stays in the line loop, and so it does after the `[QRCODE]` line; only
after the third line, a `[STATUS]` line whose text it has stored, does it report
the terminated status and leave the loop. -/
theorem login_lines_skip_the_cancellation_check :
    (run NewBot (cancelThenLinesRun.take 10)).map
        (fun b => GetTask b.taskManager 7 1) = some none ∧
    (run NewBot (cancelThenLinesRun.take 11)).map
        (fun b => b.workers.map Worker.inLineLoop) = some [true] ∧
    (run NewBot (cancelThenLinesRun.take 11)).map (fun b => b.log.getLast?)
      = some (some (Effect.edit 100 50 (qrMessage 1) (some (cancelKeyboard 7 1)))) ∧
    (run NewBot (cancelThenLinesRun.take 12)).map
        (fun b => b.workers.map Worker.inLineLoop) = some [true] ∧
    (run NewBot (cancelThenLinesRun.take 12)).map (fun b => b.log.getLast?)
      = some (some (Effect.edit 100 50 (qrLinkMessage 1 (utf8 "tg://login?token=x"))
          (some (cancelKeyboard 7 1)))) ∧
    (run NewBot (cancelThenLinesRun.take 12)).map
        (fun b => GetTask b.taskManager 7 1) = some none ∧
    (run NewBot cancelThenLinesRun).map
        (fun b => b.workers.map Worker.inLineLoop) = some [false] ∧
    (run NewBot cancelThenLinesRun).map
        (fun b => b.workers.map (fun w => w.exec?.map (fun ex => ex.currentStatus)))
      = some [some (utf8 "50%")] ∧
    (run NewBot cancelThenLinesRun).map (fun b => b.log.getLast?)
      = some (some (Effect.edit 100 50 (utf8 "❌ 任务 #1 已被用户终止") none)) := by
  refine ⟨?_, ?_, ?_, ?_, ?_, ?_, ?_, ?_, ?_⟩ <;> decide

/-- Claim C12 fails on the code: along `cancelThenEofRun` the running task (7, 1)
is cancelled with `CancelTask` (context cancelled, process group killed, entry
removed), the handler shows a cancellation text, and the output ends with no
further line; the terminal status is the generic failure text and the line
rendered last for the task reads "执行失败". -/
theorem cancelled_run_is_reported_as_failure :
    (run NewBot (cancelThenEofRun.take 10)).map
        (fun b => GetTask b.taskManager 7 1) = some none ∧
    (run NewBot (cancelThenEofRun.take 10)).map (fun b => b.log.drop 2)
      = some [Effect.cancelCtx 0, Effect.kill (-4242) Signal.SIGTERM, Effect.sleep 500,
          Effect.kill (-4242) Signal.SIGKILL,
          Effect.edit 100 50 (utf8 "❌ 任务 #1 已从队列中取消") none, Effect.answer [] false] ∧
    (run NewBot (cancelThenEofRun.take 10)).map
        (fun b => b.workers.map (fun w => w.exec?.map (fun ex =>
          finalStatus ex.taskID true false ex.statusSeen ex.currentStatus)))
      = some [some (utf8 "⚠️ 任务 #1 执行失败")] ∧
    (run NewBot cancelThenEofRun).map (fun b => b.log.getLast?)
      = some (some (Effect.edit 100 50 (utf8 "[#1] https://t.me/a/1 — 执行失败") none)) := by
  refine ⟨?_, ?_, ?_, ?_⟩ <;> decide

/-! ## The excerpt is cut by bytes, the task tag is found anywhere -/

set_option maxRecDepth 20000 in
/-- Claim C15 fails on the code: a status of 100 Chinese characters is one
segment of 300 bytes; `formatLine` does not render it unchanged but keeps 200
bytes, that is 66 characters and the first two bytes `E4 B8` of the 67th, and
appends `"..."`. -/
theorem excerpt_is_cut_inside_a_character :
    hundredHan.length = 300 ∧
    selectProgress (stripTaskTag exampleItem.TaskID hundredHan) = hundredHan ∧
    formatLine exampleItem hundredHan false
      = utf8 "[#1] https://t.me/a/1 — " ++ (List.replicate 66 (utf8 "中")).flatten ++
          [0xE4, 0xB8] ++ utf8 "..." := by
  refine ⟨?_, ?_, ?_⟩ <;> decide

/-- Claim C19 fails on the code: for task 1 the status `"任务 #12 已完成"`, which
names task 12, loses `"任务 #1"` and is rendered as `"2 已完成"`; and in the status
`"下载 50% 任务 #1 - 处理中"` the text before the tag is dropped from the material
the excerpt is chosen from. -/
theorem task_tag_is_removed_anywhere :
    exampleItem.TaskID = 1 ∧
    stripTaskTag 1 (utf8 "任务 #12 已完成") = utf8 "2 已完成" ∧
    formatLine exampleItem (utf8 "任务 #12 已完成") false
      = utf8 "[#1] https://t.me/a/1 — 2 已完成" ∧
    stripTaskTag 1 (utf8 "下载 50% 任务 #1 - 处理中") = utf8 "处理中" ∧
    formatLine exampleItem (utf8 "下载 50% 任务 #1 - 处理中") false
      = utf8 "[#1] https://t.me/a/1 — 处理中" := by
  refine ⟨?_, ?_, ?_, ?_, ?_⟩ <;> decide

/-! ## The rows of a new summary -/

theorem isPrefixOf_append_of_le (c : GoString) :
    ∀ (p s : GoString), c.length ≤ p.length → c.isPrefixOf (p ++ s) = c.isPrefixOf p := by
  induction c with
  | nil => intro p s _; simp
  | cons a c ih =>
    intro p s hlen
    cases p with
    | nil => simp at hlen
    | cons b p =>
      have h := ih p s (by simpa using hlen)
      simp only [List.cons_append, List.isPrefixOf]
      show (a == b && c.isPrefixOf (p ++ s)) = (a == b && c.isPrefixOf p)
      rw [h]

theorem find?_congr_mem {α : Type} (l : List α) (p q : α → Bool)
    (h : ∀ x ∈ l, p x = q x) : l.find? p = l.find? q := by
  induction l with
  | nil => rfl
  | cons a l ih =>
    simp only [List.find?_cons, h a (List.mem_cons_self _ _)]
    rw [ih (fun x hx => h x (List.mem_cons_of_mem _ hx))]

theorem runeWidth_append (runes : List Nat) (p s : GoString)
    (hlen : ∀ c ∈ runes.map utf8Char, c.length ≤ p.length) :
    runeWidth runes (p ++ s) = runeWidth runes p := by
  unfold runeWidth
  have h := find?_congr_mem (runes.map utf8Char) (fun c => c.isPrefixOf (p ++ s))
    (fun c => c.isPrefixOf p) (fun c hc => isPrefixOf_append_of_le c p s (hlen c hc))
  rw [h]

theorem runeWidthRev_append (runes : List Nat) (p s : GoString)
    (hlen : ∀ c ∈ runes.map utf8Char, c.length ≤ p.length) :
    runeWidthRev runes (p ++ s) = runeWidthRev runes p := by
  unfold runeWidthRev
  have h := find?_congr_mem (runes.map utf8Char) (fun c => c.reverse.isPrefixOf (p ++ s))
    (fun c => c.reverse.isPrefixOf p)
    (fun c hc => isPrefixOf_append_of_le c.reverse p s (by simpa using hlen c hc))
  rw [h]

theorem dropWhileWidth_nil (w : GoString → Nat) (n : Nat) : dropWhileWidth w n [] = [] := by
  induction n with
  | zero => rfl
  | succ n ih =>
    simp only [dropWhileWidth, List.drop_nil, ih]
    split <;> rfl

theorem dropWhileWidth_fuel (w : GoString → Nat) (n : Nat) :
    ∀ (m : Nat) (x : GoString), x.length ≤ n → x.length ≤ m →
      dropWhileWidth w n x = dropWhileWidth w m x := by
  induction n with
  | zero =>
    intro m x hn _
    have hx : x = [] := List.length_eq_zero.mp (Nat.le_zero.mp hn)
    subst hx
    rw [dropWhileWidth_nil, dropWhileWidth_nil]
  | succ n ih =>
    intro m x hn hm
    cases m with
    | zero =>
      have hx : x = [] := List.length_eq_zero.mp (Nat.le_zero.mp hm)
      subst hx
      rw [dropWhileWidth_nil, dropWhileWidth_nil]
    | succ m =>
      by_cases h0 : w x = 0
      · simp [dropWhileWidth, h0]
      · simp only [dropWhileWidth, h0, if_false]
        have hlen : (x.drop (w x)).length ≤ x.length - 1 := by
          rw [List.length_drop]
          omega
        exact ih m _ (by omega) (by omega)

theorem dropWhileWidth_step (w : GoString → Nat) (x : GoString) (k : Nat)
    (hk : w x = k) (hpos : k ≠ 0) :
    dropWhileWidth w x.length x = dropWhileWidth w (x.drop k).length (x.drop k) := by
  cases hx : x.length with
  | zero =>
    have hnil : x = [] := List.length_eq_zero.mp hx
    subst hnil
    simp [dropWhileWidth_nil]
  | succ n =>
    have hne : w x ≠ 0 := by rw [hk]; exact hpos
    simp only [dropWhileWidth, hne, if_false]
    rw [hk]
    have hlen : (x.drop k).length ≤ n := by
      rw [List.length_drop]
      omega
    exact dropWhileWidth_fuel w n _ _ hlen (le_refl _)

theorem trimLeftCutset_step (x : GoString) (k : Nat)
    (hk : runeWidth cutsetRunes x = k) (hpos : k ≠ 0) :
    trimLeftCutset x = trimLeftCutset (x.drop k) :=
  dropWhileWidth_step _ x k hk hpos

theorem trimLeftCutset_stop (x : GoString) (hk : runeWidth cutsetRunes x = 0) :
    trimLeftCutset x = x :=
  dropWhileWidth_of_zero _ _ x hk

theorem trimSpace_of_clean (x : GoString) (hl : runeWidth spaceRunes x = 0)
    (hr : runeWidthRev spaceRunes x.reverse = 0) : trimSpace x = x := by
  unfold trimSpace
  rw [dropWhileWidth_of_zero _ _ x hl, dropWhileWidth_of_zero _ _ _ hr, List.reverse_reverse]

theorem trimSpace_step (x : GoString) (k : Nat)
    (hk : runeWidth spaceRunes x = k) (hpos : k ≠ 0) :
    trimSpace x = trimSpace (x.drop k) := by
  unfold trimSpace
  rw [dropWhileWidth_step _ x k hk hpos]
  obtain ⟨pre, hpre⟩ := dropWhileWidth_suffix (runeWidth spaceRunes) (x.drop k).length (x.drop k)
  have hlen1 : (dropWhileWidth (runeWidth spaceRunes) (x.drop k).length (x.drop k)).length
      ≤ (x.drop k).length := by
    have := congrArg List.length hpre
    rw [List.length_append] at this
    omega
  have hlen2 : (x.drop k).length ≤ x.length := by
    rw [List.length_drop]
    omega
  rw [dropWhileWidth_fuel _ x.length (x.drop k).length _
    (by rw [List.length_reverse]; omega) (by rw [List.length_reverse]; omega)]

theorem splitLinesAux_of_no_newline (t : GoString) (ht : 10 ∉ t) :
    ∀ cur : GoString, splitLinesAux cur t = [cur.reverse ++ t] := by
  induction t with
  | nil => intro cur; simp [splitLinesAux]
  | cons b t ih =>
    intro cur
    have hb : b ≠ 10 := by
      intro h
      exact ht (by rw [h]; exact List.mem_cons_self _ _)
    simp only [splitLinesAux, hb, if_false]
    rw [ih (fun h => ht (List.mem_cons_of_mem _ h))]
    simp

theorem splitLinesAux_append (a t : GoString) :
    ∀ cur : GoString,
      splitLinesAux cur (a ++ 10 :: t) = splitLinesAux cur a ++ splitLinesAux [] t := by
  induction a with
  | nil => intro cur; simp [splitLinesAux]
  | cons b a ih =>
    intro cur
    by_cases hb : b = 10
    · simp [splitLinesAux, hb, ih]
    · simp [splitLinesAux, hb, ih]

theorem selectProgress_last (a t : GoString) (ht : 10 ∉ t)
    (hcand : isCandidate (trimSpace t) = true) :
    selectProgress (a ++ 10 :: t) = trimSpace t := by
  have hs : splitLines (a ++ 10 :: t) = splitLines a ++ [t] := by
    unfold splitLines
    rw [splitLinesAux_append, splitLinesAux_of_no_newline t ht]
    simp
  unfold selectProgress
  rw [hs]
  simp [List.find?_cons_of_pos, hcand]

theorem indexOf_skip (b : Nat) (rest sub : GoString)
    (h : startsWith (b :: rest) sub = false) :
    indexOf (b :: rest) sub = (indexOf rest sub).map (fun i => i + 1) := by
  simp [indexOf, h]

theorem indexOf_self_append (b : Nat) (sub rest : GoString) :
    indexOf (b :: sub ++ rest) (b :: sub) = some 0 := by
  have h : startsWith (b :: (sub ++ rest)) (b :: sub) = true := by
    simp [startsWith, List.isPrefixOf]
  simp [indexOf, h]

theorem spaceRunes_width : ∀ c ∈ spaceRunes.map utf8Char, c.length ≤ 3 := by decide

theorem cutsetRunes_width : ∀ c ∈ cutsetRunes.map utf8Char, c.length ≤ 3 := by decide

theorem runeWidth_three (runes : List Nat) (hw : ∀ c ∈ runes.map utf8Char, c.length ≤ 3)
    (a b c : Nat) (rest : GoString) :
    runeWidth runes (a :: b :: c :: rest) = runeWidth runes [a, b, c] :=
  runeWidth_append runes [a, b, c] rest hw

theorem clean_right (p tail : GoString) (h3 : 3 ≤ tail.length)
    (hrev : runeWidthRev spaceRunes tail.reverse = 0) :
    runeWidthRev spaceRunes (p ++ 10 :: tail).reverse = 0 := by
  have hr : (p ++ 10 :: tail).reverse = tail.reverse ++ (10 :: p.reverse) := by simp
  rw [hr, runeWidthRev_append spaceRunes tail.reverse _
    (fun c hc => le_trans (spaceRunes_width c hc) (by simpa using h3))]
  exact hrev

theorem stripTaskTag_queue_line (taskID : Int) (link tail : GoString) (h3 : 3 ≤ tail.length)
    (hrev : runeWidthRev spaceRunes tail.reverse = 0) :
    stripTaskTag taskID
        (utf8 "⏳ 任务 #" ++ itoa taskID ++ utf8 " - 已加入队列\n" ++ link ++ 10 :: tail)
      = utf8 "已加入队列\n" ++ link ++ 10 :: tail := by
  have hhead : utf8 "⏳ 任务 #" = 226 :: 143 :: 179 :: 32 :: utf8 "任务 #" := by decide
  have htag : utf8 "任务 #" = 228 :: [187, 187, 229, 138, 161, 32, 35] := by decide
  have hsep : utf8 " - 已加入队列\n" = 32 :: 45 :: 32 :: 229 :: 183 :: 178 :: utf8 "加入队列\n" := by
    decide
  have hout : utf8 "已加入队列\n" = 229 :: 183 :: 178 :: utf8 "加入队列\n" := by decide
  have hstatus : utf8 "⏳ 任务 #" ++ itoa taskID ++ utf8 " - 已加入队列\n" ++ link ++ 10 :: tail
      = 226 :: 143 :: 179 :: 32 :: ((utf8 "任务 #" ++ itoa taskID) ++
          (utf8 " - 已加入队列\n" ++ link ++ 10 :: tail)) := by
    rw [hhead]
    simp [List.append_assoc]
  have hno : ∀ (x : Nat) (r : GoString), x ≠ 228 →
      startsWith (x :: r) (utf8 "任务 #" ++ itoa taskID) = false := by
    intro x r hx
    rw [htag]
    simp [startsWith, List.isPrefixOf, Ne.symm hx]
  have hidx : indexOf (utf8 "⏳ 任务 #" ++ itoa taskID ++ utf8 " - 已加入队列\n" ++ link ++ 10 :: tail)
      (utf8 "任务 #" ++ itoa taskID) = some 4 := by
    rw [hstatus, indexOf_skip _ _ _ (hno _ _ (by decide)), indexOf_skip _ _ _ (hno _ _ (by decide)),
      indexOf_skip _ _ _ (hno _ _ (by decide)), indexOf_skip _ _ _ (hno _ _ (by decide))]
    have hself : indexOf ((utf8 "任务 #" ++ itoa taskID) ++
        (utf8 " - 已加入队列\n" ++ link ++ 10 :: tail)) (utf8 "任务 #" ++ itoa taskID) = some 0 := by
      rw [htag]
      exact indexOf_self_append 228 _ _
    rw [hself]
    rfl
  have hdrop : (utf8 "⏳ 任务 #" ++ itoa taskID ++ utf8 " - 已加入队列\n" ++ link ++ 10 :: tail).drop
      (4 + (utf8 "任务 #" ++ itoa taskID).length)
      = 32 :: 45 :: 32 :: 229 :: 183 :: 178 :: (utf8 "加入队列\n" ++ link ++ 10 :: tail) := by
    rw [hstatus, hsep, Nat.add_comm]
    simp [List.drop_append]
  have hclean : ∀ p : GoString, runeWidthRev spaceRunes
      (p ++ (utf8 "加入队列\n" ++ link ++ 10 :: tail)).reverse = 0 := by
    intro p
    have := clean_right (p ++ (utf8 "加入队列\n" ++ link)) tail h3 hrev
    simpa [List.append_assoc] using this
  have hR1 : trimSpace (32 :: 45 :: 32 :: 229 :: 183 :: 178 ::
      (utf8 "加入队列\n" ++ link ++ 10 :: tail))
      = 45 :: 32 :: 229 :: 183 :: 178 :: (utf8 "加入队列\n" ++ link ++ 10 :: tail) := by
    rw [trimSpace_step _ 1 (by rw [runeWidth_three _ spaceRunes_width]; decide) (by decide)]
    simp only [List.drop_succ_cons, List.drop_zero]
    exact trimSpace_of_clean _ (by rw [runeWidth_three _ spaceRunes_width]; decide)
      (hclean [45, 32, 229, 183, 178])
  have hR2 : trimLeftCutset (45 :: 32 :: 229 :: 183 :: 178 ::
      (utf8 "加入队列\n" ++ link ++ 10 :: tail))
      = 229 :: 183 :: 178 :: (utf8 "加入队列\n" ++ link ++ 10 :: tail) := by
    rw [trimLeftCutset_step _ 1 (by rw [runeWidth_three _ cutsetRunes_width]; decide) (by decide)]
    simp only [List.drop_succ_cons, List.drop_zero]
    rw [trimLeftCutset_step _ 1 (by rw [runeWidth_three _ cutsetRunes_width]; decide) (by decide)]
    simp only [List.drop_succ_cons, List.drop_zero]
    exact trimLeftCutset_stop _ (by rw [runeWidth_three _ cutsetRunes_width]; decide)
  have hR3 : trimSpace (229 :: 183 :: 178 :: (utf8 "加入队列\n" ++ link ++ 10 :: tail))
      = 229 :: 183 :: 178 :: (utf8 "加入队列\n" ++ link ++ 10 :: tail) :=
    trimSpace_of_clean _ (by rw [runeWidth_three _ spaceRunes_width]; decide)
      (hclean [229, 183, 178])
  unfold stripTaskTag
  rw [hidx]
  simp only []
  rw [hdrop, hR1, hR2, hR3, hout]
  simp [List.append_assoc]

theorem formatLine_queue_line (q : QueuedTask) (tail : GoString) (h3 : 3 ≤ tail.length)
    (hlen : tail.length ≤ 200) (hline : 10 ∉ tail) (htrim : trimSpace tail = tail)
    (hrev : runeWidthRev spaceRunes tail.reverse = 0) (hcand : isCandidate tail = true) :
    formatLine q
        (utf8 "⏳ 任务 #" ++ itoa q.TaskID ++ utf8 " - 已加入队列\n" ++ q.Link ++ 10 :: tail) true
      = itoa (q.Index + 1) ++ utf8 ". " ++
          (utf8 "[#" ++ itoa q.TaskID ++ utf8 "] " ++ q.Link ++ utf8 " — " ++ tail) := by
  have hsel : selectProgress (utf8 "已加入队列\n" ++ q.Link ++ 10 :: tail) = tail := by
    rw [selectProgress_last _ tail hline (by rw [htrim]; exact hcand), htrim]
  have htr : truncateProgress tail = tail := by
    unfold truncateProgress
    rw [if_neg (by omega)]
  unfold formatLine
  simp only [stripTaskTag_queue_line q.TaskID q.Link tail h3 hrev, hsel, htr, if_true]

theorem rawQueueLine_first (taskID : Int) (link : GoString) :
    rawQueueLine taskID link 1
      = utf8 "⏳ 任务 #" ++ itoa taskID ++ utf8 " - 已加入队列\n" ++ link ++
          10 :: utf8 "⚡ 即将开始处理" := by
  have h : utf8 "\n⚡ 即将开始处理" = 10 :: utf8 "⚡ 即将开始处理" := by decide
  unfold rawQueueLine
  rw [if_neg (by decide), h]

theorem rawQueueLine_second (taskID : Int) (link : GoString) :
    rawQueueLine taskID link 2
      = utf8 "⏳ 任务 #" ++ itoa taskID ++ utf8 " - 已加入队列\n" ++ link ++
          10 :: utf8 "📋 当前排队位置: 第 2 位" := by
  have h : utf8 "\n📋 当前排队位置: 第 " ++ itoa 2 ++ utf8 " 位"
      = 10 :: utf8 "📋 当前排队位置: 第 2 位" := by decide
  unfold rawQueueLine
  rw [if_pos (by decide), h]

theorem rawQueueLine_third (taskID : Int) (link : GoString) :
    rawQueueLine taskID link 3
      = utf8 "⏳ 任务 #" ++ itoa taskID ++ utf8 " - 已加入队列\n" ++ link ++
          10 :: utf8 "📋 当前排队位置: 第 3 位" := by
  have h : utf8 "\n📋 当前排队位置: 第 " ++ itoa 3 ++ utf8 " 位"
      = 10 :: utf8 "📋 当前排队位置: 第 3 位" := by decide
  unfold rawQueueLine
  rw [if_pos (by decide), h]

theorem allocTaskIDs_queue (n : Nat) : ∀ (tm : TaskManager) (u : Int),
    (allocTaskIDs tm u n).1.queue = tm.queue := by
  induction n with
  | zero => intro tm u; rfl
  | succ n ih =>
    intro tm u
    simp only [allocTaskIDs]
    rw [ih]
    rfl

theorem allocTaskIDs_three (tm : TaskManager) (u : Int) :
    (allocTaskIDs tm u 3).2
      = [(mapGet tm.counters u).getD 0 + 1, (mapGet tm.counters u).getD 0 + 2,
         (mapGet tm.counters u).getD 0 + 3] := by
  simp only [allocTaskIDs, nextCounter, mapGet_mapSet_self, Option.getD_some]
  simp only [List.cons.injEq, and_true, true_and]
  constructor
  · ring
  · ring

theorem enqueueAll_caches (sentMsg : Message) (ps : List QueuedPtr) :
    ∀ (h : Heap) (tm : TaskManager), tm.queue.length + ps.length ≤ queueCap →
      ∃ r, enqueueAll sentMsg h tm ps = some r ∧ r.2.summaryLines = tm.summaryLines ∧
        r.2.summaryKeyboards = tm.summaryKeyboards ∧
        r.2.summaryPendingCounts = tm.summaryPendingCounts := by
  induction ps with
  | nil => intro h tm _; exact ⟨(h, tm), rfl, rfl, rfl, rfl⟩
  | cons p rest ih =>
    intro h tm hroom
    have hlt : tm.queue.length < queueCap := by
      simp only [List.length_cons] at hroom
      omega
    have hen : EnqueueTask (h.setQueued p { h.queued p with StatusMsg := some sentMsg }) tm p
        = some { EnqueueTask_record
                  (h.setQueued p { h.queued p with StatusMsg := some sentMsg }) tm p with
                 queue := tm.queue ++ [p] } := by
      simp [EnqueueTask, chanSend, EnqueueTask_record, hlt]
    obtain ⟨r, hr, h1, h2, h3⟩ := ih
      (h.setQueued p { h.queued p with StatusMsg := some sentMsg })
      { EnqueueTask_record (h.setQueued p { h.queued p with StatusMsg := some sentMsg }) tm p with
        queue := tm.queue ++ [p] }
      (by simp only [List.length_append, List.length_cons, List.length_nil] at hroom ⊢; omega)
    refine ⟨r, ?_, h1, h2, h3⟩
    simp only [enqueueAll, hen]
    exact hr

theorem newSummaryItems_length (message : Message) (userID baseQueue : Int)
    (links : List GoString) :
    ∀ (h : Heap) (i : Nat) (ids : List Int),
      (newSummaryItems message userID baseQueue h i links ids).2.1.length ≤ links.length := by
  induction links with
  | nil => intro h i ids; simp [newSummaryItems]
  | cons link links ih =>
    intro h i ids
    cases ids with
    | nil => simp [newSummaryItems]
    | cons a ids =>
      simp only [newSummaryItems, List.length_cons]
      exact Nat.succ_le_succ (ih _ _ _)

theorem handleMessageLinks_caches (b : Bot) (message sentMsg : Message) (userID : Int)
    (links : List GoString) (hroom : b.taskManager.queue.length + links.length ≤ queueCap) :
    ∃ b2, b.handleMessageLinks message userID links (some sentMsg) = some b2 ∧
      GetSummaryLines b2.taskManager message.ChatID sentMsg.MessageID
        = some (newSummaryItems message userID
            (GetQueueSize (allocTaskIDs b.taskManager userID links.length).1) b.heap 0 links
            (allocTaskIDs b.taskManager userID links.length).2).2.2 ∧
      mapGet2 b2.taskManager.summaryKeyboards message.ChatID sentMsg.MessageID
        = some (summaryKeyboard userID) ∧
      mapGet2 b2.taskManager.summaryPendingCounts message.ChatID sentMsg.MessageID
        = some (((newSummaryItems message userID
            (GetQueueSize (allocTaskIDs b.taskManager userID links.length).1) b.heap 0 links
            (allocTaskIDs b.taskManager userID links.length).2).2.2.length : Nat) : Int) := by
  have hlen := newSummaryItems_length message userID
    (GetQueueSize (allocTaskIDs b.taskManager userID links.length).1) links b.heap 0
    (allocTaskIDs b.taskManager userID links.length).2
  obtain ⟨r, hr, h1, h2, h3⟩ := enqueueAll_caches sentMsg
    (newSummaryItems message userID
      (GetQueueSize (allocTaskIDs b.taskManager userID links.length).1) b.heap 0 links
      (allocTaskIDs b.taskManager userID links.length).2).2.1
    (newSummaryItems message userID
      (GetQueueSize (allocTaskIDs b.taskManager userID links.length).1) b.heap 0 links
      (allocTaskIDs b.taskManager userID links.length).2).1
    (InitSummary (allocTaskIDs b.taskManager userID links.length).1 message.ChatID
      sentMsg.MessageID
      (newSummaryItems message userID
        (GetQueueSize (allocTaskIDs b.taskManager userID links.length).1) b.heap 0 links
        (allocTaskIDs b.taskManager userID links.length).2).2.2
      (some (summaryKeyboard userID)))
    (by
      have hqueue : (InitSummary (allocTaskIDs b.taskManager userID links.length).1
          message.ChatID sentMsg.MessageID
          (newSummaryItems message userID
            (GetQueueSize (allocTaskIDs b.taskManager userID links.length).1) b.heap 0 links
            (allocTaskIDs b.taskManager userID links.length).2).2.2
          (some (summaryKeyboard userID))).queue = b.taskManager.queue :=
        allocTaskIDs_queue _ _ _
      rw [hqueue]
      omega)
  have hres : ∃ b2, b.handleMessageLinks message userID links (some sentMsg) = some b2 ∧
      b2.taskManager = r.2 := by
    unfold Bot.handleMessageLinks
    simp only [Bot.emit]
    rw [hr]
    exact ⟨_, rfl, rfl⟩
  obtain ⟨b2, hb2, htm⟩ := hres
  refine ⟨b2, hb2, ?_, ?_, ?_⟩
  · rw [htm, GetSummaryLines, h1]
    simp [InitSummary, mapGet2_mapSet2_self]
  · rw [htm, h2]
    simp [InitSummary, mapGet2_mapSet2_self]
  · rw [htm, h3]
    simp [InitSummary, mapGet2_mapSet2_self]

theorem row_first (q : QueuedTask) (hidx : q.Index = 0) :
    formatSummaryLine q (rawQueueLine q.TaskID q.Link 1)
      = utf8 "1. [#" ++ itoa q.TaskID ++ utf8 "] " ++ q.Link ++ utf8 " — ⚡ 即将开始处理" := by
  have h1 : utf8 "1. [#" = itoa (0 + 1) ++ utf8 ". " ++ utf8 "[#" := by decide
  have h2 : utf8 " — ⚡ 即将开始处理" = utf8 " — " ++ utf8 "⚡ 即将开始处理" := by decide
  unfold formatSummaryLine
  rw [rawQueueLine_first, formatLine_queue_line q (utf8 "⚡ 即将开始处理") (by decide) (by decide)
    (by decide) (by decide) (by decide) (by decide), hidx, h1, h2]
  simp only [List.append_assoc]

theorem row_second (q : QueuedTask) (hidx : q.Index = 1) :
    formatSummaryLine q (rawQueueLine q.TaskID q.Link 2)
      = utf8 "2. [#" ++ itoa q.TaskID ++ utf8 "] " ++ q.Link ++
          utf8 " — 📋 当前排队位置: 第 2 位" := by
  have h1 : utf8 "2. [#" = itoa (1 + 1) ++ utf8 ". " ++ utf8 "[#" := by decide
  have h2 : utf8 " — 📋 当前排队位置: 第 2 位" = utf8 " — " ++ utf8 "📋 当前排队位置: 第 2 位" := by
    decide
  unfold formatSummaryLine
  rw [rawQueueLine_second, formatLine_queue_line q (utf8 "📋 当前排队位置: 第 2 位") (by decide)
    (by decide) (by decide) (by decide) (by decide) (by decide), hidx, h1, h2]
  simp only [List.append_assoc]

theorem row_third (q : QueuedTask) (hidx : q.Index = 2) :
    formatSummaryLine q (rawQueueLine q.TaskID q.Link 3)
      = utf8 "3. [#" ++ itoa q.TaskID ++ utf8 "] " ++ q.Link ++
          utf8 " — 📋 当前排队位置: 第 3 位" := by
  have h1 : utf8 "3. [#" = itoa (2 + 1) ++ utf8 ". " ++ utf8 "[#" := by decide
  have h2 : utf8 " — 📋 当前排队位置: 第 3 位" = utf8 " — " ++ utf8 "📋 当前排队位置: 第 3 位" := by
    decide
  unfold formatSummaryLine
  rw [rawQueueLine_third, formatLine_queue_line q (utf8 "📋 当前排队位置: 第 3 位") (by decide)
    (by decide) (by decide) (by decide) (by decide) (by decide), hidx, h1, h2]
  simp only [List.append_assoc]

/-- Claim C18: a message with the three links `l0`, `l1`, `l2` that arrives while
the channel is empty and whose summary is sent as `sentMsg` initialises the unit
`(chat, sentMsg.MessageID)` with exactly three cached rows
`"<i+1>. [#<id_i>] <l_i> — <excerpt_i>"`, where the IDs are the next three of
the user, the first excerpt is `"⚡ 即将开始处理"` and the others give the queue
positions 2 and 3, with the summary keyboard and with pending count 3. -/
theorem three_links_make_one_summary (b : Bot) (message sentMsg : Message) (userID : Int)
    (l0 l1 l2 : GoString) (hq : b.taskManager.queue = []) :
    ∃ b2, b.handleMessageLinks message userID [l0, l1, l2] (some sentMsg) = some b2 ∧
      GetSummaryLines b2.taskManager message.ChatID sentMsg.MessageID
        = some
          [utf8 "1. [#" ++ itoa ((mapGet b.taskManager.counters userID).getD 0 + 1) ++
             utf8 "] " ++ l0 ++ utf8 " — ⚡ 即将开始处理",
           utf8 "2. [#" ++ itoa ((mapGet b.taskManager.counters userID).getD 0 + 2) ++
             utf8 "] " ++ l1 ++ utf8 " — 📋 当前排队位置: 第 2 位",
           utf8 "3. [#" ++ itoa ((mapGet b.taskManager.counters userID).getD 0 + 3) ++
             utf8 "] " ++ l2 ++ utf8 " — 📋 当前排队位置: 第 3 位"] ∧
      mapGet2 b2.taskManager.summaryKeyboards message.ChatID sentMsg.MessageID
        = some (summaryKeyboard userID) ∧
      mapGet2 b2.taskManager.summaryPendingCounts message.ChatID sentMsg.MessageID
        = some 3 := by
  obtain ⟨b2, hb2, hlines, hkb, hpend⟩ :=
    handleMessageLinks_caches b message sentMsg userID [l0, l1, l2]
      (by rw [hq]; simp [queueCap])
  have hbase : GetQueueSize (allocTaskIDs b.taskManager userID [l0, l1, l2].length).1 = 0 := by
    simp [GetQueueSize, allocTaskIDs_queue, hq]
  have hids := allocTaskIDs_three b.taskManager userID
  have hrows : (newSummaryItems message userID
      (GetQueueSize (allocTaskIDs b.taskManager userID [l0, l1, l2].length).1) b.heap 0
      [l0, l1, l2] (allocTaskIDs b.taskManager userID [l0, l1, l2].length).2).2.2
      = [utf8 "1. [#" ++ itoa ((mapGet b.taskManager.counters userID).getD 0 + 1) ++
           utf8 "] " ++ l0 ++ utf8 " — ⚡ 即将开始处理",
         utf8 "2. [#" ++ itoa ((mapGet b.taskManager.counters userID).getD 0 + 2) ++
           utf8 "] " ++ l1 ++ utf8 " — 📋 当前排队位置: 第 2 位",
         utf8 "3. [#" ++ itoa ((mapGet b.taskManager.counters userID).getD 0 + 3) ++
           utf8 "] " ++ l2 ++ utf8 " — 📋 当前排队位置: 第 3 位"] := by
    rw [hbase]
    show (newSummaryItems message userID 0 b.heap 0 [l0, l1, l2]
      (allocTaskIDs b.taskManager userID 3).2).2.2 = _
    rw [hids]
    simp only [newSummaryItems]
    have e1 : (0 : Int) + ((0 : Nat) : Int) + 1 = 1 := by norm_num
    have e2 : (0 : Int) + ((0 + 1 : Nat) : Int) + 1 = 2 := by norm_num
    have e3 : (0 : Int) + ((0 + 1 + 1 : Nat) : Int) + 1 = 3 := by norm_num
    rw [e1, e2, e3]
    rw [row_first _ rfl, row_second _ rfl, row_third _ rfl]
  refine ⟨b2, hb2, ?_, hkb, ?_⟩
  · rw [hlines, hrows]
  · rw [hpend, hrows]
    rfl

/-- Witness for C18: the first message of user 7 in the initial state. -/
theorem three_links_make_one_summary_witness :
    NewBot.taskManager.queue = [] ∧
    ∃ b2, NewBot.handleMessageLinks { ChatID := 100, MessageID := 1 } 7
        [utf8 "https://t.me/a/1", utf8 "https://t.me/a/2", utf8 "https://t.me/a/3"]
        (some { ChatID := 100, MessageID := 50 }) = some b2 ∧
      mapGet2 b2.taskManager.summaryPendingCounts 100 50 = some 3 :=
  ⟨rfl,
   (three_links_make_one_summary NewBot { ChatID := 100, MessageID := 1 }
      { ChatID := 100, MessageID := 50 } 7 (utf8 "https://t.me/a/1") (utf8 "https://t.me/a/2")
      (utf8 "https://t.me/a/3") rfl).elim (fun b2 h => ⟨b2, h.1, h.2.2.2⟩)⟩

/-- The rows cached for the first message of user 7 when it holds three links. -/
theorem three_links_example :
    (NewBot.handleMessageLinks { ChatID := 100, MessageID := 1 } 7
        [utf8 "https://t.me/a/1", utf8 "https://t.me/a/2", utf8 "https://t.me/a/3"]
        (some { ChatID := 100, MessageID := 50 })).map
        (fun b2 => GetSummaryLines b2.taskManager 100 50)
      = some (some
          [utf8 "1. [#1] https://t.me/a/1 — ⚡ 即将开始处理",
           utf8 "2. [#2] https://t.me/a/2 — 📋 当前排队位置: 第 2 位",
           utf8 "3. [#3] https://t.me/a/3 — 📋 当前排队位置: 第 3 位"]) := by
  decide

/-! ## The last status line wins -/

theorem GetTask_updateSummaryLine (b : Bot) (c m i : Int) (text : GoString) (u k : Int) :
    GetTask (b.updateSummaryLine c m i text).taskManager u k = GetTask b.taskManager u k := by
  unfold GetTask
  rw [core_tasks (displayOnly_updateSummaryLine b c m i text).2.2.1]

theorem heap_updateSummaryLine (b : Bot) (c m i : Int) (text : GoString) :
    (b.updateSummaryLine c m i text).heap = b.heap :=
  (displayOnly_updateSummaryLine b c m i text).1

theorem checkCancelled_of_running (b : Bot) (ex : Exec) (t : TaskPtr)
    (hrun : GetTask b.taskManager ex.userID ex.taskID = some t) :
    b.checkCancelled ex = some (b, Worker.running ex) := by
  simp [Bot.checkCancelled, hrun]

theorem processLine_push (b : Bot) (ex : Exec) (m : Message) (t : TaskPtr)
    (hmsg : ex.sentMsg = some m) (hrun : GetTask b.taskManager ex.userID ex.taskID = some t)
    (text : GoString) (now later : Int)
    (hclass : classifyLine ex.qrDetected text = LineClass.status)
    (hnow : now - ex.lastUpdate ≥ second) :
    b.processLine ex text now later
      = some
          (if (b.heap.queued ex.item).Shared then
             b.updateSummaryLine ex.chatID m.MessageID (b.heap.queued ex.item).Index
               (formatLine (b.heap.queued ex.item)
                 (trimSpace (replaceAll (trimSpace text) (utf8 "[STATUS]") [])) true)
           else
             b.updateTaskMessage ex.chatID m.MessageID
               (formatLine (b.heap.queued ex.item)
                 (trimSpace (replaceAll (trimSpace text) (utf8 "[STATUS]") [])) false)
               (some (cancelKeyboard ex.userID ex.taskID)),
           Worker.running
             { ex with
               currentStatus := trimSpace (replaceAll (trimSpace text) (utf8 "[STATUS]") [])
               statusSeen := true
               lastUpdate := later }) := by
  unfold classifyLine at hclass
  by_cases h1 : trimSpace text = []
  · simp [h1] at hclass
  · by_cases h2 : (!ex.qrDetected &&
        (contains (trimSpace text) (utf8 "Scan QR code") ||
          contains (trimSpace text) (utf8 "█"))) = true
    · simp [h1, h2] at hclass
    · by_cases h3 : contains (trimSpace text) (utf8 "[QRCODE]") = true
      · simp [h1, h2, h3] at hclass
      · by_cases h4 : contains (trimSpace text) (utf8 "[STATUS]") = true
        · unfold Bot.processLine
          rw [if_neg h1, if_neg h2, if_neg h3, if_pos h4, if_pos hnow]
          by_cases hs : (b.heap.queued ex.item).Shared = true
          · simp only [Bot.showStatus, hmsg, hs, if_true, cleanStatusLine]
            rw [checkCancelled_of_running _ _ t
              (by rw [GetTask_updateSummaryLine]; exact hrun)]
          · have hs2 : (b.heap.queued ex.item).Shared = false := by simpa using hs
            simp only [Bot.showStatus, hmsg, hs2, Bool.false_eq_true, if_false, cleanStatusLine]
            rw [checkCancelled_of_running _ _ t (by exact hrun)]
        · simp [h1, h2, h3, h4] at hclass

theorem processLine_of_running (b : Bot) (ex : Exec) (m : Message) (t : TaskPtr)
    (hmsg : ex.sentMsg = some m) (hrun : GetTask b.taskManager ex.userID ex.taskID = some t)
    (text : GoString) (now later : Int) :
    ∃ b1 ex1, b.processLine ex text now later = some (b1, Worker.running ex1) ∧
      b1.heap = b.heap ∧ GetTask b1.taskManager ex.userID ex.taskID = some t ∧
      ex1.sentMsg = some m ∧ ex1.userID = ex.userID ∧ ex1.taskID = ex.taskID ∧
      ex1.item = ex.item ∧ ex1.chatID = ex.chatID ∧
      ex1.qrDetected
        = (ex.qrDetected || decide (classifyLine ex.qrDetected text = LineClass.loginPrompt)) ∧
      ex1.currentStatus
        = (if classifyLine ex.qrDetected text = LineClass.status then
             trimSpace (replaceAll (trimSpace text) (utf8 "[STATUS]") [])
           else ex.currentStatus) ∧
      (ex1.lastUpdate = ex.lastUpdate ∨ ex1.lastUpdate = later) := by
  by_cases h1 : trimSpace text = []
  · have hc : classifyLine ex.qrDetected text = LineClass.blank := by simp [classifyLine, h1]
    refine ⟨b, ex, by simp [Bot.processLine, h1], rfl, hrun, hmsg, rfl, rfl, rfl, rfl, ?_, ?_,
      Or.inl rfl⟩
    · simp [hc]
    · simp [hc]
  · by_cases h2 : (!ex.qrDetected &&
        (contains (trimSpace text) (utf8 "Scan QR code") ||
          contains (trimSpace text) (utf8 "█"))) = true
    · have hc : classifyLine ex.qrDetected text = LineClass.loginPrompt := by
        simp only [classifyLine, if_neg h1, if_pos h2]
      refine ⟨b.updateTaskMessage ex.chatID m.MessageID (qrMessage ex.taskID)
          (some (cancelKeyboard ex.userID ex.taskID)), { ex with qrDetected := true }, ?_, rfl,
        hrun, hmsg, rfl, rfl, rfl, rfl, ?_, ?_, Or.inl rfl⟩
      · unfold Bot.processLine
        rw [if_neg h1, if_pos h2]
        simp only [hmsg]
      · simp [hc]
      · simp [hc]
    · by_cases h3 : contains (trimSpace text) (utf8 "[QRCODE]") = true
      · have hc : classifyLine ex.qrDetected text = LineClass.loginLink := by
          simp only [classifyLine, if_neg h1, if_neg h2, if_pos h3]
        refine ⟨b.updateTaskMessage ex.chatID m.MessageID
            (qrLinkMessage ex.taskID
              (trimSpace (replaceAll (trimSpace text) (utf8 "[QRCODE]") [])))
            (some (cancelKeyboard ex.userID ex.taskID)), ex, ?_, rfl, hrun, hmsg, rfl, rfl, rfl,
          rfl, ?_, ?_, Or.inl rfl⟩
        · unfold Bot.processLine
          rw [if_neg h1, if_neg h2, if_pos h3]
          simp only [hmsg]
        · simp [hc]
        · simp [hc]
      · by_cases h4 : contains (trimSpace text) (utf8 "[STATUS]") = true
        · have hc : classifyLine ex.qrDetected text = LineClass.status := by
            simp only [classifyLine, if_neg h1, if_neg h2, if_neg h3, if_pos h4]
          by_cases hnow : now - ex.lastUpdate ≥ second
          · refine ⟨_, _, processLine_push b ex m t hmsg hrun text now later hc hnow, ?_, ?_,
              hmsg, rfl, rfl, rfl, rfl, ?_, ?_, Or.inr rfl⟩
            · split
              · exact heap_updateSummaryLine _ _ _ _ _
              · rfl
            · split
              · rw [GetTask_updateSummaryLine]; exact hrun
              · exact hrun
            · simp [hc]
            · simp [hc]
          · refine ⟨b, { ex with
                currentStatus := trimSpace (replaceAll (trimSpace text) (utf8 "[STATUS]") [])
                statusSeen := true }, ?_, rfl, hrun, hmsg, rfl, rfl, rfl, rfl, ?_, ?_,
              Or.inl rfl⟩
            · unfold Bot.processLine
              rw [if_neg h1, if_neg h2, if_neg h3, if_pos h4, if_neg hnow]
              exact checkCancelled_of_running _ _ t hrun
            · simp [hc]
            · simp [hc]
        · have hc : classifyLine ex.qrDetected text = LineClass.other := by
            simp only [classifyLine, if_neg h1, if_neg h2, if_neg h3, if_neg h4]
          refine ⟨b, ex, ?_, rfl, hrun, hmsg, rfl, rfl, rfl, rfl, ?_, ?_, Or.inl rfl⟩
          · unfold Bot.processLine
            rw [if_neg h1, if_neg h2, if_neg h3, if_neg h4]
            exact checkCancelled_of_running _ _ t hrun
          · simp [hc]
          · simp [hc]

theorem getLast?_cons_eq {α : Type} (a : α) (l : List α) :
    (a :: l).getLast? = match l.getLast? with
      | some x => some x
      | none => some a := by
  cases l with
  | nil => rfl
  | cons b l =>
    rw [List.getLast?_cons_cons]
    cases h : (b :: l).getLast? with
    | none => simp at h
    | some x => rfl

theorem processLines_of_running (lines : List (GoString × Int × Int)) :
    ∀ (b : Bot) (ex : Exec) (m : Message) (t : TaskPtr), ex.sentMsg = some m →
      GetTask b.taskManager ex.userID ex.taskID = some t →
      ∃ b2 ex2, b.processLines ex lines = some (b2, Worker.running ex2) ∧
        ex2.currentStatus
          = match (statusLines ex.qrDetected (lines.map Prod.fst)).getLast? with
            | some text => trimSpace (replaceAll (trimSpace text) (utf8 "[STATUS]") [])
            | none => ex.currentStatus := by
  induction lines with
  | nil =>
    intro b ex m t _ _
    exact ⟨b, ex, rfl, rfl⟩
  | cons line rest ih =>
    intro b ex m t hmsg hrun
    obtain ⟨b1, ex1, hstep, _, hrun1, hmsg1, hu, hi, _, _, hqr, hcur, _⟩ :=
      processLine_of_running b ex m t hmsg hrun line.1 line.2.1 line.2.2
    obtain ⟨b2, ex2, hrest, hlast⟩ := ih b1 ex1 m t hmsg1 (by rw [hu, hi]; exact hrun1)
    refine ⟨b2, ex2, ?_, ?_⟩
    · simp only [Bot.processLines, hstep]
      exact hrest
    · rw [hlast, hqr, hcur]
      simp only [List.map_cons, statusLines]
      cases hc : classifyLine ex.qrDetected line.1 with
      | blank => simp
      | loginPrompt => simp
      | loginLink => simp
      | other => simp
      | status =>
        simp only [reduceCtorEq, decide_False, Bool.or_false, if_true, getLast?_cons_eq]
        cases (statusLines ex.qrDetected (rest.map Prod.fst)).getLast? <;> rfl

theorem contains_of_head_absent (a : Nat) (sub : GoString) (s : GoString) (ha : a ∉ s) :
    contains s (a :: sub) = false := by
  induction s with
  | nil => simp [contains]
  | cons b rest ih =>
    have hb : b ≠ a := fun h => ha (by rw [h]; exact List.mem_cons_self _ _)
    have hrest : a ∉ rest := fun h => ha (List.mem_cons_of_mem _ h)
    simp [contains, startsWith, List.isPrefixOf, Ne.symm hb, ih hrest]

theorem formatLine_ninety (q : QueuedTask) (includeIndex : Bool) :
    formatLine q (utf8 "90% done") includeIndex
      = (if includeIndex then itoa (q.Index + 1) ++ utf8 ". " else []) ++
          (utf8 "[#" ++ itoa q.TaskID ++ utf8 "] " ++ q.Link ++ utf8 " — 90% done") := by
  have htag : utf8 "任务 #" = 228 :: [187, 187, 229, 138, 161, 32, 35] := by decide
  have hno : contains (utf8 "90% done") (utf8 "任务 #" ++ itoa q.TaskID) = false := by
    rw [htag]
    exact contains_of_head_absent 228 _ _ (by decide)
  have hsel : truncateProgress (selectProgress (utf8 "90% done")) = utf8 "90% done" := by decide
  have hjoin : utf8 " — 90% done" = utf8 " — " ++ utf8 "90% done" := by decide
  unfold formatLine
  rw [stripTaskTag_of_not_contains _ _ hno, hsel, hjoin]
  cases includeIndex <;> simp [List.append_assoc]

theorem classify_status_examples (qrDetected : Bool) :
    classifyLine qrDetected (utf8 "[STATUS] 50% done") = LineClass.status ∧
    classifyLine qrDetected (utf8 "[STATUS] 90% done") = LineClass.status ∧
    trimSpace (replaceAll (trimSpace (utf8 "[STATUS] 90% done")) (utf8 "[STATUS]") [])
      = utf8 "90% done" := by
  cases qrDetected <;> refine ⟨?_, ?_, ?_⟩ <;> decide

/-- Claim C21, amended: for a running task whose status message exists, the line
loop reads every sequence of lines and stays in the loop, and the stored status
is then the text of the last line classified as a status line, trimmed, with the
`[STATUS]` tags replaced by nothing and trimmed again (the status before the
loop when no line was a status line); a status line whose clock value is at
least one second after the value stored after the previous push or at the start
is pushed at once, to the row of a shared message or to the standalone message;
and for the lines `[STATUS] 50% done` and `[STATUS] 90% done`, the second at
least one second after the start and after the clock value `p1` read after a
push of the first, the row pushed last ends with the excerpt `90% done`. -/
theorem last_status_line_wins (b : Bot) (ex : Exec) (m : Message) (t : TaskPtr)
    (hmsg : ex.sentMsg = some m) (hrun : GetTask b.taskManager ex.userID ex.taskID = some t) :
    (∀ lines : List (GoString × Int × Int),
      ∃ b2 ex2, b.processLines ex lines = some (b2, Worker.running ex2) ∧
        ex2.currentStatus
          = match (statusLines ex.qrDetected (lines.map Prod.fst)).getLast? with
            | some text => trimSpace (replaceAll (trimSpace text) (utf8 "[STATUS]") [])
            | none => ex.currentStatus) ∧
    (∀ (text : GoString) (now later : Int),
      classifyLine ex.qrDetected text = LineClass.status → now - ex.lastUpdate ≥ second →
      b.processLine ex text now later
        = some
          (if (b.heap.queued ex.item).Shared then
             b.updateSummaryLine ex.chatID m.MessageID (b.heap.queued ex.item).Index
               (formatLine (b.heap.queued ex.item)
                 (trimSpace (replaceAll (trimSpace text) (utf8 "[STATUS]") [])) true)
           else
             b.updateTaskMessage ex.chatID m.MessageID
               (formatLine (b.heap.queued ex.item)
                 (trimSpace (replaceAll (trimSpace text) (utf8 "[STATUS]") [])) false)
               (some (cancelKeyboard ex.userID ex.taskID)),
           Worker.running
             { ex with
               currentStatus := trimSpace (replaceAll (trimSpace text) (utf8 "[STATUS]") [])
               statusSeen := true
               lastUpdate := later })) ∧
    (∀ t1 p1 t2 p2 : Int, t2 - ex.lastUpdate ≥ second → t2 - p1 ≥ second →
      ∃ (b1 : Bot) (ex2 : Exec),
        b.processLines ex
            [(utf8 "[STATUS] 50% done", t1, p1), (utf8 "[STATUS] 90% done", t2, p2)]
          = some
            (if (b.heap.queued ex.item).Shared then
               b1.updateSummaryLine ex.chatID m.MessageID (b.heap.queued ex.item).Index
                 (itoa ((b.heap.queued ex.item).Index + 1) ++ utf8 ". " ++
                   (utf8 "[#" ++ itoa (b.heap.queued ex.item).TaskID ++ utf8 "] " ++
                     (b.heap.queued ex.item).Link ++ utf8 " — 90% done"))
             else
               b1.updateTaskMessage ex.chatID m.MessageID
                 (utf8 "[#" ++ itoa (b.heap.queued ex.item).TaskID ++ utf8 "] " ++
                   (b.heap.queued ex.item).Link ++ utf8 " — 90% done")
                 (some (cancelKeyboard ex.userID ex.taskID)),
             Worker.running ex2) ∧
        ex2.currentStatus = utf8 "90% done") := by
  refine ⟨fun lines => processLines_of_running lines b ex m t hmsg hrun,
    fun text now later hclass hnow => processLine_push b ex m t hmsg hrun text now later hclass hnow,
    ?_⟩
  intro t1 p1 t2 p2 hstart hpush
  obtain ⟨b1, ex1, hstep, hheap, hrun1, hmsg1, hu, hi, hitem, hchat, _, _, hlast⟩ :=
    processLine_of_running b ex m t hmsg hrun (utf8 "[STATUS] 50% done") t1 p1
  have hex := classify_status_examples ex1.qrDetected
  have hnow : t2 - ex1.lastUpdate ≥ second := by
    rcases hlast with h | h
    · rw [h]; exact hstart
    · rw [h]; exact hpush
  have hsecond := processLine_push b1 ex1 m t hmsg1 (by rw [hu, hi]; exact hrun1)
    (utf8 "[STATUS] 90% done") t2 p2 hex.2.1 hnow
  rw [hex.2.2, hheap, hitem, hchat, hu, hi, formatLine_ninety, formatLine_ninety] at hsecond
  refine ⟨b1, { ex1 with currentStatus := utf8 "90% done", statusSeen := true, lastUpdate := p2 },
    ?_, rfl⟩
  simp only [Bot.processLines, hstep, hsecond]
  simp
  exact ⟨hitem.symm, hu.symm, hchat.symm, hi.symm⟩

/-- Witness for C21: `exampleItem` after its runner was started at clock value 0,
with the first line one second after the start and the second one second
later; the standalone message is edited to end with `90% done`. -/
theorem last_status_line_wins_witness :
    exampleStartedExec.sentMsg = some { ChatID := 100, MessageID := 50 } ∧
    GetTask exampleStarted.taskManager exampleStartedExec.userID exampleStartedExec.taskID
      = some 0 ∧
    (2000 : Int) - exampleStartedExec.lastUpdate ≥ second ∧ (2000 : Int) - 1000 ≥ second ∧
    ∃ (b1 : Bot) (ex2 : Exec),
      exampleStarted.processLines exampleStartedExec
          [(utf8 "[STATUS] 50% done", 1000, 1000), (utf8 "[STATUS] 90% done", 2000, 2000)]
        = some
          (if (exampleStarted.heap.queued exampleStartedExec.item).Shared then
             b1.updateSummaryLine exampleStartedExec.chatID 50
               (exampleStarted.heap.queued exampleStartedExec.item).Index
               (itoa ((exampleStarted.heap.queued exampleStartedExec.item).Index + 1) ++
                 utf8 ". " ++
                 (utf8 "[#" ++ itoa (exampleStarted.heap.queued exampleStartedExec.item).TaskID ++
                   utf8 "] " ++ (exampleStarted.heap.queued exampleStartedExec.item).Link ++
                   utf8 " — 90% done"))
           else
             b1.updateTaskMessage exampleStartedExec.chatID 50
               (utf8 "[#" ++ itoa (exampleStarted.heap.queued exampleStartedExec.item).TaskID ++
                 utf8 "] " ++ (exampleStarted.heap.queued exampleStartedExec.item).Link ++
                 utf8 " — 90% done")
               (some (cancelKeyboard exampleStartedExec.userID exampleStartedExec.taskID)),
           Worker.running ex2) ∧
      ex2.currentStatus = utf8 "90% done" :=
  ⟨rfl, by decide, by decide, by decide,
   (last_status_line_wins exampleStarted exampleStartedExec { ChatID := 100, MessageID := 50 } 0
      rfl (by decide)).2.2 1000 1000 2000 2000 (by decide) (by decide)⟩

/-- The run of `exampleItem` with the two status lines, from the initial state:
the worker stands in the loop with the locals of `exampleStartedExec` before the
lines, both lines are pushed, and the message shows `90% done` at the end. -/
theorem two_status_lines_example :
    exampleStarted.workers = [Worker.running exampleStartedExec] ∧
    (run NewBot (twoStatusLinesRun.take 10)).map (fun b => b.log.getLast?)
      = some (some (Effect.edit 100 50 (utf8 "[#1] https://t.me/a/1 — 50% done")
          (some (cancelKeyboard 7 1)))) ∧
    (run NewBot twoStatusLinesRun).map (fun b => b.log.getLast?)
      = some (some (Effect.edit 100 50 (utf8 "[#1] https://t.me/a/1 — 90% done")
          (some (cancelKeyboard 7 1)))) ∧
    (run NewBot twoStatusLinesRun).map
        (fun b => b.workers.map (fun w => w.exec?.map (fun ex => ex.currentStatus)))
      = some [some (utf8 "90% done")] := by
  refine ⟨?_, ?_, ?_, ?_⟩ <;> decide

/-- Claim C21, as it fails: along `throttledStatusRun` the line
`[STATUS] 50% done` is pushed and the clock value 1001 read after the push is
stored; the line `[STATUS] 90% done` arrives one second after the first line, 999
milliseconds after the stored value, so it is stored and not pushed: the
executor stays in the loop and the message still ends with `50% done`. -/
theorem second_status_line_is_throttled :
    (run NewBot (throttledStatusRun.take 10)).map (fun b => b.log.getLast?)
      = some (some (Effect.edit 100 50 (utf8 "[#1] https://t.me/a/1 — 50% done")
          (some (cancelKeyboard 7 1)))) ∧
    (run NewBot (throttledStatusRun.take 10)).map
        (fun b => b.workers.map (fun w => w.exec?.map (fun ex => ex.lastUpdate)))
      = some [some 1001] ∧
    (run NewBot throttledStatusRun).map (fun b => b.workers.map Worker.inLineLoop)
      = some [true] ∧
    (run NewBot throttledStatusRun).map
        (fun b => b.workers.map (fun w => w.exec?.map (fun ex => ex.currentStatus)))
      = some [some (utf8 "90% done")] ∧
    (run NewBot throttledStatusRun).map (fun b => b.log.getLast?)
      = some (some (Effect.edit 100 50 (utf8 "[#1] https://t.me/a/1 — 50% done")
          (some (cancelKeyboard 7 1)))) ∧
    (run NewBot throttledStatusRun).map (fun b => b.log.length)
      = (run NewBot (throttledStatusRun.take 10)).map (fun b => b.log.length) := by
  refine ⟨?_, ?_, ?_, ?_, ?_, ?_⟩ <;> decide

end GoBot
